import Mathlib

/-!
# Linux-Kernel-Chess: the rule engine of `chess.c`

A shallow embedding of the board, the move validator, the check and checkmate
scans and the session handlers of `src/chess/chess.c`, with the properties of
the specification proved (or refuted) over it.

Conventions of the embedding.

* `game_board[r][c]` is a three byte C string: two characters and the
  terminating NUL.  A `Square` holds the two characters.  The program only
  ever stores `"**"` or a colour and a kind in a cell, and `strcpy` between
  cells is modelled as the copy of a `Square`.
* A move text is the list of characters of the C string (the terminating NUL
  is not part of the list); `charAt` reads one byte of it.
* The global `game_board` is passed explicitly: a function of the program that
  reads or writes the board takes a `Board` and returns the board it leaves.
* `game_board` is one block of 64 cells, and `game_board[r][c]` is the cell
  number `8 * r + c` of it: with a column index outside `0..7` the program
  reads a cell of the neighbouring row.  An access outside the block has no
  defined result: the functions return `none` there (`Option`), and so does
  every caller.  The validator leaves the rows in the scan of `obstacles` for a
  move of a bishop, rook or queen onto its own square: the scan walks to the
  left of the piece, through the rows below, until it meets a non-empty cell,
  and leaves the array when there is none.  A property of a call that returns
  `r` is stated under `(f ..).map Prod.fst = some r`.
-/

namespace Chess

/-- The two characters of one board cell (`game_board[r][c][0]`, `game_board[r][c][1]`). -/
structure Square where
  c0 : Char
  c1 : Char
deriving DecidableEq, Repr

/-- The `EMPTY` string of the program. -/
def EMPTY : Square := ⟨'*', '*'⟩

/-- The global `game_board[BOARD_SIZE][BOARD_SIZE][3]`. -/
abbrev Board := Fin 8 → Fin 8 → Square

/-- Write of one cell: `strcpy(game_board[r][c], s)`. -/
def setSq (b : Board) (r c : Fin 8) (s : Square) : Board :=
  fun i j => if i = r ∧ j = c then s else b i j

/-- Read of `game_board[r][c]` with `int` indices: the cell number `8 * r + c`
of the array, which lies in another row when `c` is outside `0..7`; `none` when
the address is outside the array. -/
def getSq (b : Board) (r c : Int) : Option Square :=
  if h : 0 ≤ 8 * r + c ∧ 8 * r + c < 64 then
    some (b ⟨((8 * r + c) / 8).toNat, by omega⟩ ⟨((8 * r + c) % 8).toNat, by omega⟩)
  else none

/-- Write of `game_board[r][c]` with `int` indices: the cell number `8 * r + c`
of the array; `none` when the address is outside the array. -/
def putSq (b : Board) (r c : Int) (s : Square) : Option Board :=
  if h : 0 ≤ 8 * r + c ∧ 8 * r + c < 64 then
    some (setSq b ⟨((8 * r + c) / 8).toNat, by omega⟩ ⟨((8 * r + c) % 8).toNat, by omega⟩ s)
  else none

/-- The byte `move[i]` of a C string: past the last character stands the NUL. -/
def charAt (move : List Char) (i : Nat) : Char := move.getD i (Char.ofNat 0)

/-- A character as a C `int`. -/
def ord (c : Char) : Int := (c.toNat : Int)

/-- One of the three scanning loops of `obstacles`: starting at `(row, col)`,
while `stop` does not hold, the cell is compared with `EMPTY` (a non-empty cell
returns `true`) and the position advances by `(row_step, col_step)`.  Leaving
the loop returns `false`.  A read outside the array is `none`.  The fuel is the
number of iterations left; sixty-five are enough, since every iteration reads
another of the 64 cells of the array (`scan_fuel_enough`). -/
def scan (b : Board) (row_step col_step : Int) (stop : Int → Int → Bool) :
    Nat → Int → Int → Option Bool
  | 0, _, _ => none
  | n + 1, row, col =>
    if stop row col then some false
    else
      match getSq b row col with
      | none => none
      | some s =>
        if s ≠ EMPTY then some true
        else scan b row_step col_step stop n (row + row_step) (col + col_step)

/-- The helper `obstacles` of the program (lines 146-196). -/
def obstacles (b : Board) (from_row from_col to_row to_col : Int) : Option Bool :=
  let row_diff := to_row - from_row
  let col_diff := to_col - from_col
  let row_step : Int := if row_diff > 0 then 1 else -1
  let col_step : Int := if col_diff > 0 then 1 else -1
  if row_diff = 0 then
    scan b 0 col_step (fun _ col => col = to_col) 65 from_row (from_col + col_step)
  else if col_diff = 0 then
    scan b row_step 0 (fun row _ => row = to_row) 65 (from_row + row_step) from_col
  else if row_diff.natAbs = col_diff.natAbs then
    scan b row_step col_step (fun row col => !(row != to_row && col != to_col)) 65
      (from_row + row_step) (from_col + col_step)
  else some false

/-- The checks of a quiet pawn move before the path is looked at
(lines 227-241); each of them returns `false`. -/
def pawn_quiet_rejects (move : List Char) (from_row from_col to_row to_col : Int) : Prop :=
  if charAt move 0 = 'W' then
    ¬ (from_col = to_col ∧ (from_row + 1 = to_row ∨ (from_row = 1 ∧ to_row = 3))) ∨ to_row = 7
  else
    ¬ (from_col = to_col ∧ (from_row - 1 = to_row ∨ (from_row = 6 ∧ to_row = 4))) ∨ to_row = 0

instance (move : List Char) (from_row from_col to_row to_col : Int) :
    Decidable (pawn_quiet_rejects move from_row from_col to_row to_col) := by
  unfold pawn_quiet_rejects; infer_instance

/-- The test `if (obstacles(..)) return false;` of `validate_move`. -/
def path_free (b : Board) (from_row from_col to_row to_col : Int) : Option Bool :=
  (obstacles b from_row from_col to_row to_col).map (fun o => !o)

/-- The piece movement part of `validate_move` (lines 224-279): `some true`
when the function goes on, `some false` when it returns `false`. -/
def movement (b : Board) (move : List Char) (from_row from_col to_row to_col : Int) :
    Option Bool :=
  if charAt move 1 = 'P' then
    if move.length = 7 then
      if pawn_quiet_rejects move from_row from_col to_row to_col then some false
      else path_free b from_row from_col to_row to_col
    else some true
  else if charAt move 1 = 'N' then
    if ¬ (((to_row - from_row).natAbs = 2 ∧ (to_col - from_col).natAbs = 1) ∨
          ((to_row - from_row).natAbs = 1 ∧ (to_col - from_col).natAbs = 2)) then some false
    else some true
  else if charAt move 1 = 'B' then
    if ¬ ((to_row - from_row).natAbs = (to_col - from_col).natAbs) then some false
    else path_free b from_row from_col to_row to_col
  else if charAt move 1 = 'R' then
    if ¬ (from_row = to_row ∨ from_col = to_col) then some false
    else path_free b from_row from_col to_row to_col
  else if charAt move 1 = 'Q' then
    if ¬ (from_row = to_row ∨ from_col = to_col ∨
          (to_row - from_row).natAbs = (to_col - from_col).natAbs) then some false
    else path_free b from_row from_col to_row to_col
  else if charAt move 1 = 'K' then
    if ¬ ((to_row - from_row).natAbs ≤ 1 ∧ (to_col - from_col).natAbs ≤ 1) then some false
    else some true
  else some false

/-- The promotion write `game_board[from_row][from_col][1] = k`. -/
def promote (b : Board) (from_row from_col : Int) (k : Char) : Option Board :=
  match getSq b from_row from_col with
  | none => none
  | some s => putSq b from_row from_col ⟨s.c0, k⟩

/-- The checks of the capture branch `move[7] == 'x'` of a ten character move
(lines 290-315); each of them returns `false`. -/
def capture_rejects (move : List Char) (dst : Square) (from_row from_col to_row to_col : Int) :
    Prop :=
  (charAt move 8 ≠ 'W' ∧ charAt move 8 ≠ 'B') ∨
  charAt move 8 = charAt move 0 ∨
  ¬ (dst.c0 = charAt move 8 ∧ dst.c1 = charAt move 9) ∨
  (charAt move 1 = 'P' ∧
    (if charAt move 0 = 'W' then
      (to_row ≠ from_row + 1 ∨ (to_col - from_col).natAbs ≠ 1) ∨ to_row = 7
    else
      (to_row ≠ from_row - 1 ∨ (to_col - from_col).natAbs ≠ 1) ∨ to_row = 0))

instance (move : List Char) (dst : Square) (from_row from_col to_row to_col : Int) :
    Decidable (capture_rejects move dst from_row from_col to_row to_col) := by
  unfold capture_rejects; infer_instance

/-- The checks of the promotion branch `move[7] == 'y'` of a ten character move
(lines 317-337); each of them returns `false`. -/
def promotion_rejects (move : List Char) (dst : Square) (from_row from_col to_row to_col : Int) :
    Prop :=
  charAt move 1 ≠ 'P' ∨
  charAt move 0 ≠ charAt move 8 ∨
  (charAt move 9 ≠ 'Q' ∧ charAt move 9 ≠ 'R' ∧ charAt move 9 ≠ 'B' ∧ charAt move 9 ≠ 'N') ∨
  (if charAt move 0 = 'W' then from_row ≠ 6 ∨ to_row ≠ 7 ∨ from_col ≠ to_col
    else from_row ≠ 1 ∨ to_row ≠ 0 ∨ from_col ≠ to_col) ∨
  ¬ (dst.c0 = '*' ∧ dst.c1 = '*')

instance (move : List Char) (dst : Square) (from_row from_col to_row to_col : Int) :
    Decidable (promotion_rejects move dst from_row from_col to_row to_col) := by
  unfold promotion_rejects; infer_instance

/-- The block `if (strlen(move) == 10)` of `validate_move` (lines 288-344). -/
def validate_len10 (b : Board) (move : List Char) (dst : Square)
    (from_row from_col to_row to_col : Int) : Option (Bool × Board) :=
  if charAt move 7 = 'x' then
    if capture_rejects move dst from_row from_col to_row to_col then some (false, b)
    else some (true, b)
  else if charAt move 7 = 'y' then
    if promotion_rejects move dst from_row from_col to_row to_col then some (false, b)
    else (promote b from_row from_col (charAt move 9)).map (fun b1 => (true, b1))
  else some (false, b)

/-- The checks of a thirteen character move (lines 347-380); each of them
returns `false`. -/
def capture_promotion_rejects (move : List Char) (dst : Square)
    (from_row from_col to_row to_col : Int) : Prop :=
  charAt move 1 ≠ 'P' ∨
  charAt move 0 ≠ charAt move 11 ∨
  charAt move 7 ≠ 'x' ∨
  charAt move 10 ≠ 'y' ∨
  (charAt move 8 ≠ 'W' ∧ charAt move 8 ≠ 'B') ∨
  charAt move 8 = charAt move 0 ∨
  ¬ (dst.c0 = charAt move 8 ∧ dst.c1 = charAt move 9) ∨
  (if charAt move 0 = 'W' then
      from_row ≠ 6 ∨ to_row ≠ 7 ∨ (to_col - from_col).natAbs ≠ 1
    else from_row ≠ 1 ∨ to_row ≠ 0 ∨ (to_col - from_col).natAbs ≠ 1) ∨
  (charAt move 12 ≠ 'Q' ∧ charAt move 12 ≠ 'R' ∧ charAt move 12 ≠ 'B' ∧ charAt move 12 ≠ 'N')

instance (move : List Char) (dst : Square) (from_row from_col to_row to_col : Int) :
    Decidable (capture_promotion_rejects move dst from_row from_col to_row to_col) := by
  unfold capture_promotion_rejects; infer_instance

/-- The block `if (strlen(move) == 13)` of `validate_move` (lines 346-382). -/
def validate_len13 (b : Board) (move : List Char) (dst : Square)
    (from_row from_col to_row to_col : Int) : Option (Bool × Board) :=
  if capture_promotion_rejects move dst from_row from_col to_row to_col then some (false, b)
  else (promote b from_row from_col (charAt move 12)).map (fun b1 => (true, b1))

/-- The end of `validate_move` (lines 281-384), after the movement of the piece
was accepted: the destination of a quiet move, then the blocks of the ten and
thirteen character moves. -/
def validate_tail (b : Board) (move : List Char) (dst : Square)
    (from_row from_col to_row to_col : Int) : Option (Bool × Board) :=
  if move.length = 7 ∧ ¬ (dst.c0 = '*' ∧ dst.c1 = '*') then some (false, b)
  else if move.length = 10 then validate_len10 b move dst from_row from_col to_row to_col
  else if move.length = 13 then validate_len13 b move dst from_row from_col to_row to_col
  else some (true, b)

/-- The checks on the text of the move at the head of `validate_move`
(lines 201-219): length, colour, squares on the board, marker `-`; each of them
returns `false`. -/
def header_rejects (move : List Char) : Prop :=
  (move.length ≠ 7 ∧ move.length ≠ 10 ∧ move.length ≠ 13) ∨
  (charAt move 0 ≠ 'W' ∧ charAt move 0 ≠ 'B') ∨
  (ord (charAt move 3) - ord '1' < 0 ∨ ord (charAt move 3) - ord '1' ≥ 8 ∨
    ord (charAt move 2) - ord 'a' < 0 ∨ ord (charAt move 2) - ord 'a' ≥ 8 ∨
    ord (charAt move 6) - ord '1' < 0 ∨ ord (charAt move 6) - ord '1' ≥ 8 ∨
    ord (charAt move 5) - ord 'a' < 0 ∨ ord (charAt move 5) - ord 'a' ≥ 8) ∨
  charAt move 4 ≠ '-'

instance (move : List Char) : Decidable (header_rejects move) := by
  unfold header_rejects; infer_instance

/-- The function `validate_move` of the program (lines 198-385).  The result is
the returned boolean and the board the call leaves (a legal promotion rewrites
the kind of the pawn on its source cell). -/
def validate_move (b : Board) (move : List Char) : Option (Bool × Board) :=
  if header_rejects move then some (false, b)
  else
    let from_col : Int := ord (charAt move 2) - ord 'a'
    let from_row : Int := ord (charAt move 3) - ord '1'
    let to_col : Int := ord (charAt move 5) - ord 'a'
    let to_row : Int := ord (charAt move 6) - ord '1'
    match getSq b from_row from_col, getSq b to_row to_col with
    | some src, some dst =>
      if ¬ (src.c0 = charAt move 0 ∧ src.c1 = charAt move 1) then some (false, b)
      else
        match movement b move from_row from_col to_row to_col with
        | none => none
        | some false => some (false, b)
        | some true => validate_tail b move dst from_row from_col to_row to_col
    | _, _ => none

/-- The function `update_game_state` of the program (lines 388-397). -/
def update_game_state (b : Board) (move : List Char) : Option Board :=
  let from_col : Int := ord (charAt move 2) - ord 'a'
  let from_row : Int := ord (charAt move 3) - ord '1'
  let to_col : Int := ord (charAt move 5) - ord 'a'
  let to_row : Int := ord (charAt move 6) - ord '1'
  match getSq b from_row from_col with
  | none => none
  | some piece =>
    match putSq b to_row to_col piece with
    | none => none
    | some b1 => putSq b1 from_row from_col EMPTY

/-- The board after `initialize_board` (lines 75-110). -/
def initialize_board : Board := fun r c =>
  if r = 1 then ⟨'W', 'P'⟩
  else if r = 6 then ⟨'B', 'P'⟩
  else if r = 0 then
    ⟨'W', if c = 0 ∨ c = 7 then 'R' else if c = 1 ∨ c = 6 then 'N'
          else if c = 2 ∨ c = 5 then 'B' else if c = 3 then 'Q' else 'K'⟩
  else if r = 7 then
    ⟨'B', if c = 0 ∨ c = 7 then 'R' else if c = 1 ∨ c = 6 then 'N'
          else if c = 2 ∨ c = 5 then 'B' else if c = 3 then 'Q' else 'K'⟩
  else EMPTY

/-- The row (and column) indices in the order of the loops `for (i = 0; i < BOARD_SIZE; i++)`. -/
def rows : List (Fin 8) := [0, 1, 2, 3, 4, 5, 6, 7]

/-- The cells in the order of a double loop, rows outside and columns inside. -/
def squares : List (Fin 8 × Fin 8) := rows.flatMap (fun r => rows.map (fun c => (r, c)))

/-- The character `'a' + col` of the move generators. -/
def colChar (col : Fin 8) : Char := Char.ofNat (97 + col.val)

/-- The text `%d` prints for `row + 1`, one digit for the rows of the board. -/
def rowChar (row : Fin 8) : Char := Char.ofNat (49 + row.val)

/-- The function `generate_move_capture` of the program (lines 400-415). -/
def generate_move_capture (b : Board) (from_row from_col to_row to_col : Fin 8) : List Char :=
  [(b from_row from_col).c0, (b from_row from_col).c1, colChar from_col, rowChar from_row, '-',
    colChar to_col, rowChar to_row, 'x', (b to_row to_col).c0, (b to_row to_col).c1]

/-- The function `generate_move_non_capture` of the program (lines 418-431). -/
def generate_move_non_capture (b : Board) (from_row from_col to_row to_col : Fin 8) :
    List Char :=
  [(b from_row from_col).c0, (b from_row from_col).c1, colChar from_col, rowChar from_row, '-',
    colChar to_col, rowChar to_row]

/-- The first double loop of `is_opponent_in_check` (lines 439-446): the last
cell, in loop order, that holds a `'K'` whose colour is not `curr_color`;
`(0, 0)` when there is none. -/
def find_king (b : Board) (curr_color : Char) : Fin 8 × Fin 8 :=
  squares.foldl
    (fun king p => if (b p.1 p.2).c1 = 'K' ∧ (b p.1 p.2).c0 ≠ curr_color then p else king)
    (0, 0)

/-- The second double loop of `is_opponent_in_check` (lines 449-458) over the
cells still to visit. -/
def attack_scan (curr_color : Char) (king : Fin 8 × Fin 8) :
    List (Fin 8 × Fin 8) → Board → Option (Bool × Board)
  | [], b => some (false, b)
  | p :: rest, b =>
    if (b p.1 p.2).c0 = curr_color then
      match validate_move b (generate_move_capture b p.1 p.2 king.1 king.2) with
      | none => none
      | some (true, b1) => some (true, b1)
      | some (false, b1) => attack_scan curr_color king rest b1
    else attack_scan curr_color king rest b

/-- The function `is_opponent_in_check` of the program (lines 433-462). -/
def is_opponent_in_check (b : Board) (curr_color : Char) : Option (Bool × Board) :=
  attack_scan curr_color (find_king b curr_color) squares b

/-- The function `try_and_undo` of the program (lines 465-484). -/
def try_and_undo (b : Board) (from_row from_col to_row to_col : Fin 8) (curr_color : Char) :
    Option (Bool × Board) :=
  let piece := b from_row from_col
  let captured_piece := b to_row to_col
  let b1 := setSq b to_row to_col piece
  let b2 := setSq b1 from_row from_col EMPTY
  match is_opponent_in_check b2 curr_color with
  | none => none
  | some (in_check, b3) =>
    let b4 := setSq b3 from_row from_col piece
    let b5 := setSq b4 to_row to_col captured_piece
    some (!in_check, b5)

/-- The condition `validate_move(generate_move_non_capture(..)) ||
validate_move(generate_move_capture(..))`: the second call is made only when
the first returns `false`. -/
def validate_either (b : Board) (from_row from_col to_row to_col : Fin 8) :
    Option (Bool × Board) :=
  match validate_move b (generate_move_non_capture b from_row from_col to_row to_col) with
  | none => none
  | some (true, b1) => some (true, b1)
  | some (false, b1) =>
    validate_move b1 (generate_move_capture b1 from_row from_col to_row to_col)

/-- The two inner loops of `is_opponent_in_checkmate` (lines 499-509) for the
piece on `(row, col)`, over the destinations still to visit: `true` when a move
that leaves check was found (the function then returns `false`). -/
def escape_dests (curr_color : Char) (row col : Fin 8) :
    List (Fin 8 × Fin 8) → Board → Option (Bool × Board)
  | [], b => some (false, b)
  | q :: rest, b =>
    match validate_either b row col q.1 q.2 with
    | none => none
    | some (false, b1) => escape_dests curr_color row col rest b1
    | some (true, b1) =>
      match try_and_undo b1 row col q.1 q.2 curr_color with
      | none => none
      | some (true, b2) => some (true, b2)
      | some (false, b2) => escape_dests curr_color row col rest b2

/-- The two outer loops of `is_opponent_in_checkmate` (lines 495-512) over the
source cells still to visit. -/
def escape_sources (curr_color : Char) :
    List (Fin 8 × Fin 8) → Board → Option (Bool × Board)
  | [], b => some (false, b)
  | p :: rest, b =>
    if (b p.1 p.2).c0 ≠ curr_color then
      match escape_dests curr_color p.1 p.2 squares b with
      | none => none
      | some (true, b1) => some (true, b1)
      | some (false, b1) => escape_sources curr_color rest b1
    else escape_sources curr_color rest b

/-- The function `is_opponent_in_checkmate` of the program (lines 487-516). -/
def is_opponent_in_checkmate (b : Board) (curr_color : Char) : Option (Bool × Board) :=
  match is_opponent_in_check b curr_color with
  | none => none
  | some (false, b1) => some (false, b1)
  | some (true, b1) =>
    match escape_sources curr_color squares b1 with
    | none => none
    | some (escape, b2) => some (!escape, b2)

/-- The global variables of the module (lines 36-43). -/
structure Session where
  game_board : Board
  player_color : Char
  cpu_color : Char
  game_started : Bool
  player_turn : Bool
  cpu_in_check : Bool
  output_message : String

/-- An `int` used as an index of the board. -/
def toFin8 (i : Int) : Option (Fin 8) :=
  if h : 0 ≤ i ∧ i < 8 then some ⟨i.toNat, by omega⟩ else none

/-- The call `try_and_undo(move[3] - '1', move[2] - 'a', move[6] - '1', move[5] - 'a', c)`
of `handle_player_move` (line 543). -/
def try_and_undo_move (b : Board) (move : List Char) (curr_color : Char) :
    Option (Bool × Board) :=
  match toFin8 (ord (charAt move 3) - ord '1'), toFin8 (ord (charAt move 2) - ord 'a'),
      toFin8 (ord (charAt move 6) - ord '1'), toFin8 (ord (charAt move 5) - ord 'a') with
  | some from_row, some from_col, some to_row, some to_col =>
    try_and_undo b from_row from_col to_row to_col curr_color
  | _, _, _, _ => none

/-- The end of `handle_player_move` (lines 551-570), after the move is on the board. -/
def classify_player_move (s : Session) (b : Board) : Option Session :=
  match is_opponent_in_checkmate b s.player_color with
  | none => none
  | some (true, b1) =>
    some { s with
      game_board := b1
      output_message := if s.player_color = 'W' then "MATE\nWHITE WINS\n"
        else "MATE\nBLACK WINS\n"
      game_started := false
      player_turn := false }
  | some (false, b1) =>
    match is_opponent_in_check b1 s.player_color with
    | none => none
    | some (true, b2) =>
      some { s with
        game_board := b2, output_message := "CHECK\n", cpu_in_check := true
        player_turn := false }
    | some (false, b2) =>
      some { s with game_board := b2, output_message := "OK\n", player_turn := false }

/-- The function `handle_player_move` of the program (lines 519-571). -/
def handle_player_move (s : Session) (move : List Char) : Option Session :=
  if !s.game_started then some { s with output_message := "NOGAME\n" }
  else if !s.player_turn then some { s with output_message := "OOT\n" }
  else if charAt move 0 ≠ s.player_color then some { s with output_message := "ILLMOVE\n" }
  else
    match validate_move s.game_board move with
    | none => none
    | some (false, b1) => some { s with game_board := b1, output_message := "ILLMOVE\n" }
    | some (true, b1) =>
      match try_and_undo_move b1 move s.cpu_color with
      | none => none
      | some (false, b2) => some { s with game_board := b2, output_message := "ILLMOVE\n" }
      | some (true, b2) =>
        match update_game_state b2 move with
        | none => none
        | some b3 => classify_player_move s b3

/-! ## Positions and texts used in the examples -/

/-- A board that is empty except for the cells of the list. -/
def place (l : List ((Fin 8 × Fin 8) × Square)) : Board :=
  fun r c => ((l.find? (fun e => e.1 = (r, c))).map Prod.snd).getD EMPTY

/-- White pawn on a7 in front of the empty a8, the kings on e1 and e8. -/
def promotion_board : Board :=
  place [((6, 0), ⟨'W', 'P'⟩), ((0, 4), ⟨'W', 'K'⟩), ((7, 4), ⟨'B', 'K'⟩)]

/-- The same position with a black rook on a8. -/
def promotion_blocked_board : Board :=
  place [((6, 0), ⟨'W', 'P'⟩), ((7, 0), ⟨'B', 'R'⟩), ((0, 4), ⟨'W', 'K'⟩), ((7, 4), ⟨'B', 'K'⟩)]

/-- The promotion of the a7 pawn in the notation of the specification. -/
def promotion_text_spec : List Char := "WPa7-a8yQ".toList

/-- The promotion of the a7 pawn in the notation `validate_move` reads: the
marker `y` is followed by the colour and the kind of the new piece. -/
def promotion_text : List Char := "WPa7-a8yWQ".toList

/-- A session in which White (the human) is to move with the king on e1
attacked by the rook on e8, and a pawn on a7 in front of the empty a8. -/
def checked_promotion_session : Session :=
  { game_board := place [((6, 0), ⟨'W', 'P'⟩), ((0, 4), ⟨'W', 'K'⟩), ((7, 4), ⟨'B', 'R'⟩),
      ((7, 7), ⟨'B', 'K'⟩)]
    player_color := 'W'
    cpu_color := 'B'
    game_started := true
    player_turn := true
    cpu_in_check := false
    output_message := "" }

/-- The text of the move declares a capture: the marker `x` follows the
destination (`move[7]`). -/
def declares_capture (move : List Char) : Prop := charAt move 7 = 'x'

/-- A call of `validate_move` and, when it accepts, of `update_game_state` with
the same text, as `handle_player_move` and `generate_cpu_move` apply a move. -/
def validate_then_update (b : Board) (move : List Char) : Option Board :=
  match validate_move b move with
  | some (true, b1) => update_game_state b1 move
  | _ => none

/-- The position after `WPe2-e4`, `BPe7-e5`, `WBf1-c4` from the starting
position, each move validated and applied in turn. -/
def opening_board : Option Board :=
  ((validate_then_update initialize_board "WPe2-e4".toList).bind
    (fun b => validate_then_update b "BPe7-e5".toList)).bind
    (fun b => validate_then_update b "WBf1-c4".toList)

/-- Every cell strictly between the two squares, along the row, the column or
the diagonal that joins them, is empty. -/
def path_clear (b : Board) (from_row from_col to_row to_col : Fin 8) : Prop :=
  ∀ i : Nat,
    i < max ((to_row.val : Int) - from_row.val).natAbs ((to_col.val : Int) - from_col.val).natAbs →
    0 < i →
    getSq b ((from_row.val : Int) + i * Int.sign ((to_row.val : Int) - from_row.val))
      ((from_col.val : Int) + i * Int.sign ((to_col.val : Int) - from_col.val)) = some EMPTY

instance (b : Board) (from_row from_col to_row to_col : Fin 8) :
    Decidable (path_clear b from_row from_col to_row to_col) := by
  unfold path_clear; infer_instance

/-- The two colours of the game. -/
inductive Color where
  | White
  | Black
deriving DecidableEq, Repr

/-- The character that stands for a colour on the board and in a move text. -/
def Color.toChar : Color → Char
  | Color.White => 'W'
  | Color.Black => 'B'

/-- The text of a quiet move of the piece `(c, k)`: the format
`"%c%c%c%d-%c%d"` of `generate_move_non_capture`, e.g. `WBf1-c4`. -/
def quiet_move (c k : Char) (from_row from_col to_row to_col : Fin 8) : List Char :=
  [c, k, colChar from_col, rowChar from_row, '-', colChar to_col, rowChar to_row]

/-- The text of a capture by the piece `(c, k)` of the piece `(oc, ok)`: the
format `"%c%c%c%d-%c%dx%c%c"` of `generate_move_capture`, e.g. `BNb8-c6xWP`. -/
def capture_move (c k : Char) (from_row from_col to_row to_col : Fin 8) (oc ok : Char) :
    List Char :=
  [c, k, colChar from_col, rowChar from_row, '-', colChar to_col, rowChar to_row, 'x', oc, ok]

/-- The displacement of a move in rows, `to_row - from_row`. -/
def row_delta (from_row to_row : Fin 8) : Int := (to_row.val : Int) - from_row.val

/-- The displacement of a move in columns, `to_col - from_col`. -/
def col_delta (from_col to_col : Fin 8) : Int := (to_col.val : Int) - from_col.val

/-- The displacement of a bishop move: `|Δrow| = |Δcol|`. -/
def bishop_shape (from_row from_col to_row to_col : Fin 8) : Prop :=
  (row_delta from_row to_row).natAbs = (col_delta from_col to_col).natAbs

/-- The displacement of a rook move: exactly one of `Δrow`, `Δcol` is zero. -/
def rook_shape (from_row from_col to_row to_col : Fin 8) : Prop :=
  (row_delta from_row to_row = 0 ∧ col_delta from_col to_col ≠ 0) ∨
  (row_delta from_row to_row ≠ 0 ∧ col_delta from_col to_col = 0)

/-- The displacement of a knight move: `(|Δrow|, |Δcol|)` is `(2, 1)` or `(1, 2)`. -/
def knight_shape (from_row from_col to_row to_col : Fin 8) : Prop :=
  ((row_delta from_row to_row).natAbs = 2 ∧ (col_delta from_col to_col).natAbs = 1) ∨
  ((row_delta from_row to_row).natAbs = 1 ∧ (col_delta from_col to_col).natAbs = 2)

/-- The displacement of a king move: `|Δrow| ≤ 1` and `|Δcol| ≤ 1`. -/
def king_shape (from_row from_col to_row to_col : Fin 8) : Prop :=
  (row_delta from_row to_row).natAbs ≤ 1 ∧ (col_delta from_col to_col).natAbs ≤ 1

/-- A back-rank mate: the black king on h8 behind its pawns on g7 and h7, the
white rook on a8, the white king on e1. -/
def back_rank_mate_board : Board :=
  place [((7, 7), ⟨'B', 'K'⟩), ((6, 6), ⟨'B', 'P'⟩), ((6, 7), ⟨'B', 'P'⟩), ((7, 0), ⟨'W', 'R'⟩),
    ((0, 4), ⟨'W', 'K'⟩)]

/-! ## The automatic opponent and the other handlers -/

/-- The function `random_number` of the program (lines 68-72); `num` is the
`int` that `get_random_bytes` fills.  The result is `min + (abs(num) % (max - min))`
with the remainder of C (the sign of the dividend).  There is no defined result
when `max - min` is zero (division by zero) and when `num` is the least `int`
(the negation inside `abs` overflows). -/
def random_number (num : Int) (min max : Int) : Option Int :=
  if num = -2147483648 then none
  else if max - min = 0 then none
  else some (min + Int.tmod (num.natAbs : Int) (max - min))

/-- The two inner loops of the first part of `generate_cpu_move` (lines 587-600)
for the piece on `(from_row, from_col)`, over the destinations still to visit:
`true` when a move was made (the function then returns). -/
def cpu_escape_dests (player_color : Char) (from_row from_col : Fin 8) :
    List (Fin 8 × Fin 8) → Board → Option (Bool × Board)
  | [], b => some (false, b)
  | q :: rest, b =>
    match validate_either b from_row from_col q.1 q.2 with
    | none => none
    | some (false, b1) => cpu_escape_dests player_color from_row from_col rest b1
    | some (true, b1) =>
      match try_and_undo b1 from_row from_col q.1 q.2 player_color with
      | none => none
      | some (false, b2) => cpu_escape_dests player_color from_row from_col rest b2
      | some (true, b2) =>
        (update_game_state b2 (generate_move_non_capture b2 from_row from_col q.1 q.2)).map
          (fun b3 => (true, b3))

/-- The two outer loops of the first part of `generate_cpu_move` (lines 583-603)
over the source cells still to visit. -/
def cpu_escape_sources (player_color : Char) :
    List (Fin 8 × Fin 8) → Board → Option (Bool × Board)
  | [], b => some (false, b)
  | p :: rest, b =>
    if (b p.1 p.2).c0 ≠ player_color then
      match cpu_escape_dests player_color p.1 p.2 squares b with
      | none => none
      | some (true, b1) => some (true, b1)
      | some (false, b1) => cpu_escape_sources player_color rest b1
    else cpu_escape_sources player_color rest b

/-- The two inner loops of the capture part of `generate_cpu_move`
(lines 613-624) for the destination `(to_row, to_col)`, over the source cells
still to visit: `true` when a capture was made (the function then returns). -/
def cpu_capture_sources (player_color : Char) (to_row to_col : Fin 8) :
    List (Fin 8 × Fin 8) → Board → Option (Bool × Board)
  | [], b => some (false, b)
  | p :: rest, b =>
    if (b p.1 p.2).c0 ≠ player_color then
      match validate_move b (generate_move_capture b p.1 p.2 to_row to_col) with
      | none => none
      | some (false, b1) => cpu_capture_sources player_color to_row to_col rest b1
      | some (true, b1) =>
        (update_game_state b1 (generate_move_capture b p.1 p.2 to_row to_col)).map
          (fun b2 => (true, b2))
    else cpu_capture_sources player_color to_row to_col rest b

/-- The two outer loops of the capture part of `generate_cpu_move`
(lines 610-627) over the destinations still to visit. -/
def cpu_capture_dests (player_color : Char) :
    List (Fin 8 × Fin 8) → Board → Option (Bool × Board)
  | [], b => some (false, b)
  | q :: rest, b =>
    if (b q.1 q.2).c0 = player_color then
      match cpu_capture_sources player_color q.1 q.2 squares b with
      | none => none
      | some (true, b1) => some (true, b1)
      | some (false, b1) => cpu_capture_dests player_color rest b1
    else cpu_capture_dests player_color rest b

/-- The innermost loop of the quiet part of `generate_cpu_move` (lines 633-647)
over the source columns still to visit; `moves` is `non_capture_moves` with its
`num_non_capture_moves` entries.  With the array full, an accepted move leaves
the loop (`break`). -/
def quiet_from_cols (player_color : Char) (to_row to_col from_row : Fin 8) :
    List (Fin 8) → Board → List (List Char) → Option (Board × List (List Char))
  | [], b, moves => some (b, moves)
  | from_col :: rest, b, moves =>
    if (b from_row from_col).c0 ≠ player_color then
      match validate_move b (generate_move_non_capture b from_row from_col to_row to_col) with
      | none => none
      | some (false, b1) => quiet_from_cols player_color to_row to_col from_row rest b1 moves
      | some (true, b1) =>
        if moves.length < 64 then
          quiet_from_cols player_color to_row to_col from_row rest b1
            (moves ++ [generate_move_non_capture b from_row from_col to_row to_col])
        else some (b1, moves)
    else quiet_from_cols player_color to_row to_col from_row rest b moves

/-- The loop over the source rows of the quiet part (lines 632-648). -/
def quiet_from_rows (player_color : Char) (to_row to_col : Fin 8) :
    List (Fin 8) → Board → List (List Char) → Option (Board × List (List Char))
  | [], b, moves => some (b, moves)
  | from_row :: rest, b, moves =>
    match quiet_from_cols player_color to_row to_col from_row rows b moves with
    | none => none
    | some (b1, moves1) => quiet_from_rows player_color to_row to_col rest b1 moves1

/-- The two outer loops of the quiet part (lines 630-650) over the destinations
still to visit. -/
def quiet_dests (player_color : Char) :
    List (Fin 8 × Fin 8) → Board → List (List Char) → Option (Board × List (List Char))
  | [], b, moves => some (b, moves)
  | q :: rest, b, moves =>
    match quiet_from_rows player_color q.1 q.2 rows b moves with
    | none => none
    | some (b1, moves1) => quiet_dests player_color rest b1 moves1

/-- The read `non_capture_moves[i]` of an entry that was filled. -/
def candidate (moves : List (List Char)) (i : Int) : Option (List Char) :=
  if 0 ≤ i then moves.get? i.toNat else none

/-- The end of `generate_cpu_move` (lines 652-659): the choice among the
`num_non_capture_moves` candidates. -/
def play_random_quiet (s : Session) (b : Board) (moves : List (List Char)) (num : Int) :
    Option Session :=
  if moves.length = 0 then some { s with game_board := b, cpu_in_check := false }
  else
    match random_number num 0 ((moves.length : Int) - 1) with
    | none => none
    | some i =>
      match candidate moves i with
      | none => none
      | some move =>
        (update_game_state b move).map
          (fun b1 => { s with game_board := b1, cpu_in_check := false })

/-- The function `generate_cpu_move` of the program (lines 574-660); `num` is
the `int` that `get_random_bytes` fills if `random_number` is called. -/
def generate_cpu_move (s : Session) (num : Int) : Option Session :=
  match (if s.cpu_in_check then cpu_escape_sources s.player_color squares s.game_board
      else some (false, s.game_board)) with
  | none => none
  | some (true, b1) => some { s with game_board := b1, cpu_in_check := false }
  | some (false, b1) =>
    match cpu_capture_dests s.player_color squares b1 with
    | none => none
    | some (true, b2) => some { s with game_board := b2, cpu_in_check := false }
    | some (false, b2) =>
      match quiet_dests s.player_color squares b2 [] with
      | none => none
      | some (b3, moves) => play_random_quiet s b3 moves num

/-- The end of `handle_cpu_turn` (lines 677-695), after the move of the
automatic side. -/
def classify_cpu_move (s : Session) : Option Session :=
  match is_opponent_in_checkmate s.game_board s.cpu_color with
  | none => none
  | some (true, b1) =>
    some { s with
      game_board := b1
      output_message := if s.player_color = 'W' then "MATE\nBLACK WINS\n"
        else "MATE\nWHITE WINS\n"
      game_started := false
      player_turn := true }
  | some (false, b1) =>
    match is_opponent_in_check b1 s.cpu_color with
    | none => none
    | some (true, b2) =>
      some { s with game_board := b2, output_message := "CHECK\n", player_turn := true }
    | some (false, b2) =>
      some { s with game_board := b2, output_message := "OK\n", player_turn := true }

/-- The function `handle_cpu_turn` of the program (lines 663-696). -/
def handle_cpu_turn (s : Session) (num : Int) : Option Session :=
  if !s.game_started then some { s with output_message := "NOGAME\n" }
  else if s.player_turn then some { s with output_message := "OOT\n" }
  else
    match generate_cpu_move s num with
    | none => none
    | some s1 => classify_cpu_move s1

/-- The end of `handle_resign_game` (lines 717-725) on the board `b`. -/
def resigned (s : Session) (b : Board) : Session :=
  { s with
    game_board := b
    output_message := if s.player_color = 'W' then "OK\nBLACK WINS\n" else "OK\nWHITE WINS\n"
    game_started := false
    player_turn := false }

/-- The function `handle_resign_game` of the program (lines 699-726).  The
message `CHECK` written at line 714 is overwritten at lines 718-723; the second
call of `is_opponent_in_check` is made only when the first returns `false`. -/
def handle_resign_game (s : Session) : Option Session :=
  if !s.game_started then some { s with output_message := "NOGAME\n" }
  else if !s.player_turn then some { s with output_message := "OOT\n" }
  else
    match is_opponent_in_check s.game_board s.cpu_color with
    | none => none
    | some (true, b1) => some (resigned s b1)
    | some (false, b1) =>
      match is_opponent_in_check b1 s.player_color with
      | none => none
      | some (_, b2) => some (resigned s b2)

/-- The session after a new game in which the human plays White: the starting
position with the human to move. -/
def opening_session : Session :=
  { game_board := initialize_board
    player_color := 'W'
    cpu_color := 'B'
    game_started := true
    player_turn := true
    cpu_in_check := false
    output_message := "OK\n" }

/-- The starting position with the automatic side to move. -/
def waiting_session : Session := { opening_session with player_turn := false }

/-- The other colour. -/
def Color.other : Color → Color
  | Color.White => Color.Black
  | Color.Black => Color.White

/-- The direction in which the pawns of a colour advance: `+1` row for White,
`-1` row for Black. -/
def Color.forward : Color → Int
  | Color.White => 1
  | Color.Black => -1

/-- The farthest rank of a colour: row 7 for White, row 0 for Black. -/
def Color.last_row : Color → Fin 8
  | Color.White => 7
  | Color.Black => 0

/-- The kinds a pawn may be promoted to. -/
def promotion_kind (k : Char) : Prop := k = 'Q' ∨ k = 'R' ∨ k = 'B' ∨ k = 'N'

/-- The text of the move carries a promotion declaration to the kind `k`: the
marker `y` followed by the colour of the mover and `k`, after the destination
(ten characters) or after the capture (thirteen characters). -/
def declares_promotion (move : List Char) (k : Char) : Prop :=
  (move.length = 10 ∧ charAt move 7 = 'y' ∧ charAt move 8 = charAt move 0 ∧
    charAt move 9 = k) ∨
  (move.length = 13 ∧ charAt move 10 = 'y' ∧ charAt move 11 = charAt move 0 ∧
    charAt move 12 = k)

/-- The board after the content of the square `p` was moved to the square `q`
(`update_game_state` for a text that names `p` and `q`). -/
def move_piece (b : Board) (p q : Fin 8 × Fin 8) : Board :=
  setSq (setSq b q.1 q.2 (b p.1 p.2)) p.1 p.2 EMPTY

/-- The rank of a square in a scan by rows, columns inside (row-major order). -/
def sq_index (p : Fin 8 × Fin 8) : Nat := 8 * p.1.val + p.2.val

/-- A move of a piece of the automatic side from `p` to `q` that `validate_move`
accepts, as a quiet move or as a capture, and that passes `try_and_undo` against
the human's colour. -/
def automatic_escape (b : Board) (player_color cpu_color : Char) (p q : Fin 8 × Fin 8) :
    Prop :=
  (b p.1 p.2).c0 = cpu_color ∧
  ((validate_move b (generate_move_non_capture b p.1 p.2 q.1 q.2)).map Prod.fst = some true ∨
    (validate_move b (generate_move_capture b p.1 p.2 q.1 q.2)).map Prod.fst = some true) ∧
  (try_and_undo b p.1 p.2 q.1 q.2 player_color).map Prod.fst = some true

/-- The two kings alone, White on e1 and Black on h8; the human plays White and
the automatic side is to move. -/
def lone_kings_session : Session :=
  { game_board := place [((0, 4), ⟨'W', 'K'⟩), ((7, 7), ⟨'B', 'K'⟩)]
    player_color := 'W'
    cpu_color := 'B'
    game_started := true
    player_turn := false
    cpu_in_check := false
    output_message := "OK\n" }

/-- The tests that the capture part of `generate_cpu_move` makes on the
destination `q` and the source `p` (lines 612, 615 and 617). -/
def capture_tests (b : Board) (player_color : Char) (p q : Fin 8 × Fin 8) : Prop :=
  (b q.1 q.2).c0 = player_color ∧ (b p.1 p.2).c0 ≠ player_color ∧
  (validate_move b (generate_move_capture b p.1 p.2 q.1 q.2)).map Prod.fst = some true

/-- The tests that the first part of `generate_cpu_move` makes on the source `p`
and the destination `q` (lines 585, 589-590 and 592). -/
def escape_tests (b : Board) (player_color : Char) (p q : Fin 8 × Fin 8) : Prop :=
  (b p.1 p.2).c0 ≠ player_color ∧
  ((validate_move b (generate_move_non_capture b p.1 p.2 q.1 q.2)).map Prod.fst = some true ∨
    (validate_move b (generate_move_capture b p.1 p.2 q.1 q.2)).map Prod.fst = some true) ∧
  (try_and_undo b p.1 p.2 q.1 q.2 player_color).map Prod.fst = some true

/-- A position of a game in which the human plays White and the automatic side
is to move and flagged in check: the white rook on h1 attacks the black king on
h8 along the file. -/
def rook_check_session : Session :=
  { game_board := place [((0, 4), ⟨'W', 'K'⟩), ((0, 7), ⟨'W', 'R'⟩), ((7, 7), ⟨'B', 'K'⟩)]
    player_color := 'W'
    cpu_color := 'B'
    game_started := true
    player_turn := false
    cpu_in_check := true
    output_message := "CHECK\n" }

/-! ## The request handler and the positions of the last claims -/

/-- The statements of `initialize_board` (lines 75-110) in the order of the
program, run on the content `b` of `game_board` that is there at the call: the
double loop that fills the cells with `EMPTY`, the sixteen writes of the pieces,
the loop of the pawns. -/
def initialize_board_from (b : Board) : Board :=
  let b := squares.foldl (fun b p => setSq b p.1 p.2 EMPTY) b
  let b := setSq b 0 0 ⟨'W', 'R'⟩
  let b := setSq b 0 1 ⟨'W', 'N'⟩
  let b := setSq b 0 2 ⟨'W', 'B'⟩
  let b := setSq b 0 3 ⟨'W', 'Q'⟩
  let b := setSq b 0 4 ⟨'W', 'K'⟩
  let b := setSq b 0 5 ⟨'W', 'B'⟩
  let b := setSq b 0 6 ⟨'W', 'N'⟩
  let b := setSq b 0 7 ⟨'W', 'R'⟩
  let b := setSq b 7 0 ⟨'B', 'R'⟩
  let b := setSq b 7 1 ⟨'B', 'N'⟩
  let b := setSq b 7 2 ⟨'B', 'B'⟩
  let b := setSq b 7 3 ⟨'B', 'Q'⟩
  let b := setSq b 7 4 ⟨'B', 'K'⟩
  let b := setSq b 7 5 ⟨'B', 'B'⟩
  let b := setSq b 7 6 ⟨'B', 'N'⟩
  let b := setSq b 7 7 ⟨'B', 'R'⟩
  rows.foldl (fun b i => setSq (setSq b 1 i ⟨'W', 'P'⟩) 6 i ⟨'B', 'P'⟩) b

/-- The C string that `chess_write` holds in `command` after
`command[len - 1] = '\0'` (line 764), for the `len` bytes `buf` of the request:
the bytes before the last one, up to the first NUL among them. -/
def command_string (buf : List Char) : List Char :=
  (buf.take (buf.length - 1)).takeWhile (fun c => c ≠ Char.ofNat 0)

/-- The function `chess_write` of the program (lines 743-826) for a request of
the `len = buf.length` bytes `buf`, which `copy_from_user` copies; `num` is the
`int` that `get_random_bytes` fills if `random_number` is called.  A test
`strncmp(command, t, n) == 0` with a text `t` of `n` characters is the equality
of the first `n` characters of the string with `t`.  With `len = 0` the read of
`command[len - 1]` is outside `command`: no result. -/
def chess_write (s : Session) (buf : List Char) (num : Int) : Option Session :=
  if buf.length > 20 then some { s with output_message := "UNKCMD\n" }
  else if buf.length = 0 then none
  else if buf.getLast? ≠ some '\n' then some { s with output_message := "UNKCMD\n" }
  else
    let command := command_string buf
    if command.take 4 = "00 W".toList then
      if buf.length ≠ 5 then some { s with output_message := "INVFMT\n" }
      else some { s with
        player_color := 'W'
        cpu_color := 'B'
        game_board := initialize_board_from s.game_board
        game_started := true
        player_turn := true
        output_message := "OK\n" }
    else if command.take 4 = "00 B".toList then
      if buf.length ≠ 5 then some { s with output_message := "INVFMT\n" }
      else some { s with
        player_color := 'B'
        cpu_color := 'W'
        game_board := initialize_board_from s.game_board
        game_started := true
        player_turn := false
        output_message := "OK\n" }
    else if command.take 2 = "01".toList then
      if buf.length ≠ 3 then some { s with output_message := "INVFMT\n" }
      else if s.game_started then some { s with output_message := "DISPLAY\n" }
      else some { s with output_message := "NOGAME\n" }
    else if command.take 3 = "02 ".toList then handle_player_move s (command.drop 3)
    else if command.take 2 = "03".toList then
      if buf.length ≠ 3 then some { s with output_message := "INVFMT\n" }
      else handle_cpu_turn s num
    else if command.take 2 = "04".toList then
      if buf.length ≠ 3 then some { s with output_message := "INVFMT\n" }
      else handle_resign_game s
    else some { s with output_message := "UNKCMD\n" }

/-- The number of occupied cells of the board, those whose content differs from
`EMPTY`. -/
def occupied_count (b : Board) : Nat :=
  squares.countP (fun p => decide (b p.1 p.2 ≠ EMPTY))

/-- A position of a game in which the human plays White and the automatic side
is to move, not in check: the black knight on e5 stands between the white rook
on e1 and the black king on e8, and can take the white pawn on d3. -/
def pinned_knight_session : Session :=
  { game_board := place [((0, 0), ⟨'W', 'K'⟩), ((0, 4), ⟨'W', 'R'⟩), ((7, 4), ⟨'B', 'K'⟩),
      ((4, 4), ⟨'B', 'N'⟩), ((2, 3), ⟨'W', 'P'⟩)]
    player_color := 'W'
    cpu_color := 'B'
    game_started := true
    player_turn := false
    cpu_in_check := false
    output_message := "OK\n" }

/-- A position of a game in which the human plays White and the automatic side
is to move: the black king on a1 behind its pawns on a2 and b2, the white king
on h8.  The only quiet move of Black that `validate_move` accepts is `BKa1-b1`. -/
def cornered_king_session : Session :=
  { game_board := place [((0, 0), ⟨'B', 'K'⟩), ((1, 0), ⟨'B', 'P'⟩), ((1, 1), ⟨'B', 'P'⟩),
      ((7, 7), ⟨'W', 'K'⟩)]
    player_color := 'W'
    cpu_color := 'B'
    game_started := true
    player_turn := false
    cpu_in_check := false
    output_message := "OK\n" }

/-! ## When the scans stay inside the array -/

/-- The cell `p` holds a bishop, a rook or a queen of one of the two colours and
every cell before it in the array is empty.  The scan of `obstacles` for a move
of that piece onto its own square walks to the left through all of these cells
and leaves the array (`obstacles_own_square`). -/
def leads_board (b : Board) (p : Fin 8 × Fin 8) : Prop :=
  ((b p.1 p.2).c0 = 'W' ∨ (b p.1 p.2).c0 = 'B') ∧
  ((b p.1 p.2).c1 = 'B' ∨ (b p.1 p.2).c1 = 'R' ∨ (b p.1 p.2).c1 = 'Q') ∧
  ∀ q : Fin 8 × Fin 8, sq_index q < sq_index p → b q.1 q.2 = EMPTY

instance (b : Board) (p : Fin 8 × Fin 8) : Decidable (leads_board b p) := by
  unfold leads_board; infer_instance

/-- No piece of another colour than `c` leads the board: the scans of
`is_opponent_in_checkmate` and of `generate_cpu_move` called with the colour
`c`, which probe every such piece onto every square, its own included, stay
inside `game_board`. -/
def scans_in_array (b : Board) (c : Char) : Prop :=
  ∀ p : Fin 8 × Fin 8, (b p.1 p.2).c0 ≠ c → ¬ leads_board b p

instance (b : Board) (c : Char) : Decidable (scans_in_array b c) := by
  unfold scans_in_array; infer_instance

/-- The board holds a king of another colour than `c`. -/
def king_present (b : Board) (c : Char) : Prop :=
  ∃ row col : Fin 8, (b row col).c1 = 'K' ∧ (b row col).c0 ≠ c

instance (b : Board) (c : Char) : Decidable (king_present b c) := by
  unfold king_present; infer_instance

/-- The three tests that `handle_player_move` makes on a move once the game is
active and the turn is the human's (lines 531-546) all pass: the text starts
with the human's colour, `validate_move` accepts it, and `try_and_undo` with
the automatic side's colour returns `true`. -/
def move_accepted (s : Session) (move : List Char) : Prop :=
  charAt move 0 = s.player_color ∧
  (validate_move s.game_board move).bind
    (fun r => if r.1 then (try_and_undo_move r.2 move s.cpu_color).map Prod.fst
      else some false) = some true

instance (s : Session) (move : List Char) : Decidable (move_accepted s move) := by
  unfold move_accepted; infer_instance

/-- A game in which the human plays White and is to move: the white king on e1,
rook on a1 and knight on e5; the black king on h8 behind its pawns on g7 and
h7, and a black bishop on g1.  `WRa1-a8` mates, `WNe5-f7` gives check. -/
def back_rank_session : Session :=
  { game_board := place [((0, 0), ⟨'W', 'R'⟩), ((0, 4), ⟨'W', 'K'⟩), ((0, 6), ⟨'B', 'B'⟩),
      ((4, 4), ⟨'W', 'N'⟩), ((6, 6), ⟨'B', 'P'⟩), ((6, 7), ⟨'B', 'P'⟩), ((7, 7), ⟨'B', 'K'⟩)]
    player_color := 'W'
    cpu_color := 'B'
    game_started := true
    player_turn := true
    cpu_in_check := false
    output_message := "OK\n" }

/-- The position of `back_rank_session` after `WRa1-a8`: Black is mated, and
holds a bishop that the checkmate scan probes onto its own square. -/
def slider_mate_board : Board :=
  place [((0, 4), ⟨'W', 'K'⟩), ((0, 6), ⟨'B', 'B'⟩), ((4, 4), ⟨'W', 'N'⟩),
    ((6, 6), ⟨'B', 'P'⟩), ((6, 7), ⟨'B', 'P'⟩), ((7, 0), ⟨'W', 'R'⟩), ((7, 7), ⟨'B', 'K'⟩)]

/-- The position of `rook_check_session` with a black rook on a8: the automatic
side, flagged in check, holds a piece that the escape scan probes onto its own
square. -/
def guarded_check_session : Session :=
  { rook_check_session with
    game_board := place [((0, 4), ⟨'W', 'K'⟩), ((0, 7), ⟨'W', 'R'⟩), ((7, 7), ⟨'B', 'K'⟩),
      ((7, 0), ⟨'B', 'R'⟩)] }

/-! ## The validator leaves the board alone, except for a promotion -/

theorem validate_len10_board (b : Board) (move : List Char) (dst : Square)
    (fr fc tr tc : Int) (r : Bool) (b1 : Board)
    (h : validate_len10 b move dst fr fc tr tc = some (r, b1)) :
    (r = false → b1 = b) ∧ (charAt move 7 ≠ 'y' → b1 = b) := by
  unfold validate_len10 at h
  by_cases hx : charAt move 7 = 'x'
  · rw [if_pos hx] at h
    by_cases hc : capture_rejects move dst fr fc tr tc
    · rw [if_pos hc] at h; cases h; exact ⟨fun _ => rfl, fun _ => rfl⟩
    · rw [if_neg hc] at h; cases h; exact ⟨fun _ => rfl, fun _ => rfl⟩
  · rw [if_neg hx] at h
    by_cases hy : charAt move 7 = 'y'
    · rw [if_pos hy] at h
      by_cases hc : promotion_rejects move dst fr fc tr tc
      · rw [if_pos hc] at h; cases h; exact ⟨fun _ => rfl, fun _ => rfl⟩
      · rw [if_neg hc] at h
        generalize promote b fr fc (charAt move 9) = p at h
        cases p with
        | none => cases h
        | some b2 =>
          cases h
          exact ⟨fun hf => absurd hf (by decide), fun hn => absurd hy hn⟩
    · rw [if_neg hy] at h; cases h; exact ⟨fun _ => rfl, fun _ => rfl⟩

theorem validate_len13_board (b : Board) (move : List Char) (dst : Square)
    (fr fc tr tc : Int) (b1 : Board)
    (h : validate_len13 b move dst fr fc tr tc = some (false, b1)) : b1 = b := by
  unfold validate_len13 at h
  by_cases hc : capture_promotion_rejects move dst fr fc tr tc
  · rw [if_pos hc] at h; cases h; rfl
  · rw [if_neg hc] at h
    generalize promote b fr fc (charAt move 12) = p at h
    cases p with
    | none => cases h
    | some b2 => cases h

theorem validate_tail_board (b : Board) (move : List Char) (dst : Square)
    (fr fc tr tc : Int) (r : Bool) (b1 : Board)
    (h : validate_tail b move dst fr fc tr tc = some (r, b1)) :
    (r = false → b1 = b) ∧ (move.length = 7 → b1 = b) ∧
      (move.length = 10 → charAt move 7 ≠ 'y' → b1 = b) := by
  unfold validate_tail at h
  by_cases h7 : move.length = 7 ∧ ¬ (dst.c0 = '*' ∧ dst.c1 = '*')
  · rw [if_pos h7] at h; cases h; exact ⟨fun _ => rfl, fun _ => rfl, fun _ _ => rfl⟩
  · rw [if_neg h7] at h
    by_cases h10 : move.length = 10
    · rw [if_pos h10] at h
      have := validate_len10_board _ _ _ _ _ _ _ _ _ h
      exact ⟨this.1, fun h7 => absurd h7 (by omega), fun _ hy => this.2 hy⟩
    · rw [if_neg h10] at h
      by_cases h13 : move.length = 13
      · rw [if_pos h13] at h
        refine ⟨fun hf => ?_, fun h7 => absurd h7 (by omega), fun h => absurd h h10⟩
        subst hf
        exact validate_len13_board _ _ _ _ _ _ _ _ h
      · rw [if_neg h13] at h; cases h; exact ⟨fun _ => rfl, fun _ => rfl, fun _ _ => rfl⟩

/-- What a call of `validate_move` can do to the board: nothing when it returns
`false`, nothing for a seven character text, nothing for a ten character text
whose marker is not `y`. -/
theorem validate_move_board (b : Board) (move : List Char) (r : Bool) (b1 : Board)
    (h : validate_move b move = some (r, b1)) :
    (r = false → b1 = b) ∧ (move.length = 7 → b1 = b) ∧
      (move.length = 10 → charAt move 7 ≠ 'y' → b1 = b) := by
  unfold validate_move at h
  by_cases hh : header_rejects move
  · rw [if_pos hh] at h; cases h; exact ⟨fun _ => rfl, fun _ => rfl, fun _ _ => rfl⟩
  · rw [if_neg hh] at h
    simp only at h
    generalize getSq b (ord (charAt move 3) - ord '1') (ord (charAt move 2) - ord 'a') = s1 at h
    generalize getSq b (ord (charAt move 6) - ord '1') (ord (charAt move 5) - ord 'a') = s2 at h
    cases s1 with
    | none => cases h
    | some src =>
      cases s2 with
      | none => cases h
      | some dst =>
        simp only at h
        by_cases hs : ¬ (src.c0 = charAt move 0 ∧ src.c1 = charAt move 1)
        · rw [if_pos hs] at h; cases h; exact ⟨fun _ => rfl, fun _ => rfl, fun _ _ => rfl⟩
        · rw [if_neg hs] at h
          generalize movement b move _ _ _ _ = mv at h
          cases mv with
          | none => cases h
          | some v =>
            cases v with
            | false => cases h; exact ⟨fun _ => rfl, fun _ => rfl, fun _ _ => rfl⟩
            | true => exact validate_tail_board _ _ _ _ _ _ _ _ _ h

theorem attack_scan_board (c : Char) (king : Fin 8 × Fin 8) (l : List (Fin 8 × Fin 8)) :
    ∀ (b : Board) (r : Bool) (b1 : Board), attack_scan c king l b = some (r, b1) → b1 = b := by
  induction l with
  | nil => intro b r b1 h; simp only [attack_scan] at h; cases h; rfl
  | cons p rest ih =>
    intro b r b1 h
    simp only [attack_scan] at h
    by_cases hc : (b p.1 p.2).c0 = c
    · rw [if_pos hc] at h
      cases hv : validate_move b (generate_move_capture b p.1 p.2 king.1 king.2) with
      | none => rw [hv] at h; cases h
      | some res =>
        obtain ⟨v, b2⟩ := res
        have hb : b2 = b := (validate_move_board _ _ _ _ hv).2.2 rfl
          (show ('x' : Char) ≠ 'y' by decide)
        subst hb
        rw [hv] at h
        cases v with
        | true => cases h; rfl
        | false => exact ih _ _ _ h
    · rw [if_neg hc] at h
      exact ih _ _ _ h

theorem is_opponent_in_check_board (b : Board) (c : Char) (r : Bool) (b1 : Board)
    (h : is_opponent_in_check b c = some (r, b1)) : b1 = b :=
  attack_scan_board _ _ _ _ _ _ h

theorem setSq_undo (b : Board) (fr fc tr tc : Fin 8) :
    setSq (setSq (setSq (setSq b tr tc (b fr fc)) fr fc EMPTY) fr fc (b fr fc)) tr tc (b tr tc)
      = b := by
  funext i j
  simp only [setSq]
  by_cases h1 : i = tr ∧ j = tc
  · rw [if_pos h1, h1.1, h1.2]
  · rw [if_neg h1]
    by_cases h2 : i = fr ∧ j = fc
    · rw [if_pos h2, h2.1, h2.2]
    · rw [if_neg h2, if_neg h2, if_neg h1]

theorem try_and_undo_board (b : Board) (fr fc tr tc : Fin 8) (c : Char) (r : Bool) (b1 : Board)
    (h : try_and_undo b fr fc tr tc c = some (r, b1)) : b1 = b := by
  unfold try_and_undo at h
  simp only at h
  cases hc : is_opponent_in_check (setSq (setSq b tr tc (b fr fc)) fr fc EMPTY) c with
  | none => rw [hc] at h; cases h
  | some res =>
    obtain ⟨ic, b3⟩ := res
    have := is_opponent_in_check_board _ _ _ _ hc
    subst this
    rw [hc] at h
    cases h
    exact setSq_undo b fr fc tr tc

theorem validate_either_board (b : Board) (fr fc tr tc : Fin 8) (r : Bool) (b1 : Board)
    (h : validate_either b fr fc tr tc = some (r, b1)) : b1 = b := by
  unfold validate_either at h
  cases hv : validate_move b (generate_move_non_capture b fr fc tr tc) with
  | none => rw [hv] at h; cases h
  | some res =>
    obtain ⟨v, b2⟩ := res
    have hb : b2 = b := (validate_move_board _ _ _ _ hv).2.1 rfl
    subst hb
    rw [hv] at h
    cases v with
    | true => cases h; rfl
    | false =>
      exact (validate_move_board _ _ _ _ h).2.2 rfl (show ('x' : Char) ≠ 'y' by decide)

theorem escape_dests_board (c : Char) (row col : Fin 8) (l : List (Fin 8 × Fin 8)) :
    ∀ (b : Board) (r : Bool) (b1 : Board),
      escape_dests c row col l b = some (r, b1) → b1 = b := by
  induction l with
  | nil => intro b r b1 h; simp only [escape_dests] at h; cases h; rfl
  | cons q rest ih =>
    intro b r b1 h
    simp only [escape_dests] at h
    cases hv : validate_either b row col q.1 q.2 with
    | none => rw [hv] at h; cases h
    | some res =>
      obtain ⟨v, b2⟩ := res
      have hb : b2 = b := validate_either_board _ _ _ _ _ _ _ hv
      subst hb
      rw [hv] at h
      cases v with
      | false => exact ih _ _ _ h
      | true =>
        simp only at h
        cases ht : try_and_undo b2 row col q.1 q.2 c with
        | none => rw [ht] at h; cases h
        | some res2 =>
          obtain ⟨t, b3⟩ := res2
          have hb3 : b3 = b2 := try_and_undo_board _ _ _ _ _ _ _ _ ht
          subst hb3
          rw [ht] at h
          cases t with
          | true => cases h; rfl
          | false => exact ih _ _ _ h

theorem escape_sources_board (c : Char) (l : List (Fin 8 × Fin 8)) :
    ∀ (b : Board) (r : Bool) (b1 : Board),
      escape_sources c l b = some (r, b1) → b1 = b := by
  induction l with
  | nil => intro b r b1 h; simp only [escape_sources] at h; cases h; rfl
  | cons p rest ih =>
    intro b r b1 h
    simp only [escape_sources] at h
    by_cases hc : (b p.1 p.2).c0 ≠ c
    · rw [if_pos hc] at h
      cases hv : escape_dests c p.1 p.2 squares b with
      | none => rw [hv] at h; cases h
      | some res =>
        obtain ⟨v, b2⟩ := res
        have hb : b2 = b := escape_dests_board _ _ _ _ _ _ _ hv
        subst hb
        rw [hv] at h
        cases v with
        | true => cases h; rfl
        | false => exact ih _ _ _ h
    · rw [if_neg hc] at h
      exact ih _ _ _ h

theorem is_opponent_in_checkmate_board (b : Board) (c : Char) (r : Bool) (b1 : Board)
    (h : is_opponent_in_checkmate b c = some (r, b1)) : b1 = b := by
  unfold is_opponent_in_checkmate at h
  cases hv : is_opponent_in_check b c with
  | none => rw [hv] at h; cases h
  | some res =>
    obtain ⟨v, b2⟩ := res
    have hb : b2 = b := is_opponent_in_check_board _ _ _ _ hv
    subst hb
    rw [hv] at h
    cases v with
    | false => cases h; rfl
    | true =>
      simp only at h
      cases he : escape_sources c squares b2 with
      | none => rw [he] at h; cases h
      | some res2 =>
        obtain ⟨e, b3⟩ := res2
        rw [he] at h
        cases h
        exact escape_sources_board _ _ _ _ _ he

/-- A call that returns `r` and is known to leave the board `b` returns `(r, b)`. -/
theorem result_of_fst {x : Option (Bool × Board)} {r : Bool} {b : Board}
    (hb : ∀ r1 b1, x = some (r1, b1) → b1 = b) (h : x.map Prod.fst = some r) :
    x = some (r, b) := by
  cases x with
  | none => cases h
  | some res =>
    obtain ⟨r1, b1⟩ := res
    have h1 : b1 = b := hb r1 b1 rfl
    subst h1
    simp only [Option.map_some', Option.some.injEq] at h
    subst h
    rfl

/-! ## Decoding the squares of a move text -/

theorem getSq_fin (b : Board) (r c : Fin 8) : getSq b (r.val : Int) (c.val : Int) = some (b r c) := by
  unfold getSq
  have hr := r.isLt
  have hc := c.isLt
  have h : 0 ≤ 8 * (r.val : Int) + c.val ∧ 8 * (r.val : Int) + c.val < 64 := by omega
  rw [dif_pos h]
  have e1 : (⟨((8 * (r.val : Int) + c.val) / 8).toNat, by omega⟩ : Fin 8) = r :=
    Fin.ext (by show ((8 * (r.val : Int) + c.val) / 8).toNat = r.val; omega)
  have e2 : (⟨((8 * (r.val : Int) + c.val) % 8).toNat, by omega⟩ : Fin 8) = c :=
    Fin.ext (by show ((8 * (r.val : Int) + c.val) % 8).toNat = c.val; omega)
  rw [e1, e2]

theorem putSq_fin (b : Board) (r c : Fin 8) (s : Square) :
    putSq b (r.val : Int) (c.val : Int) s = some (setSq b r c s) := by
  unfold putSq
  have hr := r.isLt
  have hc := c.isLt
  have h : 0 ≤ 8 * (r.val : Int) + c.val ∧ 8 * (r.val : Int) + c.val < 64 := by omega
  rw [dif_pos h]
  have e1 : (⟨((8 * (r.val : Int) + c.val) / 8).toNat, by omega⟩ : Fin 8) = r :=
    Fin.ext (by show ((8 * (r.val : Int) + c.val) / 8).toNat = r.val; omega)
  have e2 : (⟨((8 * (r.val : Int) + c.val) % 8).toNat, by omega⟩ : Fin 8) = c :=
    Fin.ext (by show ((8 * (r.val : Int) + c.val) % 8).toNat = c.val; omega)
  rw [e1, e2]

theorem ord_colChar : ∀ c : Fin 8, ord (colChar c) - ord 'a' = (c.val : Int) := by decide

theorem ord_rowChar : ∀ r : Fin 8, ord (rowChar r) - ord '1' = (r.val : Int) := by decide

/-- The body of `validate_move` once the head of the text is accepted and its
squares are decoded. -/
theorem validate_move_at (b : Board) (move : List Char) (fr fc tr tc : Fin 8)
    (hh : ¬ header_rejects move)
    (h3 : ord (charAt move 3) - ord '1' = (fr.val : Int))
    (h2 : ord (charAt move 2) - ord 'a' = (fc.val : Int))
    (h6 : ord (charAt move 6) - ord '1' = (tr.val : Int))
    (h5 : ord (charAt move 5) - ord 'a' = (tc.val : Int)) :
    validate_move b move =
      if ¬ ((b fr fc).c0 = charAt move 0 ∧ (b fr fc).c1 = charAt move 1) then some (false, b)
      else
        match movement b move fr.val fc.val tr.val tc.val with
        | none => none
        | some false => some (false, b)
        | some true => validate_tail b move (b tr tc) fr.val fc.val tr.val tc.val := by
  unfold validate_move
  rw [if_neg hh]
  simp only [h3, h2, h6, h5, getSq_fin]

/-- C3, as stated, fails: with a white pawn on a7 and a8 empty, `validate_move`
rejects the text `WPa7-a8yQ` of the specification (it has nine characters; the
function accepts texts of 7, 10 or 13 characters only). -/
theorem promotion_spec_text_rejected :
    promotion_board 6 0 = ⟨'W', 'P'⟩ ∧ promotion_board 7 0 = EMPTY ∧
      (validate_move promotion_board promotion_text_spec).map Prod.fst = some false := by
  decide

/-- C3, amended: the promotion is written `WPa7-a8yWQ`.  For every board with a
white pawn on a7 and a8 empty, `validate_move` accepts this text and leaves a
white queen on a7, and `update_game_state` then leaves a8 with the white queen
(and a7 empty); for every board where a8 is not empty the text is rejected and
the board is left as it was. -/
theorem promotion_a7_a8 (b : Board) :
    (b 6 0 = ⟨'W', 'P'⟩ → b 7 0 = EMPTY →
      validate_move b promotion_text = some (true, setSq b 6 0 ⟨'W', 'Q'⟩) ∧
      update_game_state (setSq b 6 0 ⟨'W', 'Q'⟩) promotion_text
        = some (setSq (setSq (setSq b 6 0 ⟨'W', 'Q'⟩) 7 0 ⟨'W', 'Q'⟩) 6 0 EMPTY) ∧
      (setSq (setSq (setSq b 6 0 ⟨'W', 'Q'⟩) 7 0 ⟨'W', 'Q'⟩) 6 0 EMPTY) 7 0 = ⟨'W', 'Q'⟩) ∧
    (b 7 0 ≠ EMPTY → validate_move b promotion_text = some (false, b)) := by
  have hv := validate_move_at b promotion_text 6 0 7 0 (by decide) (by decide) (by decide)
    (by decide) (by decide)
  have hm : movement b promotion_text ((6 : Fin 8).val : Int) ((0 : Fin 8).val : Int)
      ((7 : Fin 8).val : Int) ((0 : Fin 8).val : Int) = some true := by
    unfold movement
    rw [if_pos (by decide), if_neg (by decide)]
  rw [hm] at hv
  simp only at hv
  have ht : ∀ dst, validate_tail b promotion_text dst ((6 : Fin 8).val : Int)
      ((0 : Fin 8).val : Int) ((7 : Fin 8).val : Int) ((0 : Fin 8).val : Int)
      = if promotion_rejects promotion_text dst ((6 : Fin 8).val : Int)
          ((0 : Fin 8).val : Int) ((7 : Fin 8).val : Int) ((0 : Fin 8).val : Int)
        then some (false, b)
        else some (true, setSq b 6 0 ⟨(b 6 0).c0, 'Q'⟩) := by
    intro dst
    unfold validate_tail
    rw [if_neg (fun h => absurd h.1 (by decide)), if_pos (by decide)]
    unfold validate_len10
    rw [if_neg (by decide), if_pos (by decide)]
    unfold promote
    rw [getSq_fin]
    simp only
    rw [putSq_fin]
    rfl
  rw [ht] at hv
  refine ⟨fun h1 h2 => ⟨?_, ?_, ?_⟩, fun h3 => ?_⟩
  · rw [hv, h1, h2, if_neg (by decide), if_neg (by decide)]
  · unfold update_game_state
    have e3 : ord (charAt promotion_text 3) - ord '1' = ((6 : Fin 8).val : Int) := by decide
    have e2 : ord (charAt promotion_text 2) - ord 'a' = ((0 : Fin 8).val : Int) := by decide
    have e6 : ord (charAt promotion_text 6) - ord '1' = ((7 : Fin 8).val : Int) := by decide
    have e5 : ord (charAt promotion_text 5) - ord 'a' = ((0 : Fin 8).val : Int) := by decide
    simp only [e3, e2, e6, e5, getSq_fin, putSq_fin]
    have : setSq b 6 0 ⟨'W', 'Q'⟩ 6 0 = ⟨'W', 'Q'⟩ := by simp [setSq]
    rw [this]
  · simp [setSq]
  · rw [hv]
    by_cases hs : ¬ ((b 6 0).c0 = charAt promotion_text 0 ∧ (b 6 0).c1 = charAt promotion_text 1)
    · rw [if_pos hs]
    · rw [if_neg hs]
      have hr : promotion_rejects promotion_text (b 7 0) ((6 : Fin 8).val : Int)
          ((0 : Fin 8).val : Int) ((7 : Fin 8).val : Int) ((0 : Fin 8).val : Int) := by
        unfold promotion_rejects
        right; right; right; right
        intro hd
        apply h3
        cases hb : b 7 0 with
        | mk x y => rw [hb] at hd; simp only at hd; rw [hd.1, hd.2]; rfl
      rw [if_pos hr]

theorem promotion_a7_a8_witness :
    (promotion_board 6 0 = ⟨'W', 'P'⟩ ∧ promotion_board 7 0 = EMPTY ∧
      validate_move promotion_board promotion_text
        = some (true, setSq promotion_board 6 0 ⟨'W', 'Q'⟩)) ∧
    (promotion_blocked_board 7 0 ≠ EMPTY ∧
      validate_move promotion_blocked_board promotion_text
        = some (false, promotion_blocked_board)) :=
  ⟨⟨by decide, by decide,
      ((promotion_a7_a8 promotion_board).1 (by decide) (by decide)).1⟩,
    ⟨by decide, (promotion_a7_a8 promotion_blocked_board).2 (by decide)⟩⟩

/-- C2, the code at the failing input: White, in check from the rook on e8,
answers with the promotion `WPa7-a8yWQ`.  `handle_player_move` answers
`ILLMOVE`, yet a7, which held a white pawn, holds a white queen afterwards. -/
theorem rejected_promotion_changes_board :
    (handle_player_move checked_promotion_session promotion_text).map
        (fun s => s.output_message) = some "ILLMOVE\n" ∧
      (handle_player_move checked_promotion_session promotion_text).map
        (fun s => s.game_board 6 0) = some ⟨'W', 'Q'⟩ ∧
      checked_promotion_session.game_board 6 0 = ⟨'W', 'P'⟩ := by
  decide

/-- C6: on the board of `initialize_board`, `is_opponent_in_check` returns
`false` for the attacker colour White and for the attacker colour Black (and
leaves the board as it is). -/
theorem initial_position_no_check :
    is_opponent_in_check initialize_board 'W' = some (false, initialize_board) ∧
      is_opponent_in_check initialize_board 'B' = some (false, initialize_board) :=
  ⟨result_of_fst (is_opponent_in_check_board _ _) (by decide),
    result_of_fst (is_opponent_in_check_board _ _) (by decide)⟩

theorem toFin8_of_range (i : Int) (h0 : ¬ i < 0) (h8 : ¬ i ≥ 8) :
    ∃ r : Fin 8, i = (r.val : Int) :=
  ⟨⟨i.toNat, by omega⟩, by simp only; omega⟩

/-- A text that passes the head of `validate_move` names two squares of the board. -/
theorem header_squares (move : List Char) (hh : ¬ header_rejects move) :
    ∃ fr fc tr tc : Fin 8,
      ord (charAt move 3) - ord '1' = (fr.val : Int) ∧
      ord (charAt move 2) - ord 'a' = (fc.val : Int) ∧
      ord (charAt move 6) - ord '1' = (tr.val : Int) ∧
      ord (charAt move 5) - ord 'a' = (tc.val : Int) := by
  unfold header_rejects at hh
  simp only [not_or] at hh
  obtain ⟨_, _, ⟨a1, a2, a3, a4, a5, a6, a7, a8⟩, _⟩ := hh
  obtain ⟨fr, hfr⟩ := toFin8_of_range _ a1 a2
  obtain ⟨fc, hfc⟩ := toFin8_of_range _ a3 a4
  obtain ⟨tr, htr⟩ := toFin8_of_range _ a5 a6
  obtain ⟨tc, htc⟩ := toFin8_of_range _ a7 a8
  exact ⟨fr, fc, tr, tc, hfr, hfc, htr, htc⟩

theorem header_length (move : List Char) (hh : ¬ header_rejects move) :
    move.length = 7 ∨ move.length = 10 ∨ move.length = 13 := by
  unfold header_rejects at hh
  simp only [not_or] at hh
  omega

theorem header_colour (move : List Char) (hh : ¬ header_rejects move) :
    charAt move 0 = 'W' ∨ charAt move 0 = 'B' := by
  unfold header_rejects at hh
  simp only [not_or, not_and_or, not_not] at hh
  exact hh.2.1

theorem square_eq (s : Square) (x y : Char) (h : s.c0 = x ∧ s.c1 = y) : s = ⟨x, y⟩ := by
  cases s with
  | mk a b => simp only at h; rw [h.1, h.2]

/-- An accepted move: the head of the text passed, the source cell holds the
declared piece, the movement was accepted and the end of the function returned
`true`. -/
theorem validate_move_accepts (b : Board) (move : List Char)
    (h : (validate_move b move).map Prod.fst = some true) :
    ¬ header_rejects move ∧
    ∃ fr fc tr tc : Fin 8,
      ord (charAt move 3) - ord '1' = (fr.val : Int) ∧
      ord (charAt move 2) - ord 'a' = (fc.val : Int) ∧
      ord (charAt move 6) - ord '1' = (tr.val : Int) ∧
      ord (charAt move 5) - ord 'a' = (tc.val : Int) ∧
      b fr fc = ⟨charAt move 0, charAt move 1⟩ ∧
      movement b move fr.val fc.val tr.val tc.val = some true ∧
      (validate_tail b move (b tr tc) fr.val fc.val tr.val tc.val).map Prod.fst = some true ∧
      validate_move b move = validate_tail b move (b tr tc) fr.val fc.val tr.val tc.val := by
  by_cases hh : header_rejects move
  · unfold validate_move at h
    rw [if_pos hh] at h
    cases h
  · refine ⟨hh, ?_⟩
    obtain ⟨fr, fc, tr, tc, h3, h2, h6, h5⟩ := header_squares move hh
    refine ⟨fr, fc, tr, tc, h3, h2, h6, h5, ?_⟩
    rw [validate_move_at b move fr fc tr tc hh h3 h2 h6 h5] at h ⊢
    by_cases hs : ¬ ((b fr fc).c0 = charAt move 0 ∧ (b fr fc).c1 = charAt move 1)
    · rw [if_pos hs] at h
      cases h
    · rw [if_neg hs] at h ⊢
      refine ⟨square_eq _ _ _ (not_not.mp hs), ?_⟩
      cases hm : movement b move fr.val fc.val tr.val tc.val with
      | none => rw [hm] at h; cases h
      | some v =>
        cases v with
        | false => rw [hm] at h; cases h
        | true => rw [hm] at h; exact ⟨rfl, h, rfl⟩

theorem charAt_beyond (move : List Char) (i : Nat) (h : move.length ≤ i) :
    charAt move i = Char.ofNat 0 := by
  unfold charAt
  exact List.getD_eq_default _ _ h

/-- What the end of `validate_move` has checked on the destination cell when
it returns `true`. -/
theorem validate_tail_accepts (b : Board) (move : List Char) (dst : Square)
    (fr fc tr tc : Int) (hl : move.length = 7 ∨ move.length = 10 ∨ move.length = 13)
    (h : (validate_tail b move dst fr fc tr tc).map Prod.fst = some true) :
    (charAt move 7 ≠ 'x' → dst = EMPTY) ∧
    (charAt move 7 = 'x' → dst = ⟨charAt move 8, charAt move 9⟩ ∧
      (charAt move 8 = 'W' ∨ charAt move 8 = 'B') ∧ charAt move 8 ≠ charAt move 0) := by
  unfold validate_tail at h
  by_cases h7 : move.length = 7 ∧ ¬ (dst.c0 = '*' ∧ dst.c1 = '*')
  · rw [if_pos h7] at h; cases h
  rw [if_neg h7] at h
  by_cases h10 : move.length = 10
  · rw [if_pos h10] at h
    unfold validate_len10 at h
    by_cases hx : charAt move 7 = 'x'
    · rw [if_pos hx] at h
      by_cases hc : capture_rejects move dst fr fc tr tc
      · rw [if_pos hc] at h; cases h
      · refine ⟨fun hn => absurd hx hn, fun _ => ?_⟩
        unfold capture_rejects at hc
        simp only [not_or, not_and_or, not_not] at hc
        exact ⟨square_eq _ _ _ hc.2.2.1, hc.1, hc.2.1⟩
    · rw [if_neg hx] at h
      by_cases hy : charAt move 7 = 'y'
      · rw [if_pos hy] at h
        by_cases hc : promotion_rejects move dst fr fc tr tc
        · rw [if_pos hc] at h; cases h
        · refine ⟨fun _ => ?_, fun hx2 => absurd hx2 hx⟩
          unfold promotion_rejects at hc
          simp only [not_or, not_not] at hc
          exact square_eq _ _ _ hc.2.2.2.2
      · rw [if_neg hy] at h; cases h
  · rw [if_neg h10] at h
    by_cases h13 : move.length = 13
    · rw [if_pos h13] at h
      unfold validate_len13 at h
      by_cases hc : capture_promotion_rejects move dst fr fc tr tc
      · rw [if_pos hc] at h; cases h
      · unfold capture_promotion_rejects at hc
        simp only [not_or, not_and_or, not_not] at hc
        refine ⟨fun hn => absurd hc.2.2.1 hn, fun _ => ?_⟩
        exact ⟨square_eq _ _ _ hc.2.2.2.2.2.2.1, hc.2.2.2.2.1, hc.2.2.2.2.2.1⟩
    · have hl7 : move.length = 7 := by omega
      have hd : dst.c0 = '*' ∧ dst.c1 = '*' := by
        by_contra hd
        exact h7 ⟨hl7, hd⟩
      refine ⟨fun _ => square_eq _ _ _ hd, fun hx => ?_⟩
      rw [charAt_beyond move 7 (by omega)] at hx
      exact absurd hx (by decide)

/-- C8: for every board and every move text accepted by `validate_move`, the
destination written in the text is a square of the board; when the text
declares no capture that square is empty; when it declares a capture the square
holds exactly the declared colour and kind, and the declared colour is the
opposite of the mover's.  Scenario: after `WPe2-e4`, `BPe7-e5`, `WBf1-c4` the
square h5 is empty and `WQd1-h5xBP` is rejected. -/
theorem accepted_move_destination :
    (∀ (b : Board) (move : List Char), (validate_move b move).map Prod.fst = some true →
      ∃ to_row to_col : Fin 8,
        ord (charAt move 6) - ord '1' = (to_row.val : Int) ∧
        ord (charAt move 5) - ord 'a' = (to_col.val : Int) ∧
        (¬ declares_capture move → b to_row to_col = EMPTY) ∧
        (declares_capture move →
          b to_row to_col = ⟨charAt move 8, charAt move 9⟩ ∧
          ((charAt move 0 = 'W' ∧ charAt move 8 = 'B') ∨
            (charAt move 0 = 'B' ∧ charAt move 8 = 'W')))) ∧
    (opening_board.map (fun b => b 4 7) = some EMPTY ∧
      (opening_board.bind (fun b => validate_move b "WQd1-h5xBP".toList)).map Prod.fst
        = some false) := by
  refine ⟨fun b move h => ?_, by decide, by decide⟩
  obtain ⟨hh, fr, fc, tr, tc, h3, h2, h6, h5, hsrc, hm, ht, _⟩ := validate_move_accepts b move h
  have hta := validate_tail_accepts b move (b tr tc) _ _ _ _ (header_length move hh) ht
  refine ⟨tr, tc, h6, h5, hta.1, fun hx => ?_⟩
  obtain ⟨hd, h8, hne⟩ := hta.2 hx
  refine ⟨hd, ?_⟩
  rcases header_colour move hh with h0 | h0
  · rcases h8 with h8 | h8
    · rw [h0, h8] at hne; exact absurd rfl hne
    · exact Or.inl ⟨h0, h8⟩
  · rcases h8 with h8 | h8
    · exact Or.inr ⟨h0, h8⟩
    · rw [h0, h8] at hne; exact absurd rfl hne

theorem accepted_move_destination_witness :
    (validate_move initialize_board "WPe2-e4".toList).map Prod.fst = some true ∧
    ∃ to_row to_col : Fin 8,
      ord (charAt "WPe2-e4".toList 6) - ord '1' = (to_row.val : Int) ∧
      ord (charAt "WPe2-e4".toList 5) - ord 'a' = (to_col.val : Int) ∧
      (¬ declares_capture "WPe2-e4".toList → initialize_board to_row to_col = EMPTY) ∧
      (declares_capture "WPe2-e4".toList →
        initialize_board to_row to_col
            = ⟨charAt "WPe2-e4".toList 8, charAt "WPe2-e4".toList 9⟩ ∧
          ((charAt "WPe2-e4".toList 0 = 'W' ∧ charAt "WPe2-e4".toList 8 = 'B') ∨
            (charAt "WPe2-e4".toList 0 = 'B' ∧ charAt "WPe2-e4".toList 8 = 'W'))) :=
  ⟨by decide, accepted_move_destination.1 initialize_board "WPe2-e4".toList (by decide)⟩

/-! ## The path scan of `obstacles` -/

theorem getSq_some (b : Board) (r c : Int) (h : 0 ≤ r ∧ r < 8 ∧ 0 ≤ c ∧ c < 8) :
    ∃ s, getSq b r c = some s := by
  unfold getSq
  rw [dif_pos (by omega)]
  exact ⟨_, rfl⟩

/-- The loop of `scan`: when the stop test first holds after `k` iterations,
`k` is below the fuel and the `k` cells visited are on the board, the loop
returns, and it returns `false` exactly when the `k` cells are empty. -/
theorem scan_spec (b : Board) (dr dc : Int) (stop : Int → Int → Bool) :
    ∀ (k n : Nat) (r c : Int), k < n →
      (∀ i : Nat, i < k → stop (r + i * dr) (c + i * dc) = false) →
      stop (r + k * dr) (c + k * dc) = true →
      (∀ i : Nat, i < k → ∃ s, getSq b (r + i * dr) (c + i * dc) = some s) →
      ∃ o, scan b dr dc stop n r c = some o ∧
        (o = false ↔ ∀ i : Nat, i < k → getSq b (r + i * dr) (c + i * dc) = some EMPTY) := by
  intro k
  induction k with
  | zero =>
    intro n r c hn _ hstop _
    obtain ⟨m, rfl⟩ : ∃ m, n = m + 1 := ⟨n - 1, by omega⟩
    simp only [Nat.cast_zero, zero_mul, add_zero] at hstop
    refine ⟨false, ?_, ?_⟩
    · simp only [scan]
      rw [if_pos hstop]
    · constructor
      · intro _ i hi
        omega
      · intro _
        rfl
  | succ k ih =>
    intro n r c hn hns hstop hin
    obtain ⟨m, rfl⟩ : ∃ m, n = m + 1 := ⟨n - 1, by omega⟩
    have h0 : stop r c = false := by
      have := hns 0 (by omega)
      simpa using this
    obtain ⟨s, hs⟩ : ∃ s, getSq b r c = some s := by
      have := hin 0 (by omega)
      simpa using this
    have shift : ∀ (i : Nat) (x d : Int), x + d + (i : Int) * d = x + ((i + 1 : Nat) : Int) * d := by
      intro i x d
      push_cast
      ring
    simp only [scan]
    rw [if_neg (by rw [h0]; decide), hs]
    simp only
    by_cases he : s ≠ EMPTY
    · rw [if_pos he]
      refine ⟨true, rfl, ?_⟩
      constructor
      · intro h; cases h
      · intro hall
        have := hall 0 (by omega)
        simp only [Nat.cast_zero, zero_mul, add_zero] at this
        rw [hs] at this
        exact absurd (Option.some.inj this) he
    · rw [if_neg he]
      have hse : s = EMPTY := not_not.mp he
      obtain ⟨o, ho, hiff⟩ := ih m (r + dr) (c + dc) (by omega)
        (fun i hi => by rw [shift, shift]; exact hns (i + 1) (by omega))
        (by rw [shift, shift]; exact hstop)
        (fun i hi => by rw [shift, shift]; exact hin (i + 1) (by omega))
      refine ⟨o, ho, ?_⟩
      rw [hiff]
      constructor
      · intro hall i hi
        cases i with
        | zero =>
          simp only [Nat.cast_zero, zero_mul, add_zero]
          rw [hs, hse]
        | succ j =>
          have := hall j (by omega)
          rw [shift, shift] at this
          exact this
      · intro hall i hi
        rw [shift, shift]
        exact hall (i + 1) (by omega)

/-- The scan of `obstacles` along one direction: from the cell next to `(R, C)`
in direction `(sr, sc)` up to the `n`-th cell, the stop test holding there and
not before. -/
theorem scan_ray (b : Board) (R C : Int) (n : Nat) (sr sc : Int) (stop : Int → Int → Bool)
    (hn : 1 ≤ n)
    (hsr : sr = -1 ∨ sr = 0 ∨ sr = 1) (hsc : sc = -1 ∨ sc = 0 ∨ sc = 1)
    (hnz : sr ≠ 0 ∨ sc ≠ 0)
    (hR : 0 ≤ R ∧ R < 8) (hC : 0 ≤ C ∧ C < 8)
    (hTR : 0 ≤ R + n * sr ∧ R + n * sr < 8) (hTC : 0 ≤ C + n * sc ∧ C + n * sc < 8)
    (hstop : ∀ j : Nat, 0 < j → j ≤ n → (stop (R + j * sr) (C + j * sc) = true ↔ j = n)) :
    ∃ o, scan b sr sc stop 65 (R + sr) (C + sc) = some o ∧
      (o = false ↔
        ∀ j : Nat, j < n → 0 < j → getSq b (R + j * sr) (C + j * sc) = some EMPTY) := by
  have shift : ∀ (i : Nat) (x d : Int), x + d + (i : Int) * d = x + ((i + 1 : Nat) : Int) * d := by
    intro i x d
    push_cast
    ring
  have hn7 : n ≤ 7 := by
    rcases hsr with h | h | h <;> rcases hsc with h' | h' | h' <;> subst h <;> subst h' <;>
      omega
  have hin : ∀ j : Nat, j ≤ n → 0 ≤ R + j * sr ∧ R + j * sr < 8 ∧ 0 ≤ C + j * sc ∧ C + j * sc < 8 := by
    intro j hj
    have : (j : Int) ≤ n := by exact_mod_cast hj
    rcases hsr with h | h | h <;> rcases hsc with h' | h' | h' <;> subst h <;> subst h' <;> omega
  obtain ⟨o, ho, hiff⟩ := scan_spec b sr sc stop (n - 1) 65 (R + sr) (C + sc) (by omega)
    (fun i hi => by
      rw [shift, shift]
      have := hstop (i + 1) (by omega) (by omega)
      cases hst : stop (R + ((i + 1 : Nat) : Int) * sr) (C + ((i + 1 : Nat) : Int) * sc) with
      | false => rfl
      | true => have := this.mp hst; omega)
    (by
      have e : ∀ x d : Int, x + d + ((n - 1 : Nat) : Int) * d = x + (n : Int) * d := by
        intro x d
        rw [shift]
        congr 2
        omega
      rw [e, e]
      exact (hstop n (by omega) (le_refl n)).mpr rfl)
    (fun i hi => by
      rw [shift, shift]
      exact getSq_some b _ _ (hin (i + 1) (by omega)))
  refine ⟨o, ho, ?_⟩
  rw [hiff]
  constructor
  · intro hall j hj hj0
    obtain ⟨i, rfl⟩ : ∃ i, j = i + 1 := ⟨j - 1, by omega⟩
    have := hall i (by omega)
    rw [shift, shift] at this
    exact this
  · intro hall i hi
    rw [shift, shift]
    exact hall (i + 1) (by omega) (by omega)

theorem step_eq_sign (d : Int) (h : d ≠ 0) : (if d > 0 then (1 : Int) else -1) = Int.sign d := by
  by_cases hp : d > 0
  · rw [if_pos hp, Int.sign_eq_one_of_pos hp]
  · rw [if_neg hp, Int.sign_eq_neg_one_of_neg (by omega)]

theorem sign_cases (d : Int) :
    (d < 0 ∧ Int.sign d = -1) ∨ (d = 0 ∧ Int.sign d = 0) ∨ (0 < d ∧ Int.sign d = 1) := by
  rcases lt_trichotomy d 0 with h | h | h
  · exact Or.inl ⟨h, Int.sign_eq_neg_one_of_neg h⟩
  · exact Or.inr (Or.inl ⟨h, by rw [h]; rfl⟩)
  · exact Or.inr (Or.inr ⟨h, Int.sign_eq_one_of_pos h⟩)

/-- The result of `obstacles` between two different squares of the board that
lie on one row, one column or one diagonal: the call returns, and it returns
`false` exactly when the cells strictly between the two squares are empty. -/
theorem obstacles_int (b : Board) (R C TR TC : Int)
    (bR : 0 ≤ R ∧ R < 8) (bC : 0 ≤ C ∧ C < 8) (bTR : 0 ≤ TR ∧ TR < 8) (bTC : 0 ≤ TC ∧ TC < 8)
    (hne : TR - R ≠ 0 ∨ TC - C ≠ 0)
    (hshape : TR - R = 0 ∨ TC - C = 0 ∨ (TR - R).natAbs = (TC - C).natAbs) :
    ∃ o, obstacles b R C TR TC = some o ∧
      (o = false ↔
        ∀ i : Nat, i < max (TR - R).natAbs (TC - C).natAbs → 0 < i →
          getSq b (R + i * Int.sign (TR - R)) (C + i * Int.sign (TC - C)) = some EMPTY) := by
  have key : ∀ (n : Nat) (sr sc : Int) (stop : Int → Int → Bool),
      n = max (TR - R).natAbs (TC - C).natAbs → sr = Int.sign (TR - R) → sc = Int.sign (TC - C) →
      obstacles b R C TR TC = scan b sr sc stop 65 (R + sr) (C + sc) →
      (∀ j : Nat, 0 < j → j ≤ n → (stop (R + j * sr) (C + j * sc) = true ↔ j = n)) →
      ∃ o, obstacles b R C TR TC = some o ∧
        (o = false ↔
          ∀ i : Nat, i < max (TR - R).natAbs (TC - C).natAbs → 0 < i →
            getSq b (R + i * Int.sign (TR - R)) (C + i * Int.sign (TC - C)) = some EMPTY) := by
    intro n sr sc stop hn hsr hsc hob hstop
    rw [hob, ← hn, ← hsr, ← hsc]
    rcases sign_cases (TR - R) with ⟨h1, s1⟩ | ⟨h1, s1⟩ | ⟨h1, s1⟩ <;>
    rcases sign_cases (TC - C) with ⟨h2, s2⟩ | ⟨h2, s2⟩ | ⟨h2, s2⟩ <;>
    rw [s1] at hsr <;> rw [s2] at hsc <;> subst hsr <;> subst hsc <;>
    first
      | (exfalso; omega)
      | exact scan_ray b R C n _ _ stop (by omega) (by omega) (by omega) (by omega) bR bC
          (by omega) (by omega) hstop
  rcases hshape with hs | hs | hs
  · -- one row
    have hdc : TC - C ≠ 0 := by omega
    refine key (TC - C).natAbs 0 (Int.sign (TC - C)) (fun _ col => col = TC) (by omega)
      (by rw [hs]; rfl) rfl ?_ ?_
    · unfold obstacles
      simp only
      rw [if_pos hs, step_eq_sign _ hdc, add_zero]
    · intro j hj0 hjn
      simp only [decide_eq_true_eq]
      rcases sign_cases (TC - C) with ⟨h2, s2⟩ | ⟨h2, s2⟩ | ⟨h2, s2⟩ <;> rw [s2] <;> omega
  · -- one column
    have hdr : TR - R ≠ 0 := by omega
    refine key (TR - R).natAbs (Int.sign (TR - R)) 0 (fun row _ => row = TR) (by omega)
      rfl (by rw [hs]; rfl) ?_ ?_
    · unfold obstacles
      simp only
      rw [if_neg hdr, if_pos hs, step_eq_sign _ hdr, add_zero]
    · intro j hj0 hjn
      simp only [decide_eq_true_eq]
      rcases sign_cases (TR - R) with ⟨h2, s2⟩ | ⟨h2, s2⟩ | ⟨h2, s2⟩ <;> rw [s2] <;> omega
  · -- one diagonal
    have hdr : TR - R ≠ 0 := by omega
    have hdc : TC - C ≠ 0 := by omega
    refine key (TR - R).natAbs (Int.sign (TR - R)) (Int.sign (TC - C))
      (fun row col => !(row != TR && col != TC)) (by omega) rfl rfl ?_ ?_
    · unfold obstacles
      simp only
      rw [if_neg hdr, if_neg hdc, if_pos hs, step_eq_sign _ hdr, step_eq_sign _ hdc]
    · intro j hj0 hjn
      simp only [Bool.not_eq_true', Bool.and_eq_false_imp, bne_iff_ne, ne_eq,
        bne_eq_false_iff_eq]
      rcases sign_cases (TR - R) with ⟨h1, s1⟩ | ⟨h1, s1⟩ | ⟨h1, s1⟩ <;>
      rcases sign_cases (TC - C) with ⟨h2, s2⟩ | ⟨h2, s2⟩ | ⟨h2, s2⟩ <;>
      rw [s1, s2] <;> constructor <;> intro h <;> omega

/-- The result of `obstacles` in terms of `path_clear`. -/
theorem obstacles_line (b : Board) (fr fc tr tc : Fin 8)
    (hne : fr ≠ tr ∨ fc ≠ tc)
    (hshape : (tr.val : Int) - fr.val = 0 ∨ (tc.val : Int) - fc.val = 0 ∨
      ((tr.val : Int) - fr.val).natAbs = ((tc.val : Int) - fc.val).natAbs) :
    ∃ o, obstacles b fr.val fc.val tr.val tc.val = some o ∧
      (o = false ↔ path_clear b fr fc tr tc) := by
  have hfr := fr.isLt
  have hfc := fc.isLt
  have htr := tr.isLt
  have htc := tc.isLt
  have hne' : (tr.val : Int) - fr.val ≠ 0 ∨ (tc.val : Int) - fc.val ≠ 0 := by
    rcases hne with h | h
    · left; intro h0; apply h; apply Fin.ext; omega
    · right; intro h0; apply h; apply Fin.ext; omega
  exact obstacles_int b fr.val fc.val tr.val tc.val (by omega) (by omega) (by omega) (by omega)
    hne' hshape

theorem header_quiet_move (c k : Char) (fr fc tr tc : Fin 8) (hc : c = 'W' ∨ c = 'B') :
    ¬ header_rejects (quiet_move c k fr fc tr tc) := by
  have hfr := fr.isLt
  have hfc := fc.isLt
  have htr := tr.isLt
  have htc := tc.isLt
  unfold header_rejects
  have e0 : charAt (quiet_move c k fr fc tr tc) 0 = c := rfl
  have e2 : charAt (quiet_move c k fr fc tr tc) 2 = colChar fc := rfl
  have e3 : charAt (quiet_move c k fr fc tr tc) 3 = rowChar fr := rfl
  have e4 : charAt (quiet_move c k fr fc tr tc) 4 = '-' := rfl
  have e5 : charAt (quiet_move c k fr fc tr tc) 5 = colChar tc := rfl
  have e6 : charAt (quiet_move c k fr fc tr tc) 6 = rowChar tr := rfl
  have el : (quiet_move c k fr fc tr tc).length = 7 := rfl
  rw [e0, e2, e3, e4, e5, e6, el, ord_colChar, ord_colChar, ord_rowChar, ord_rowChar]
  intro h
  rcases h with h | h | h | h
  · omega
  · rcases hc with hc | hc
    · exact h.1 hc
    · exact h.2 hc
  · omega
  · exact h rfl

theorem validate_tail_quiet (b : Board) (move : List Char) (dst : Square) (fr fc tr tc : Int)
    (hl : move.length = 7) :
    validate_tail b move dst fr fc tr tc
      = if dst = EMPTY then some (true, b) else some (false, b) := by
  unfold validate_tail
  by_cases hd : dst = EMPTY
  · rw [if_pos hd, if_neg (by rw [hd]; intro h; exact h.2 ⟨rfl, rfl⟩), if_neg (by omega),
      if_neg (by omega)]
  · rw [if_neg hd, if_pos ⟨hl, fun h => hd (square_eq _ _ _ h)⟩]

/-- The answer of `validate_move` to the text of a quiet move. -/
theorem validate_quiet_move (b : Board) (c k : Char) (fr fc tr tc : Fin 8)
    (hc : c = 'W' ∨ c = 'B') :
    validate_move b (quiet_move c k fr fc tr tc) =
      if ¬ (b fr fc = ⟨c, k⟩) then some (false, b)
      else
        match movement b (quiet_move c k fr fc tr tc) fr.val fc.val tr.val tc.val with
        | none => none
        | some false => some (false, b)
        | some true => if b tr tc = EMPTY then some (true, b) else some (false, b) := by
  rw [validate_move_at b _ fr fc tr tc (header_quiet_move c k fr fc tr tc hc)
    (ord_rowChar fr) (ord_colChar fc) (ord_rowChar tr) (ord_colChar tc)]
  have e0 : charAt (quiet_move c k fr fc tr tc) 0 = c := rfl
  have e1 : charAt (quiet_move c k fr fc tr tc) 1 = k := rfl
  rw [e0, e1]
  by_cases hs : b fr fc = ⟨c, k⟩
  · rw [if_neg (by rw [hs]; exact fun h => h ⟨rfl, rfl⟩), if_neg (not_not.mpr hs)]
    generalize movement b (quiet_move c k fr fc tr tc) _ _ _ _ = m
    cases m with
    | none => rfl
    | some v =>
      cases v with
      | false => rfl
      | true => exact validate_tail_quiet b (quiet_move c k fr fc tr tc) _ _ _ _ _ rfl
  · rw [if_pos (fun h => hs (square_eq _ _ _ h)), if_pos hs]

theorem color_char (c : Color) : c.toChar = 'W' ∨ c.toChar = 'B' := by
  cases c with
  | White => exact Or.inl rfl
  | Black => exact Or.inr rfl

/-- A quiet move of a piece whose movement test is a shape followed by the
path scan. -/
theorem quiet_slider (b : Board) (c k : Char) (fr fc tr tc : Fin 8) (hc : c = 'W' ∨ c = 'B')
    (shape : Prop) [Decidable shape]
    (hline : shape → (tr.val : Int) - fr.val = 0 ∨ (tc.val : Int) - fc.val = 0 ∨
      ((tr.val : Int) - fr.val).natAbs = ((tc.val : Int) - fc.val).natAbs)
    (hmov : movement b (quiet_move c k fr fc tr tc) fr.val fc.val tr.val tc.val
      = if ¬ shape then some false else path_free b fr.val fc.val tr.val tc.val) :
    (validate_move b (quiet_move c k fr fc tr tc)).map Prod.fst = some true ↔
      b fr fc = ⟨c, k⟩ ∧ (fr ≠ tr ∨ fc ≠ tc) ∧ shape ∧ path_clear b fr fc tr tc ∧
        b tr tc = EMPTY := by
  rw [validate_quiet_move b c k fr fc tr tc hc, hmov]
  have hstar : c ≠ '*' := by
    rcases hc with h | h <;> rw [h] <;> decide
  constructor
  · intro h
    by_cases hs : b fr fc = ⟨c, k⟩
    swap
    · rw [if_pos hs] at h; cases h
    rw [if_neg (not_not.mpr hs)] at h
    by_cases hsh : shape
    swap
    · rw [if_pos hsh] at h; cases h
    rw [if_neg (not_not.mpr hsh)] at h
    by_cases hd : b tr tc = EMPTY
    swap
    · rw [if_neg hd] at h
      generalize path_free b _ _ _ _ = p at h
      cases p with
      | none => cases h
      | some v => cases v <;> cases h
    have hne : fr ≠ tr ∨ fc ≠ tc := by
      by_contra hcon
      simp only [not_or, not_not] at hcon
      rw [← hcon.1, ← hcon.2, hs] at hd
      exact hstar (congrArg Square.c0 hd)
    obtain ⟨o, ho, hiff⟩ := obstacles_line b fr fc tr tc hne (hline hsh)
    unfold path_free at h
    rw [ho] at h
    cases o with
    | false => exact ⟨hs, hne, hsh, hiff.mp rfl, hd⟩
    | true => cases h
  · rintro ⟨hs, hne, hsh, hp, hd⟩
    obtain ⟨o, ho, hiff⟩ := obstacles_line b fr fc tr tc hne (hline hsh)
    have : o = false := hiff.mpr hp
    subst this
    unfold path_free
    rw [if_neg (not_not.mpr hs), if_neg (not_not.mpr hsh), ho]
    simp only [Option.map_some', Bool.not_false]
    rw [if_pos hd]
    rfl

theorem movement_bishop (b : Board) (move : List Char) (fr fc tr tc : Int)
    (h : charAt move 1 = 'B') :
    movement b move fr fc tr tc
      = if ¬ ((tr - fr).natAbs = (tc - fc).natAbs) then some false
        else path_free b fr fc tr tc := by
  unfold movement
  rw [h, if_neg (by decide), if_neg (by decide), if_pos rfl]

theorem movement_rook (b : Board) (move : List Char) (fr fc tr tc : Int)
    (h : charAt move 1 = 'R') :
    movement b move fr fc tr tc
      = if ¬ (fr = tr ∨ fc = tc) then some false else path_free b fr fc tr tc := by
  unfold movement
  rw [h, if_neg (by decide), if_neg (by decide), if_neg (by decide), if_pos rfl]

theorem movement_queen (b : Board) (move : List Char) (fr fc tr tc : Int)
    (h : charAt move 1 = 'Q') :
    movement b move fr fc tr tc
      = if ¬ (fr = tr ∨ fc = tc ∨ (tr - fr).natAbs = (tc - fc).natAbs) then some false
        else path_free b fr fc tr tc := by
  unfold movement
  rw [h, if_neg (by decide), if_neg (by decide), if_neg (by decide), if_neg (by decide),
    if_pos rfl]

/-- C9: for every board, colour and pair of squares of the board, `validate_move`
accepts the quiet move of a bishop, a rook or a queen if and only if the source
holds that colour and kind, the two squares differ, the displacement has the
shape of the piece (bishop: `|Δrow| = |Δcol|`; rook: exactly one of `Δrow`,
`Δcol` is zero; queen: either), every square strictly between the two is empty
and the destination is empty. -/
theorem slider_quiet_move (b : Board) (c : Color) (from_row from_col to_row to_col : Fin 8) :
    ((validate_move b (quiet_move c.toChar 'B' from_row from_col to_row to_col)).map Prod.fst
        = some true ↔
      b from_row from_col = ⟨c.toChar, 'B'⟩ ∧ (from_row ≠ to_row ∨ from_col ≠ to_col) ∧
        bishop_shape from_row from_col to_row to_col ∧
        path_clear b from_row from_col to_row to_col ∧ b to_row to_col = EMPTY) ∧
    ((validate_move b (quiet_move c.toChar 'R' from_row from_col to_row to_col)).map Prod.fst
        = some true ↔
      b from_row from_col = ⟨c.toChar, 'R'⟩ ∧ (from_row ≠ to_row ∨ from_col ≠ to_col) ∧
        rook_shape from_row from_col to_row to_col ∧
        path_clear b from_row from_col to_row to_col ∧ b to_row to_col = EMPTY) ∧
    ((validate_move b (quiet_move c.toChar 'Q' from_row from_col to_row to_col)).map Prod.fst
        = some true ↔
      b from_row from_col = ⟨c.toChar, 'Q'⟩ ∧ (from_row ≠ to_row ∨ from_col ≠ to_col) ∧
        (bishop_shape from_row from_col to_row to_col ∨
          rook_shape from_row from_col to_row to_col) ∧
        path_clear b from_row from_col to_row to_col ∧ b to_row to_col = EMPTY) := by
  have hfr := from_row.isLt
  have hfc := from_col.isLt
  have htr := to_row.isLt
  have htc := to_col.isLt
  refine ⟨?_, ?_, ?_⟩
  · exact quiet_slider b c.toChar 'B' from_row from_col to_row to_col (color_char c)
      (((to_row.val : Int) - from_row.val).natAbs = ((to_col.val : Int) - from_col.val).natAbs)
      (fun h => Or.inr (Or.inr h)) (movement_bishop b _ _ _ _ _ rfl)
  · have := quiet_slider b c.toChar 'R' from_row from_col to_row to_col (color_char c)
      ((from_row.val : Int) = to_row.val ∨ (from_col.val : Int) = to_col.val)
      (fun h => by omega) (movement_rook b _ _ _ _ _ rfl)
    rw [this]
    unfold rook_shape row_delta col_delta
    constructor
    · rintro ⟨h1, h2, h3, h4, h5⟩
      refine ⟨h1, h2, ?_, h4, h5⟩
      rcases h2 with h2 | h2
      · have : (from_row.val : Int) ≠ to_row.val := fun h => h2 (Fin.ext (by omega))
        omega
      · have : (from_col.val : Int) ≠ to_col.val := fun h => h2 (Fin.ext (by omega))
        omega
    · rintro ⟨h1, h2, h3, h4, h5⟩
      exact ⟨h1, h2, by omega, h4, h5⟩
  · have := quiet_slider b c.toChar 'Q' from_row from_col to_row to_col (color_char c)
      ((from_row.val : Int) = to_row.val ∨ (from_col.val : Int) = to_col.val ∨
        ((to_row.val : Int) - from_row.val).natAbs = ((to_col.val : Int) - from_col.val).natAbs)
      (fun h => by omega) (movement_queen b _ _ _ _ _ rfl)
    rw [this]
    unfold bishop_shape rook_shape row_delta col_delta
    constructor
    · rintro ⟨h1, h2, h3, h4, h5⟩
      refine ⟨h1, h2, ?_, h4, h5⟩
      rcases h2 with h2 | h2
      · have : (from_row.val : Int) ≠ to_row.val := fun h => h2 (Fin.ext (by omega))
        omega
      · have : (from_col.val : Int) ≠ to_col.val := fun h => h2 (Fin.ext (by omega))
        omega
    · rintro ⟨h1, h2, h3, h4, h5⟩
      exact ⟨h1, h2, by omega, h4, h5⟩

/-- A quiet move of a piece whose movement test is a shape alone. -/
theorem quiet_jumper (b : Board) (c k : Char) (fr fc tr tc : Fin 8) (hc : c = 'W' ∨ c = 'B')
    (shape : Prop) [Decidable shape]
    (hmov : movement b (quiet_move c k fr fc tr tc) fr.val fc.val tr.val tc.val
      = if ¬ shape then some false else some true) :
    (validate_move b (quiet_move c k fr fc tr tc)).map Prod.fst = some true ↔
      b fr fc = ⟨c, k⟩ ∧ shape ∧ b tr tc = EMPTY := by
  rw [validate_quiet_move b c k fr fc tr tc hc, hmov]
  constructor
  · intro h
    by_cases hs : b fr fc = ⟨c, k⟩
    swap
    · rw [if_pos hs] at h; cases h
    rw [if_neg (not_not.mpr hs)] at h
    by_cases hsh : shape
    swap
    · rw [if_pos hsh] at h; cases h
    rw [if_neg (not_not.mpr hsh)] at h
    by_cases hd : b tr tc = EMPTY
    swap
    · rw [if_neg hd] at h; cases h
    exact ⟨hs, hsh, hd⟩
  · rintro ⟨hs, hsh, hd⟩
    rw [if_neg (not_not.mpr hs), if_neg (not_not.mpr hsh)]
    simp only
    rw [if_pos hd]
    rfl

theorem movement_knight (b : Board) (move : List Char) (fr fc tr tc : Int)
    (h : charAt move 1 = 'N') :
    movement b move fr fc tr tc
      = if ¬ (((tr - fr).natAbs = 2 ∧ (tc - fc).natAbs = 1) ∨
            ((tr - fr).natAbs = 1 ∧ (tc - fc).natAbs = 2)) then some false
        else some true := by
  unfold movement
  rw [h, if_neg (by decide), if_pos rfl]

theorem movement_king (b : Board) (move : List Char) (fr fc tr tc : Int)
    (h : charAt move 1 = 'K') :
    movement b move fr fc tr tc
      = if ¬ ((tr - fr).natAbs ≤ 1 ∧ (tc - fc).natAbs ≤ 1) then some false
        else some true := by
  unfold movement
  rw [h, if_neg (by decide), if_neg (by decide), if_neg (by decide), if_neg (by decide),
    if_neg (by decide), if_pos rfl]

/-- C10: for every board, colour and pair of squares of the board,
`validate_move` accepts a quiet knight move if and only if the source holds
that knight, `(|Δrow|, |Δcol|)` is `(2, 1)` or `(1, 2)` and the destination is
empty, so that the answer is the same on every board with the same two cells;
it accepts a quiet king move if and only if the source holds that king,
`|Δrow| ≤ 1`, `|Δcol| ≤ 1` and the destination is empty, so that the
two-square king moves from the e-file to the g-file or the c-file are never
accepted. -/
theorem knight_king_quiet_move (b : Board) (c : Color)
    (from_row from_col to_row to_col : Fin 8) :
    ((validate_move b (quiet_move c.toChar 'N' from_row from_col to_row to_col)).map Prod.fst
        = some true ↔
      b from_row from_col = ⟨c.toChar, 'N'⟩ ∧ knight_shape from_row from_col to_row to_col ∧
        b to_row to_col = EMPTY) ∧
    (∀ b2 : Board, b2 from_row from_col = b from_row from_col →
      b2 to_row to_col = b to_row to_col →
      ((validate_move b2 (quiet_move c.toChar 'N' from_row from_col to_row to_col)).map Prod.fst
          = some true ↔
        (validate_move b (quiet_move c.toChar 'N' from_row from_col to_row to_col)).map Prod.fst
          = some true)) ∧
    ((validate_move b (quiet_move c.toChar 'K' from_row from_col to_row to_col)).map Prod.fst
        = some true ↔
      b from_row from_col = ⟨c.toChar, 'K'⟩ ∧ king_shape from_row from_col to_row to_col ∧
        b to_row to_col = EMPTY) ∧
    (validate_move b (quiet_move c.toChar 'K' from_row 4 from_row 6)).map Prod.fst ≠ some true ∧
    (validate_move b (quiet_move c.toChar 'K' from_row 4 from_row 2)).map Prod.fst
      ≠ some true := by
  have knight : ∀ b1 : Board,
      (validate_move b1 (quiet_move c.toChar 'N' from_row from_col to_row to_col)).map Prod.fst
          = some true ↔
        b1 from_row from_col = ⟨c.toChar, 'N'⟩ ∧
          knight_shape from_row from_col to_row to_col ∧ b1 to_row to_col = EMPTY :=
    fun b1 => quiet_jumper b1 c.toChar 'N' from_row from_col to_row to_col (color_char c)
      ((((to_row.val : Int) - from_row.val).natAbs = 2 ∧
          ((to_col.val : Int) - from_col.val).natAbs = 1) ∨
        (((to_row.val : Int) - from_row.val).natAbs = 1 ∧
          ((to_col.val : Int) - from_col.val).natAbs = 2))
      (movement_knight b1 _ _ _ _ _ rfl)
  have king : ∀ tr tc : Fin 8,
      (validate_move b (quiet_move c.toChar 'K' from_row from_col tr tc)).map Prod.fst
          = some true ↔
        b from_row from_col = ⟨c.toChar, 'K'⟩ ∧ king_shape from_row from_col tr tc ∧
          b tr tc = EMPTY :=
    fun tr tc => quiet_jumper b c.toChar 'K' from_row from_col tr tc (color_char c)
      (((tr.val : Int) - from_row.val).natAbs ≤ 1 ∧ ((tc.val : Int) - from_col.val).natAbs ≤ 1)
      (movement_king b _ _ _ _ _ rfl)
  have king4 : ∀ tc : Fin 8, ((tc.val : Int) - ((4 : Fin 8).val : Int)).natAbs = 2 →
      (validate_move b (quiet_move c.toChar 'K' from_row 4 from_row tc)).map Prod.fst
        ≠ some true := by
    intro tc h2 hacc
    have := (quiet_jumper b c.toChar 'K' from_row 4 from_row tc (color_char c)
      (((from_row.val : Int) - from_row.val).natAbs ≤ 1 ∧
        ((tc.val : Int) - ((4 : Fin 8).val : Int)).natAbs ≤ 1)
      (movement_king b _ _ _ _ _ rfl)).mp hacc
    omega
  refine ⟨knight b, fun b2 h1 h2 => ?_, king to_row to_col, king4 6 (by decide),
    king4 2 (by decide)⟩
  rw [knight b2, knight b, h1, h2]

theorem knight_king_quiet_move_witness :
    (setSq initialize_board 1 4 EMPTY) 0 1 = initialize_board 0 1 ∧
    (setSq initialize_board 1 4 EMPTY) 2 2 = initialize_board 2 2 ∧
    ((validate_move (setSq initialize_board 1 4 EMPTY)
        (quiet_move Color.White.toChar 'N' 0 1 2 2)).map Prod.fst = some true ↔
      (validate_move initialize_board
        (quiet_move Color.White.toChar 'N' 0 1 2 2)).map Prod.fst = some true) :=
  ⟨by decide, by decide,
    (knight_king_quiet_move initialize_board Color.White 0 1 2 2).2.1
      (setSq initialize_board 1 4 EMPTY) (by decide) (by decide)⟩

/-! ## When the validator returns -/

/-- The movement test returns for two different squares of the board. -/
theorem movement_defined (b : Board) (move : List Char) (fr fc tr tc : Fin 8)
    (hne : fr ≠ tr ∨ fc ≠ tc) :
    ∃ v, movement b move fr.val fc.val tr.val tc.val = some v := by
  have hfr := fr.isLt
  have hfc := fc.isLt
  have htr := tr.isLt
  have htc := tc.isLt
  have hne' : (fr.val : Int) ≠ tr.val ∨ (fc.val : Int) ≠ tc.val := by
    rcases hne with h | h
    · left; intro h0; apply h; apply Fin.ext; omega
    · right; intro h0; apply h; apply Fin.ext; omega
  have hpath : ((tr.val : Int) - fr.val = 0 ∨ (tc.val : Int) - fc.val = 0 ∨
      ((tr.val : Int) - fr.val).natAbs = ((tc.val : Int) - fc.val).natAbs) →
      ∃ v, path_free b fr.val fc.val tr.val tc.val = some v := by
    intro hshape
    obtain ⟨o, ho, _⟩ := obstacles_line b fr fc tr tc hne hshape
    unfold path_free
    rw [ho]
    exact ⟨_, rfl⟩
  unfold movement
  by_cases hP : charAt move 1 = 'P'
  · rw [if_pos hP]
    by_cases h7 : move.length = 7
    · rw [if_pos h7]
      by_cases hr : pawn_quiet_rejects move fr.val fc.val tr.val tc.val
      · rw [if_pos hr]; exact ⟨_, rfl⟩
      · rw [if_neg hr]
        apply hpath
        unfold pawn_quiet_rejects at hr
        by_cases hw : charAt move 0 = 'W'
        · rw [if_pos hw] at hr; omega
        · rw [if_neg hw] at hr; omega
    · rw [if_neg h7]; exact ⟨_, rfl⟩
  rw [if_neg hP]
  by_cases hN : charAt move 1 = 'N'
  · rw [if_pos hN]
    by_cases hs : ¬ ((((tr.val : Int) - fr.val).natAbs = 2 ∧ ((tc.val : Int) - fc.val).natAbs = 1) ∨
        (((tr.val : Int) - fr.val).natAbs = 1 ∧ ((tc.val : Int) - fc.val).natAbs = 2))
    · rw [if_pos hs]; exact ⟨_, rfl⟩
    · rw [if_neg hs]; exact ⟨_, rfl⟩
  rw [if_neg hN]
  by_cases hB : charAt move 1 = 'B'
  · rw [if_pos hB]
    by_cases hs : ¬ (((tr.val : Int) - fr.val).natAbs = ((tc.val : Int) - fc.val).natAbs)
    · rw [if_pos hs]; exact ⟨_, rfl⟩
    · rw [if_neg hs]; exact hpath (by omega)
  rw [if_neg hB]
  by_cases hR : charAt move 1 = 'R'
  · rw [if_pos hR]
    by_cases hs : ¬ ((fr.val : Int) = tr.val ∨ (fc.val : Int) = tc.val)
    · rw [if_pos hs]; exact ⟨_, rfl⟩
    · rw [if_neg hs]; exact hpath (by omega)
  rw [if_neg hR]
  by_cases hQ : charAt move 1 = 'Q'
  · rw [if_pos hQ]
    by_cases hs : ¬ ((fr.val : Int) = tr.val ∨ (fc.val : Int) = tc.val ∨
        ((tr.val : Int) - fr.val).natAbs = ((tc.val : Int) - fc.val).natAbs)
    · rw [if_pos hs]; exact ⟨_, rfl⟩
    · rw [if_neg hs]; exact hpath (by omega)
  rw [if_neg hQ]
  by_cases hK : charAt move 1 = 'K'
  · rw [if_pos hK]
    by_cases hs : ¬ (((tr.val : Int) - fr.val).natAbs ≤ 1 ∧ ((tc.val : Int) - fc.val).natAbs ≤ 1)
    · rw [if_pos hs]; exact ⟨_, rfl⟩
    · rw [if_neg hs]; exact ⟨_, rfl⟩
  rw [if_neg hK]
  exact ⟨_, rfl⟩

theorem promote_fin (b : Board) (r c : Fin 8) (k : Char) :
    promote b r.val c.val k = some (setSq b r c ⟨(b r c).c0, k⟩) := by
  unfold promote
  rw [getSq_fin]
  simp only
  rw [putSq_fin]

/-- The end of `validate_move` returns for squares of the board. -/
theorem validate_tail_defined (b : Board) (move : List Char) (dst : Square) (fr fc tr tc : Fin 8) :
    ∃ res, validate_tail b move dst fr.val fc.val tr.val tc.val = some res := by
  unfold validate_tail
  by_cases h7 : move.length = 7 ∧ ¬ (dst.c0 = '*' ∧ dst.c1 = '*')
  · rw [if_pos h7]; exact ⟨_, rfl⟩
  rw [if_neg h7]
  by_cases h10 : move.length = 10
  · rw [if_pos h10]
    unfold validate_len10
    by_cases hx : charAt move 7 = 'x'
    · rw [if_pos hx]
      by_cases hc : capture_rejects move dst fr.val fc.val tr.val tc.val
      · rw [if_pos hc]; exact ⟨_, rfl⟩
      · rw [if_neg hc]; exact ⟨_, rfl⟩
    · rw [if_neg hx]
      by_cases hy : charAt move 7 = 'y'
      · rw [if_pos hy]
        by_cases hc : promotion_rejects move dst fr.val fc.val tr.val tc.val
        · rw [if_pos hc]; exact ⟨_, rfl⟩
        · rw [if_neg hc, promote_fin]; exact ⟨_, rfl⟩
      · rw [if_neg hy]; exact ⟨_, rfl⟩
  rw [if_neg h10]
  by_cases h13 : move.length = 13
  · rw [if_pos h13]
    unfold validate_len13
    by_cases hc : capture_promotion_rejects move dst fr.val fc.val tr.val tc.val
    · rw [if_pos hc]; exact ⟨_, rfl⟩
    · rw [if_neg hc, promote_fin]; exact ⟨_, rfl⟩
  rw [if_neg h13]
  exact ⟨_, rfl⟩

theorem ord_inj {x y : Char} (h : ord x = ord y) : x = y := by
  unfold ord at h
  have h1 : x.toNat = y.toNat := by exact_mod_cast h
  exact Char.ext (UInt32.ext h1)

/-- A call of `validate_move` returns whenever the source and the destination
written in the text are different squares. -/
theorem validate_move_defined (b : Board) (move : List Char)
    (hne : charAt move 3 ≠ charAt move 6 ∨ charAt move 2 ≠ charAt move 5) :
    ∃ res, validate_move b move = some res := by
  by_cases hh : header_rejects move
  · unfold validate_move
    rw [if_pos hh]
    exact ⟨_, rfl⟩
  · obtain ⟨fr, fc, tr, tc, h3, h2, h6, h5⟩ := header_squares move hh
    rw [validate_move_at b move fr fc tr tc hh h3 h2 h6 h5]
    by_cases hs : ¬ ((b fr fc).c0 = charAt move 0 ∧ (b fr fc).c1 = charAt move 1)
    · rw [if_pos hs]; exact ⟨_, rfl⟩
    · rw [if_neg hs]
      have hne' : fr ≠ tr ∨ fc ≠ tc := by
        rcases hne with h | h
        · left
          intro e
          apply h
          have : ord (charAt move 3) = ord (charAt move 6) := by rw [e] at h3; omega
          exact ord_inj this
        · right
          intro e
          apply h
          have : ord (charAt move 2) = ord (charAt move 5) := by rw [e] at h2; omega
          exact ord_inj this
      obtain ⟨v, hv⟩ := movement_defined b move fr fc tr tc hne'
      rw [hv]
      cases v with
      | false => exact ⟨_, rfl⟩
      | true => exact validate_tail_defined b move _ fr fc tr tc

/-! ## The check scan -/

theorem squares_mem : ∀ r c : Fin 8, (r, c) ∈ squares := by decide

theorem colChar_ne : ∀ x y : Fin 8, x ≠ y → colChar x ≠ colChar y := by decide

theorem rowChar_ne : ∀ x y : Fin 8, x ≠ y → rowChar x ≠ rowChar y := by decide

/-- The probe of the scans with a capture text returns, and leaves the board,
when the two squares are different. -/
theorem validate_capture_defined (b : Board) (fr fc tr tc : Fin 8) (hne : fr ≠ tr ∨ fc ≠ tc) :
    ∃ r, validate_move b (generate_move_capture b fr fc tr tc) = some (r, b) := by
  have hne' : charAt (generate_move_capture b fr fc tr tc) 3
        ≠ charAt (generate_move_capture b fr fc tr tc) 6 ∨
      charAt (generate_move_capture b fr fc tr tc) 2
        ≠ charAt (generate_move_capture b fr fc tr tc) 5 := by
    rcases hne with h | h
    · exact Or.inl (rowChar_ne _ _ h)
    · exact Or.inr (colChar_ne _ _ h)
  obtain ⟨⟨r, b1⟩, hres⟩ := validate_move_defined b _ hne'
  have hb : b1 = b := (validate_move_board _ _ _ _ hres).2.2 rfl
    (show ('x' : Char) ≠ 'y' by decide)
  subst hb
  exact ⟨r, hres⟩

/-- The loop that looks for the king keeps the last cell that passes the test. -/
theorem find_king_loop (b : Board) (c : Char) (l : List (Fin 8 × Fin 8)) :
    ∀ acc : Fin 8 × Fin 8,
      (((b acc.1 acc.2).c1 = 'K' ∧ (b acc.1 acc.2).c0 ≠ c) ∨
        ∃ p ∈ l, (b p.1 p.2).c1 = 'K' ∧ (b p.1 p.2).c0 ≠ c) →
      (b (l.foldl (fun king p =>
            if (b p.1 p.2).c1 = 'K' ∧ (b p.1 p.2).c0 ≠ c then p else king) acc).1
          (l.foldl (fun king p =>
            if (b p.1 p.2).c1 = 'K' ∧ (b p.1 p.2).c0 ≠ c then p else king) acc).2).c1 = 'K' ∧
      (b (l.foldl (fun king p =>
            if (b p.1 p.2).c1 = 'K' ∧ (b p.1 p.2).c0 ≠ c then p else king) acc).1
          (l.foldl (fun king p =>
            if (b p.1 p.2).c1 = 'K' ∧ (b p.1 p.2).c0 ≠ c then p else king) acc).2).c0 ≠ c := by
  induction l with
  | nil =>
    intro acc h
    rcases h with h | ⟨p, hp, _⟩
    · exact h
    · cases hp
  | cons q rest ih =>
    intro acc h
    simp only [List.foldl_cons]
    apply ih
    by_cases hq : (b q.1 q.2).c1 = 'K' ∧ (b q.1 q.2).c0 ≠ c
    · rw [if_pos hq]
      exact Or.inl hq
    · rw [if_neg hq]
      rcases h with h | ⟨p, hp, hP⟩
      · exact Or.inl h
      · rcases List.mem_cons.mp hp with e | e
        · rw [e] at hP; exact absurd hP hq
        · exact Or.inr ⟨p, e, hP⟩

/-- When the board holds a king of another colour than `c`, `find_king` returns
the square of such a king. -/
theorem find_king_spec (b : Board) (c : Char) (k : Fin 8 × Fin 8)
    (hk : (b k.1 k.2).c1 = 'K' ∧ (b k.1 k.2).c0 ≠ c) :
    (b (find_king b c).1 (find_king b c).2).c1 = 'K' ∧
      (b (find_king b c).1 (find_king b c).2).c0 ≠ c :=
  find_king_loop b c squares (0, 0) (Or.inr ⟨k, squares_mem k.1 k.2, hk⟩)

/-- The attack scan towards a square that does not hold colour `c`: it
returns, leaves the board, and returns `true` exactly when one of the cells
visited holds colour `c` and its capture of the target is accepted. -/
theorem attack_scan_spec (b : Board) (c : Char) (k : Fin 8 × Fin 8)
    (hk : (b k.1 k.2).c0 ≠ c) (l : List (Fin 8 × Fin 8)) :
    ∃ r, attack_scan c k l b = some (r, b) ∧
      (r = true ↔ ∃ p ∈ l, (b p.1 p.2).c0 = c ∧
        (validate_move b (generate_move_capture b p.1 p.2 k.1 k.2)).map Prod.fst
          = some true) := by
  induction l with
  | nil =>
    refine ⟨false, rfl, ?_⟩
    constructor
    · intro h; cases h
    · rintro ⟨p, hp, _⟩; cases hp
  | cons q rest ih =>
    obtain ⟨r, hr, hiff⟩ := ih
    simp only [attack_scan]
    by_cases hq : (b q.1 q.2).c0 = c
    · rw [if_pos hq]
      have hne : q.1 ≠ k.1 ∨ q.2 ≠ k.2 := by
        by_contra hcon
        simp only [not_or, not_not] at hcon
        rw [hcon.1, hcon.2] at hq
        exact hk hq
      obtain ⟨v, hv⟩ := validate_capture_defined b q.1 q.2 k.1 k.2 hne
      rw [hv]
      cases v with
      | true =>
        refine ⟨true, rfl, ?_⟩
        constructor
        · intro _
          exact ⟨q, List.mem_cons_self _ _, hq, by rw [hv]; rfl⟩
        · intro _; rfl
      | false =>
        refine ⟨r, hr, ?_⟩
        rw [hiff]
        constructor
        · rintro ⟨p, hp, h1, h2⟩
          exact ⟨p, List.mem_cons_of_mem _ hp, h1, h2⟩
        · rintro ⟨p, hp, h1, h2⟩
          rcases List.mem_cons.mp hp with e | e
          · rw [e, hv] at h2; cases h2
          · exact ⟨p, e, h1, h2⟩
    · rw [if_neg hq]
      refine ⟨r, hr, ?_⟩
      rw [hiff]
      constructor
      · rintro ⟨p, hp, h1, h2⟩
        exact ⟨p, List.mem_cons_of_mem _ hp, h1, h2⟩
      · rintro ⟨p, hp, h1, h2⟩
        rcases List.mem_cons.mp hp with e | e
        · rw [e] at h1; exact absurd h1 hq
        · exact ⟨p, e, h1, h2⟩

/-- The disjunction of the two probes of a move, when it returns. -/
theorem validate_either_spec (b : Board) (fr fc tr tc : Fin 8) (v : Bool) (b1 : Board)
    (h : validate_either b fr fc tr tc = some (v, b1)) :
    v = true ↔
      ((validate_move b (generate_move_non_capture b fr fc tr tc)).map Prod.fst = some true ∨
        (validate_move b (generate_move_capture b fr fc tr tc)).map Prod.fst = some true) := by
  unfold validate_either at h
  cases hq : validate_move b (generate_move_non_capture b fr fc tr tc) with
  | none => rw [hq] at h; cases h
  | some res =>
    obtain ⟨q, b2⟩ := res
    have hb : b2 = b := (validate_move_board _ _ _ _ hq).2.1 rfl
    subst hb
    rw [hq] at h
    cases q with
    | true =>
      cases h
      exact ⟨fun _ => Or.inl rfl, fun _ => rfl⟩
    | false =>
      simp only at h
      rw [h]
      constructor
      · intro hv; subst hv; exact Or.inr rfl
      · intro hv
        rcases hv with hv | hv
        · cases hv
        · exact Option.some.inj hv

/-- The scan of the destinations of one piece, when it returns: it found a move
exactly when one of the destinations visited is accepted by `validate_move`
(as a quiet move or as a capture) and passes `try_and_undo`. -/
theorem escape_dests_spec (c : Char) (row col : Fin 8) (b : Board)
    (l : List (Fin 8 × Fin 8)) :
    ∀ (e : Bool) (b1 : Board), escape_dests c row col l b = some (e, b1) →
      (e = true ↔ ∃ q ∈ l,
        ((validate_move b (generate_move_non_capture b row col q.1 q.2)).map Prod.fst
            = some true ∨
          (validate_move b (generate_move_capture b row col q.1 q.2)).map Prod.fst
            = some true) ∧
        (try_and_undo b row col q.1 q.2 c).map Prod.fst = some true) := by
  induction l with
  | nil =>
    intro e b1 h
    simp only [escape_dests] at h
    cases h
    constructor
    · intro h; cases h
    · rintro ⟨q, hq, _⟩; cases hq
  | cons q rest ih =>
    intro e b1 h
    simp only [escape_dests] at h
    cases hv : validate_either b row col q.1 q.2 with
    | none => rw [hv] at h; cases h
    | some res =>
      obtain ⟨v, b2⟩ := res
      have hb : b2 = b := validate_either_board _ _ _ _ _ _ _ hv
      subst hb
      have hvs := validate_either_spec _ _ _ _ _ _ _ hv
      rw [hv] at h
      cases v with
      | false =>
        rw [ih e b1 h]
        constructor
        · rintro ⟨p, hp, h1, h2⟩
          exact ⟨p, List.mem_cons_of_mem _ hp, h1, h2⟩
        · rintro ⟨p, hp, h1, h2⟩
          rcases List.mem_cons.mp hp with e1 | e1
          · rw [e1] at h1
            exact absurd (hvs.mpr h1) (by decide)
          · exact ⟨p, e1, h1, h2⟩
      | true =>
        simp only at h
        cases ht : try_and_undo b2 row col q.1 q.2 c with
        | none => rw [ht] at h; cases h
        | some res2 =>
          obtain ⟨t, b3⟩ := res2
          have hb3 : b3 = b2 := try_and_undo_board _ _ _ _ _ _ _ _ ht
          subst hb3
          rw [ht] at h
          cases t with
          | true =>
            cases h
            constructor
            · intro _
              exact ⟨q, List.mem_cons_self _ _, hvs.mp rfl, by rw [ht]; rfl⟩
            · intro _; rfl
          | false =>
            rw [ih e b1 h]
            constructor
            · rintro ⟨p, hp, h1, h2⟩
              exact ⟨p, List.mem_cons_of_mem _ hp, h1, h2⟩
            · rintro ⟨p, hp, h1, h2⟩
              rcases List.mem_cons.mp hp with e1 | e1
              · rw [e1, ht] at h2; cases h2
              · exact ⟨p, e1, h1, h2⟩

/-- The scan of the sources, when it returns. -/
theorem escape_sources_spec (c : Char) (b : Board) (l : List (Fin 8 × Fin 8)) :
    ∀ (e : Bool) (b1 : Board), escape_sources c l b = some (e, b1) →
      (e = true ↔ ∃ p ∈ l, (b p.1 p.2).c0 ≠ c ∧ ∃ q ∈ squares,
        ((validate_move b (generate_move_non_capture b p.1 p.2 q.1 q.2)).map Prod.fst
            = some true ∨
          (validate_move b (generate_move_capture b p.1 p.2 q.1 q.2)).map Prod.fst
            = some true) ∧
        (try_and_undo b p.1 p.2 q.1 q.2 c).map Prod.fst = some true) := by
  induction l with
  | nil =>
    intro e b1 h
    simp only [escape_sources] at h
    cases h
    constructor
    · intro h; cases h
    · rintro ⟨p, hp, _⟩; cases hp
  | cons p rest ih =>
    intro e b1 h
    simp only [escape_sources] at h
    by_cases hc : (b p.1 p.2).c0 ≠ c
    · rw [if_pos hc] at h
      cases hd : escape_dests c p.1 p.2 squares b with
      | none => rw [hd] at h; cases h
      | some res =>
        obtain ⟨v, b2⟩ := res
        have hb : b2 = b := escape_dests_board _ _ _ _ _ _ _ hd
        subst hb
        have hds := escape_dests_spec c p.1 p.2 b2 squares v b2 hd
        rw [hd] at h
        cases v with
        | true =>
          cases h
          constructor
          · intro _
            obtain ⟨q, hq, h1, h2⟩ := hds.mp rfl
            exact ⟨p, List.mem_cons_self _ _, hc, q, hq, h1, h2⟩
          · intro _; rfl
        | false =>
          rw [ih e b1 h]
          constructor
          · rintro ⟨p1, hp1, h0, h1⟩
            exact ⟨p1, List.mem_cons_of_mem _ hp1, h0, h1⟩
          · rintro ⟨p1, hp1, h0, q, hq, h1, h2⟩
            rcases List.mem_cons.mp hp1 with e1 | e1
            · rw [e1] at h1 h2
              exact absurd (hds.mpr ⟨q, hq, h1, h2⟩) (by decide)
            · exact ⟨p1, e1, h0, q, hq, h1, h2⟩
    · rw [if_neg hc] at h
      rw [ih e b1 h]
      constructor
      · rintro ⟨p1, hp1, h0, h1⟩
        exact ⟨p1, List.mem_cons_of_mem _ hp1, h0, h1⟩
      · rintro ⟨p1, hp1, h0, h1⟩
        rcases List.mem_cons.mp hp1 with e1 | e1
        · rw [e1] at h0; exact absurd h0 hc
        · exact ⟨p1, e1, h0, h1⟩

/-! ## The fuel of the path scan -/

theorem getSq_bounds (b : Board) (r c : Int) (s : Square) (h : getSq b r c = some s) :
    0 ≤ 8 * r + c ∧ 8 * r + c < 64 := by
  unfold getSq at h
  by_cases hb : 0 ≤ 8 * r + c ∧ 8 * r + c < 64
  · exact hb
  · rw [dif_neg hb] at h
    cases h

/-- More fuel than the number of cells left before the end of the array does
not change the result of a scan: every iteration moves the address by the same
non-zero step. -/
theorem scan_fuel (b : Board) (dr dc : Int) (stop : Int → Int → Bool)
    (hnz : 8 * dr + dc ≠ 0) :
    ∀ (n : Nat) (r c : Int),
      (0 < 8 * dr + dc → 64 - (8 * r + c) ≤ n) → (8 * dr + dc < 0 → 8 * r + c + 1 ≤ n) →
      ∀ m : Nat, scan b dr dc stop (n + 1 + m) r c = scan b dr dc stop (n + 1) r c := by
  intro n
  induction n with
  | zero =>
    intro r c h1 h2 m
    have e : 0 + 1 + m = m + 1 := by omega
    rw [e]
    simp only [scan]
    by_cases hs : stop r c = true
    · rw [if_pos hs, if_pos hs]
    · rw [if_neg hs, if_neg hs]
      cases hg : getSq b r c with
      | none => rfl
      | some s =>
        exfalso
        have hb := getSq_bounds b r c s hg
        rcases Int.lt_or_gt_of_ne hnz with h | h
        · have := h2 h; push_cast at this; omega
        · have := h1 h; push_cast at this; omega
  | succ n ih =>
    intro r c h1 h2 m
    have e : n + 1 + 1 + m = (n + 1 + m) + 1 := by omega
    rw [e]
    simp only [scan]
    by_cases hs : stop r c = true
    · rw [if_pos hs, if_pos hs]
    · rw [if_neg hs, if_neg hs]
      cases hg : getSq b r c with
      | none => rfl
      | some s =>
        simp only
        by_cases he : s ≠ EMPTY
        · rw [if_pos he, if_pos he]
        · rw [if_neg he, if_neg he]
          apply ih
          · intro h; have := h1 h; push_cast at this; omega
          · intro h; have := h2 h; push_cast at this; omega

/-- The sixty-five iterations given to the scans of `obstacles` are never used
up: from the cell next to a square of the board, in a direction of the board,
any larger fuel gives the same result. -/
theorem scan_fuel_enough (b : Board) (R C : Int) (dr dc : Int) (stop : Int → Int → Bool)
    (hR : 0 ≤ R ∧ R < 8) (hC : 0 ≤ C ∧ C < 8)
    (hdr : dr = -1 ∨ dr = 0 ∨ dr = 1) (hdc : dc = -1 ∨ dc = 0 ∨ dc = 1)
    (hnz : dr ≠ 0 ∨ dc ≠ 0) (m : Nat) :
    scan b dr dc stop (65 + m) (R + dr) (C + dc) = scan b dr dc stop 65 (R + dr) (C + dc) := by
  have hstep : 8 * dr + dc ≠ 0 := by
    rcases hdr with h | h | h <;> rcases hdc with h' | h' | h' <;> subst h <;> subst h' <;>
      omega
  exact scan_fuel b dr dc stop hstep 64 (R + dr) (C + dc)
    (fun h => by push_cast; omega) (fun h => by push_cast; omega) m

/-- The check scan returns, leaving the board, whenever the board holds a king
of another colour than `c`. -/
theorem is_opponent_in_check_returns (b : Board) (c : Char)
    (hk : ∃ row col : Fin 8, (b row col).c1 = 'K' ∧ (b row col).c0 ≠ c) :
    ∃ r, is_opponent_in_check b c = some (r, b) := by
  obtain ⟨row, col, h⟩ := hk
  have hfk := find_king_spec b c (row, col) h
  obtain ⟨r, hr, _⟩ := attack_scan_spec b c (find_king b c) hfk.2 squares
  exact ⟨r, hr⟩

/-- C1: for every board, every source and destination square of the board and
every attacker colour, a call of `try_and_undo` that returns `r` (`true` or
`false`) returns with the board exactly as it was before the call; and the call
does return, with that board, whenever the board with the move made holds a
king of another colour than the attacker's. -/
theorem try_and_undo_restores_board (b : Board) (from_row from_col to_row to_col : Fin 8)
    (curr_color : Char) :
    (∀ r : Bool,
      (try_and_undo b from_row from_col to_row to_col curr_color).map Prod.fst = some r →
      try_and_undo b from_row from_col to_row to_col curr_color = some (r, b)) ∧
    ((∃ row col : Fin 8,
        (setSq (setSq b to_row to_col (b from_row from_col)) from_row from_col EMPTY
          row col).c1 = 'K' ∧
        (setSq (setSq b to_row to_col (b from_row from_col)) from_row from_col EMPTY
          row col).c0 ≠ curr_color) →
      ∃ r, try_and_undo b from_row from_col to_row to_col curr_color = some (r, b)) := by
  refine ⟨fun r h =>
    result_of_fst (try_and_undo_board b from_row from_col to_row to_col curr_color) h, ?_⟩
  intro hk
  obtain ⟨v, hv⟩ := is_opponent_in_check_returns _ curr_color hk
  refine ⟨!v, ?_⟩
  unfold try_and_undo
  simp only
  rw [hv]
  simp only
  rw [setSq_undo]

theorem try_and_undo_restores_board_witness :
    ((try_and_undo initialize_board 1 4 3 4 'B').map Prod.fst = some true ∧
      try_and_undo initialize_board 1 4 3 4 'B' = some (true, initialize_board)) ∧
    ((∃ row col : Fin 8,
        (setSq (setSq checked_promotion_session.game_board 1 4
            (checked_promotion_session.game_board 0 4)) 0 4 EMPTY row col).c1 = 'K' ∧
        (setSq (setSq checked_promotion_session.game_board 1 4
            (checked_promotion_session.game_board 0 4)) 0 4 EMPTY row col).c0 ≠ 'B') ∧
      ∃ r, try_and_undo checked_promotion_session.game_board 0 4 1 4 'B'
        = some (r, checked_promotion_session.game_board)) :=
  ⟨⟨by decide, (try_and_undo_restores_board initialize_board 1 4 3 4 'B').1 true (by decide)⟩,
    ⟨by decide,
      (try_and_undo_restores_board checked_promotion_session.game_board 0 4 1 4 'B').2
        (by decide)⟩⟩

/-! ## The session handlers -/

theorem toFin8_fin (r : Fin 8) : toFin8 (r.val : Int) = some r := by
  unfold toFin8
  have h : 0 ≤ (r.val : Int) ∧ (r.val : Int) < 8 := by have := r.isLt; omega
  rw [dif_pos h]
  rfl

/-- The move that `update_game_state` makes for a text whose squares are decoded. -/
theorem update_game_state_at (b : Board) (move : List Char) (fr fc tr tc : Fin 8)
    (h3 : ord (charAt move 3) - ord '1' = (fr.val : Int))
    (h2 : ord (charAt move 2) - ord 'a' = (fc.val : Int))
    (h6 : ord (charAt move 6) - ord '1' = (tr.val : Int))
    (h5 : ord (charAt move 5) - ord 'a' = (tc.val : Int)) :
    update_game_state b move = some (setSq (setSq b tr tc (b fr fc)) fr fc EMPTY) := by
  unfold update_game_state
  simp only [h3, h2, h6, h5, getSq_fin, putSq_fin]

theorem try_and_undo_move_at (b : Board) (move : List Char) (c : Char) (fr fc tr tc : Fin 8)
    (h3 : ord (charAt move 3) - ord '1' = (fr.val : Int))
    (h2 : ord (charAt move 2) - ord 'a' = (fc.val : Int))
    (h6 : ord (charAt move 6) - ord '1' = (tr.val : Int))
    (h5 : ord (charAt move 5) - ord 'a' = (tc.val : Int)) :
    try_and_undo_move b move c = try_and_undo b fr fc tr tc c := by
  unfold try_and_undo_move
  simp only [h3, h2, h6, h5, toFin8_fin]

/-- A probe of `try_and_undo` that returns `true`: on the board with the move
made, the check scan returns `false`. -/
theorem try_and_undo_true (b : Board) (fr fc tr tc : Fin 8) (c : Char) (b1 : Board)
    (h : try_and_undo b fr fc tr tc c = some (true, b1)) :
    is_opponent_in_check (setSq (setSq b tr tc (b fr fc)) fr fc EMPTY) c
      = some (false, setSq (setSq b tr tc (b fr fc)) fr fc EMPTY) := by
  unfold try_and_undo at h
  simp only at h
  cases hc : is_opponent_in_check (setSq (setSq b tr tc (b fr fc)) fr fc EMPTY) c with
  | none => rw [hc] at h; cases h
  | some res =>
    obtain ⟨v, b3⟩ := res
    have hb := is_opponent_in_check_board _ _ _ _ hc
    subst hb
    rw [hc] at h
    cases v with
    | false => rfl
    | true => cases (congrArg Prod.fst (Option.some.inj h))

/-- What `handle_player_move` has done when it answers neither `NOGAME`, `OOT`
nor `ILLMOVE`: the game is active with the human to move, the text starts with
the human's colour, `validate_move` accepted it (leaving the board `b1`),
`try_and_undo` returned `true`, and the move was made on `b1` before the
position was classified. -/
theorem handle_player_move_accepted (s : Session) (move : List Char) (msg : String)
    (h : (handle_player_move s move).map Session.output_message = some msg)
    (hmsg : msg ≠ "NOGAME\n" ∧ msg ≠ "OOT\n" ∧ msg ≠ "ILLMOVE\n") :
    ∃ (b1 : Board) (fr fc tr tc : Fin 8),
      s.game_started = true ∧ s.player_turn = true ∧ charAt move 0 = s.player_color ∧
      validate_move s.game_board move = some (true, b1) ∧
      ord (charAt move 3) - ord '1' = (fr.val : Int) ∧
      ord (charAt move 2) - ord 'a' = (fc.val : Int) ∧
      ord (charAt move 6) - ord '1' = (tr.val : Int) ∧
      ord (charAt move 5) - ord 'a' = (tc.val : Int) ∧
      try_and_undo b1 fr fc tr tc s.cpu_color = some (true, b1) ∧
      handle_player_move s move
        = classify_player_move s (setSq (setSq b1 tr tc (b1 fr fc)) fr fc EMPTY) := by
  have hgoal : ∀ (b1 : Board) (fr fc tr tc : Fin 8),
      s.game_started = true → s.player_turn = true → ¬ charAt move 0 ≠ s.player_color →
      validate_move s.game_board move = some (true, b1) →
      ord (charAt move 3) - ord '1' = (fr.val : Int) →
      ord (charAt move 2) - ord 'a' = (fc.val : Int) →
      ord (charAt move 6) - ord '1' = (tr.val : Int) →
      ord (charAt move 5) - ord 'a' = (tc.val : Int) →
      try_and_undo b1 fr fc tr tc s.cpu_color = some (true, b1) →
      handle_player_move s move
        = classify_player_move s (setSq (setSq b1 tr tc (b1 fr fc)) fr fc EMPTY) := by
    intro b1 fr fc tr tc hs ht hc hv h3 h2 h6 h5 htu
    unfold handle_player_move
    rw [hs, ht]
    simp only [Bool.not_true, Bool.false_eq_true, if_false]
    rw [if_neg hc, hv]
    simp only
    rw [try_and_undo_move_at b1 move s.cpu_color fr fc tr tc h3 h2 h6 h5, htu]
    simp only
    rw [update_game_state_at b1 move fr fc tr tc h3 h2 h6 h5]
  unfold handle_player_move at h
  rcases Bool.eq_false_or_eq_true s.game_started with hs | hs
  swap
  · rw [hs] at h
    exact absurd (Option.some.inj h).symm hmsg.1
  rcases Bool.eq_false_or_eq_true s.player_turn with ht | ht
  swap
  · rw [hs, ht] at h
    exact absurd (Option.some.inj h).symm hmsg.2.1
  rw [hs, ht] at h
  simp only [Bool.not_true, Bool.false_eq_true, if_false] at h
  by_cases hc : charAt move 0 ≠ s.player_color
  · rw [if_pos hc] at h
    exact absurd (Option.some.inj h).symm hmsg.2.2
  rw [if_neg hc] at h
  generalize hv : validate_move s.game_board move = r at h
  cases r with
  | none => cases h
  | some res =>
    obtain ⟨v, b1⟩ := res
    cases v with
    | false => exact absurd (Option.some.inj h).symm hmsg.2.2
    | true =>
      simp only at h
      have hacc : (validate_move s.game_board move).map Prod.fst = some true := by
        rw [hv]; rfl
      obtain ⟨_, fr, fc, tr, tc, h3, h2, h6, h5, _⟩ := validate_move_accepts _ _ hacc
      rw [try_and_undo_move_at b1 move s.cpu_color fr fc tr tc h3 h2 h6 h5] at h
      generalize htu : try_and_undo b1 fr fc tr tc s.cpu_color = r2 at h
      cases r2 with
      | none => cases h
      | some res2 =>
        obtain ⟨t, b2⟩ := res2
        have hb2 : b2 = b1 := try_and_undo_board _ _ _ _ _ _ _ _ htu
        subst hb2
        cases t with
        | false => exact absurd (Option.some.inj h).symm hmsg.2.2
        | true =>
          exact ⟨b2, fr, fc, tr, tc, hs, ht, not_not.mp hc, rfl, h3, h2, h6, h5, htu,
            hgoal b2 fr fc tr tc hs ht hc hv h3 h2 h6 h5 htu⟩

/-- The three ways `classify_player_move` returns. -/
theorem classify_player_move_cases (s : Session) (b : Board) (s1 : Session)
    (h : classify_player_move s b = some s1) :
    (is_opponent_in_checkmate b s.player_color = some (true, b) ∧
      s1 = { s with
        game_board := b
        output_message := if s.player_color = 'W' then "MATE\nWHITE WINS\n"
          else "MATE\nBLACK WINS\n"
        game_started := false
        player_turn := false }) ∨
    (is_opponent_in_checkmate b s.player_color = some (false, b) ∧
      is_opponent_in_check b s.player_color = some (true, b) ∧
      s1 = { s with
        game_board := b, output_message := "CHECK\n", cpu_in_check := true
        player_turn := false }) ∨
    (is_opponent_in_checkmate b s.player_color = some (false, b) ∧
      is_opponent_in_check b s.player_color = some (false, b) ∧
      s1 = { s with game_board := b, output_message := "OK\n", player_turn := false }) := by
  unfold classify_player_move at h
  cases hm : is_opponent_in_checkmate b s.player_color with
  | none => rw [hm] at h; cases h
  | some res =>
    obtain ⟨v, b1⟩ := res
    have hb := is_opponent_in_checkmate_board _ _ _ _ hm
    subst hb
    rw [hm] at h
    cases v with
    | true => exact Or.inl ⟨rfl, (Option.some.inj h).symm⟩
    | false =>
      simp only at h
      cases hc : is_opponent_in_check b1 s.player_color with
      | none => rw [hc] at h; cases h
      | some res2 =>
        obtain ⟨v2, b2⟩ := res2
        have hb2 := is_opponent_in_check_board _ _ _ _ hc
        subst hb2
        rw [hc] at h
        cases v2 with
        | true => exact Or.inr (Or.inl ⟨rfl, rfl, (Option.some.inj h).symm⟩)
        | false => exact Or.inr (Or.inr ⟨rfl, rfl, (Option.some.inj h).symm⟩)

theorem map_some_elim {α β : Type} {f : α → β} {x : Option α} {y : β}
    (h : x.map f = some y) : ∃ a, x = some a ∧ f a = y := by
  cases x with
  | none => cases h
  | some a => exact ⟨a, rfl, Option.some.inj h⟩

/-- C19: with a game active, a human move request and a resignation made
when the turn is the automatic side's, and an automatic-move request made when
the turn is the human's, are answered `OOT`, and nothing else of the session
changes: the board, the game-active flag, the turn and the cached check flag
are as before. -/
theorem out_of_turn_requests (s : Session) (hs : s.game_started = true) :
    (s.player_turn = false →
      (∀ move : List Char, handle_player_move s move = some { s with output_message := "OOT\n" }) ∧
      handle_resign_game s = some { s with output_message := "OOT\n" }) ∧
    (s.player_turn = true →
      ∀ num : Int, handle_cpu_turn s num = some { s with output_message := "OOT\n" }) := by
  refine ⟨fun ht => ⟨fun move => ?_, ?_⟩, fun ht num => ?_⟩
  · unfold handle_player_move
    rw [hs, ht]
    rfl
  · unfold handle_resign_game
    rw [hs, ht]
    rfl
  · unfold handle_cpu_turn
    rw [hs, ht]
    rfl

/-- What `handle_resign_game` returns in a game that is active with the human
to move, when it returns. -/
theorem handle_resign_game_active (s : Session) (hs : s.game_started = true)
    (ht : s.player_turn = true) (s1 : Session) (h : handle_resign_game s = some s1) :
    s1 = resigned s s.game_board := by
  unfold handle_resign_game at h
  rw [hs, ht] at h
  simp only [Bool.not_true, Bool.false_eq_true, if_false] at h
  cases h1 : is_opponent_in_check s.game_board s.cpu_color with
  | none => rw [h1] at h; cases h
  | some res =>
    obtain ⟨v, b1⟩ := res
    have hb : b1 = s.game_board := is_opponent_in_check_board _ _ _ _ h1
    subst hb
    rw [h1] at h
    cases v with
    | true => exact (Option.some.inj h).symm
    | false =>
      simp only at h
      cases h2 : is_opponent_in_check s.game_board s.player_color with
      | none => rw [h2] at h; cases h
      | some res2 =>
        obtain ⟨v2, b2⟩ := res2
        have hb2 : b2 = s.game_board := is_opponent_in_check_board _ _ _ _ h2
        subst hb2
        rw [h2] at h
        exact (Option.some.inj h).symm

theorem isSome_elim {α : Type} {x : Option α} (h : x.isSome = true) : ∃ a, x = some a := by
  cases x with
  | none => cases h
  | some a => exact ⟨a, rfl⟩

/-- C20: with a game active and the turn the human's, a call of
`handle_resign_game` that returns ends the game, leaves the board as it was and
declares the automatic side's colour the winner, whatever the check flag; every
human move request made afterwards is answered `NOGAME` with nothing else
changed.  The call returns on every board that holds a king of each side. -/
theorem resignation_ends_game (s : Session) (hs : s.game_started = true)
    (ht : s.player_turn = true)
    (hcol : (s.player_color = 'W' ∧ s.cpu_color = 'B') ∨
      (s.player_color = 'B' ∧ s.cpu_color = 'W')) :
    ((handle_resign_game s).isSome = true →
      ∃ s1, handle_resign_game s = some s1 ∧
        s1.game_started = false ∧ s1.game_board = s.game_board ∧
        (s.cpu_color = 'W' → s1.output_message = "OK\nWHITE WINS\n") ∧
        (s.cpu_color = 'B' → s1.output_message = "OK\nBLACK WINS\n") ∧
        ∀ move : List Char,
          handle_player_move s1 move = some { s1 with output_message := "NOGAME\n" }) ∧
    ((∃ row col : Fin 8, (s.game_board row col).c1 = 'K' ∧
          (s.game_board row col).c0 ≠ s.cpu_color) →
      (∃ row col : Fin 8, (s.game_board row col).c1 = 'K' ∧
          (s.game_board row col).c0 ≠ s.player_color) →
      (handle_resign_game s).isSome = true) := by
  constructor
  · intro hsome
    obtain ⟨s1, h1⟩ := isSome_elim hsome
    have e := handle_resign_game_active s hs ht s1 h1
    refine ⟨s1, h1, ?_⟩
    subst e
    refine ⟨rfl, rfl, ?_, ?_, ?_⟩
    · intro hw
      rcases hcol with ⟨hp, hc⟩ | ⟨hp, hc⟩
      · rw [hc] at hw; exact absurd hw (by decide)
      · show (if s.player_color = 'W' then "OK\nBLACK WINS\n" else "OK\nWHITE WINS\n") = _
        rw [hp, if_neg (by decide)]
    · intro hb
      rcases hcol with ⟨hp, hc⟩ | ⟨hp, hc⟩
      · show (if s.player_color = 'W' then "OK\nBLACK WINS\n" else "OK\nWHITE WINS\n") = _
        rw [hp, if_pos rfl]
      · rw [hc] at hb; exact absurd hb (by decide)
    · intro move
      unfold handle_player_move
      rfl
  · intro hk1 hk2
    obtain ⟨r1, h1⟩ := is_opponent_in_check_returns s.game_board s.cpu_color hk1
    obtain ⟨r2, h2⟩ := is_opponent_in_check_returns s.game_board s.player_color hk2
    unfold handle_resign_game
    rw [hs, ht, h1]
    simp only [Bool.not_true, Bool.false_eq_true, if_false]
    cases r1 with
    | true => rfl
    | false => simp only [h2]; rfl

theorem resignation_ends_game_witness :
    checked_promotion_session.game_started = true ∧
    checked_promotion_session.player_turn = true ∧
    ((checked_promotion_session.player_color = 'W' ∧ checked_promotion_session.cpu_color = 'B') ∨
      (checked_promotion_session.player_color = 'B' ∧
        checked_promotion_session.cpu_color = 'W')) ∧
    (handle_resign_game checked_promotion_session).isSome = true ∧
    ∃ s1, handle_resign_game checked_promotion_session = some s1 ∧
      s1.game_started = false ∧ s1.game_board = checked_promotion_session.game_board ∧
      (checked_promotion_session.cpu_color = 'W' → s1.output_message = "OK\nWHITE WINS\n") ∧
      (checked_promotion_session.cpu_color = 'B' → s1.output_message = "OK\nBLACK WINS\n") ∧
      ∀ move : List Char,
        handle_player_move s1 move = some { s1 with output_message := "NOGAME\n" } :=
  ⟨by decide, by decide, by decide, by decide,
    (resignation_ends_game checked_promotion_session (by decide) (by decide) (by decide)).1
      (by decide)⟩


theorem out_of_turn_requests_witness :
    (waiting_session.game_started = true ∧ waiting_session.player_turn = false ∧
      (∀ move : List Char, handle_player_move waiting_session move
        = some { waiting_session with output_message := "OOT\n" }) ∧
      handle_resign_game waiting_session
        = some { waiting_session with output_message := "OOT\n" }) ∧
    (opening_session.game_started = true ∧ opening_session.player_turn = true ∧
      ∀ num : Int, handle_cpu_turn opening_session num
        = some { opening_session with output_message := "OOT\n" }) :=
  ⟨⟨by decide, by decide, (out_of_turn_requests waiting_session (by decide)).1 (by decide)⟩,
    ⟨by decide, by decide, (out_of_turn_requests opening_session (by decide)).2 (by decide)⟩⟩


/-! ## Pawn moves -/

theorem getSq_of_eq (b : Board) (r c : Fin 8) (R C : Int) (hR : R = (r.val : Int))
    (hC : C = (c.val : Int)) : getSq b R C = some (b r c) := by
  rw [hR, hC, getSq_fin]

/-- No cell lies strictly between two squares one row apart on one column. -/
theorem path_clear_one_step (b : Board) (fr fc tr tc : Fin 8) (hc : fc = tc)
    (hr : ((tr.val : Int) - fr.val).natAbs = 1) : path_clear b fr fc tr tc := by
  unfold path_clear
  intro i hi h0
  subst hc
  have : ((fc.val : Int) - fc.val).natAbs = 0 := by omega
  rw [hr, this] at hi
  simp only [ge_iff_le, zero_le, max_eq_left] at hi
  omega

/-- The cell strictly between two squares two rows apart on one column. -/
theorem path_clear_two_steps (b : Board) (fr fc tr tc mid : Fin 8) (hc : fc = tc)
    (hm1 : (mid.val : Int) - fr.val = (tr.val : Int) - mid.val)
    (hm2 : ((tr.val : Int) - mid.val).natAbs = 1) :
    path_clear b fr fc tr tc ↔ b mid fc = EMPTY := by
  unfold path_clear
  subst hc
  have hz : (fc.val : Int) - fc.val = 0 := by omega
  rw [hz]
  have hsign : Int.sign ((tr.val : Int) - fr.val) = (mid.val : Int) - fr.val := by
    rcases sign_cases ((tr.val : Int) - fr.val) with ⟨h1, s1⟩ | ⟨h1, s1⟩ | ⟨h1, s1⟩ <;>
      rw [s1] <;> omega
  have hmax : max ((tr.val : Int) - fr.val).natAbs (0 : Int).natAbs = 2 := by
    simp only [Int.natAbs_zero, ge_iff_le, zero_le, max_eq_left]
    omega
  rw [hsign, hmax]
  constructor
  · intro h
    have h1 := h 1 (by omega) (by omega)
    rw [getSq_of_eq b mid fc _ _ (by push_cast; omega) (by simp)] at h1
    exact Option.some.inj h1
  · intro h i hi h0
    have hi1 : i = 1 := by omega
    subst hi1
    rw [getSq_of_eq b mid fc _ _ (by push_cast; omega) (by simp), h]

theorem movement_pawn_quiet (b : Board) (move : List Char) (fr fc tr tc : Int)
    (h : charAt move 1 = 'P') (hl : move.length = 7) :
    movement b move fr fc tr tc
      = if pawn_quiet_rejects move fr fc tr tc then some false
        else path_free b fr fc tr tc := by
  unfold movement
  rw [if_pos h, if_pos hl]

/-- A quiet pawn move: the answer of `validate_move` in terms of the tests of
lines 227-241, the path and the destination. -/
theorem quiet_pawn (b : Board) (c : Char) (fr fc tr tc : Fin 8) (hc : c = 'W' ∨ c = 'B') :
    (validate_move b (quiet_move c 'P' fr fc tr tc)).map Prod.fst = some true ↔
      b fr fc = ⟨c, 'P'⟩ ∧
      ¬ pawn_quiet_rejects (quiet_move c 'P' fr fc tr tc) fr.val fc.val tr.val tc.val ∧
      path_clear b fr fc tr tc ∧ b tr tc = EMPTY := by
  have hfr := fr.isLt
  have hfc := fc.isLt
  have htr := tr.isLt
  have htc := tc.isLt
  rw [validate_quiet_move b c 'P' fr fc tr tc hc,
    movement_pawn_quiet b (quiet_move c 'P' fr fc tr tc) _ _ _ _ rfl rfl]
  have hline : ¬ pawn_quiet_rejects (quiet_move c 'P' fr fc tr tc) fr.val fc.val tr.val tc.val →
      (fr ≠ tr ∨ fc ≠ tc) ∧ ((tr.val : Int) - fr.val = 0 ∨ (tc.val : Int) - fc.val = 0 ∨
        ((tr.val : Int) - fr.val).natAbs = ((tc.val : Int) - fc.val).natAbs) := by
    intro hr
    unfold pawn_quiet_rejects at hr
    have hne : (fr.val : Int) ≠ tr.val ∧ (fc.val : Int) = tc.val := by
      by_cases hw : charAt (quiet_move c 'P' fr fc tr tc) 0 = 'W'
      · rw [if_pos hw] at hr; omega
      · rw [if_neg hw] at hr; omega
    refine ⟨Or.inl (fun e => hne.1 (by rw [e])), Or.inr (Or.inl (by omega))⟩
  constructor
  · intro h
    by_cases hs : b fr fc = ⟨c, 'P'⟩
    swap
    · rw [if_pos hs] at h; cases h
    rw [if_neg (not_not.mpr hs)] at h
    by_cases hr : pawn_quiet_rejects (quiet_move c 'P' fr fc tr tc) fr.val fc.val tr.val tc.val
    · rw [if_pos hr] at h; cases h
    rw [if_neg hr] at h
    obtain ⟨o, ho, hiff⟩ := obstacles_line b fr fc tr tc (hline hr).1 (hline hr).2
    unfold path_free at h
    rw [ho] at h
    cases o with
    | true => cases h
    | false =>
      simp only [Option.map_some', Bool.not_false] at h
      by_cases hd : b tr tc = EMPTY
      · exact ⟨hs, hr, hiff.mp rfl, hd⟩
      · rw [if_neg hd] at h; cases h
  · rintro ⟨hs, hr, hp, hd⟩
    obtain ⟨o, ho, hiff⟩ := obstacles_line b fr fc tr tc (hline hr).1 (hline hr).2
    have : o = false := hiff.mpr hp
    subst this
    unfold path_free
    rw [if_neg (not_not.mpr hs), if_neg hr, ho]
    simp only [Option.map_some', Bool.not_false]
    rw [if_pos hd]
    rfl

/-- C11: on every board and for every pair of squares, `validate_move`
accepts the quiet 7-character move of a White pawn exactly when the source holds
a White pawn, the column is unchanged, the destination row is the source row
plus one, or the source row is 1 and the destination row is 3 with the square of
row 2 in between empty, the destination is empty and its row is not 7; for a
Black pawn the same with the rows decreasing: one row down, or from row 6 to
row 4 with row 5 empty, and a destination row that is not 0. -/
theorem pawn_quiet_move (b : Board) (from_row from_col to_row to_col : Fin 8) :
    ((validate_move b (quiet_move 'W' 'P' from_row from_col to_row to_col)).map Prod.fst
        = some true ↔
      b from_row from_col = ⟨'W', 'P'⟩ ∧ from_col = to_col ∧
        (to_row.val = from_row.val + 1 ∨
          (from_row.val = 1 ∧ to_row.val = 3 ∧ b 2 from_col = EMPTY)) ∧
        b to_row to_col = EMPTY ∧ to_row.val ≠ 7) ∧
    ((validate_move b (quiet_move 'B' 'P' from_row from_col to_row to_col)).map Prod.fst
        = some true ↔
      b from_row from_col = ⟨'B', 'P'⟩ ∧ from_col = to_col ∧
        (to_row.val + 1 = from_row.val ∨
          (from_row.val = 6 ∧ to_row.val = 4 ∧ b 5 from_col = EMPTY)) ∧
        b to_row to_col = EMPTY ∧ to_row.val ≠ 0) := by
  have hfr := from_row.isLt
  have hfc := from_col.isLt
  have htr := to_row.isLt
  have htc := to_col.isLt
  constructor
  · rw [quiet_pawn b 'W' from_row from_col to_row to_col (Or.inl rfl)]
    unfold pawn_quiet_rejects
    rw [if_pos (show charAt (quiet_move 'W' 'P' from_row from_col to_row to_col) 0 = 'W'
      from rfl)]
    constructor
    · rintro ⟨hs, hr, hp, hd⟩
      have hcol : from_col = to_col := Fin.ext (by omega)
      refine ⟨hs, hcol, ?_, hd, by omega⟩
      by_cases h1 : to_row.val = from_row.val + 1
      · exact Or.inl h1
      · right
        refine ⟨by omega, by omega, ?_⟩
        exact (path_clear_two_steps b from_row from_col to_row to_col 2 hcol
          (by have e : ((2 : Fin 8).val : Int) = 2 := rfl; omega)
          (by have e : ((2 : Fin 8).val : Int) = 2 := rfl; omega)).mp hp
    · rintro ⟨hs, hcol, hmv, hd, h7⟩
      refine ⟨hs, ?_, ?_, hd⟩
      · have : (from_col.val : Int) = to_col.val := by rw [hcol]
        rcases hmv with h1 | ⟨h1, h2, _⟩ <;> omega
      · rcases hmv with h1 | ⟨h1, h2, h3⟩
        · exact path_clear_one_step b _ _ _ _ hcol (by omega)
        · exact (path_clear_two_steps b from_row from_col to_row to_col 2 hcol
            (by have e : ((2 : Fin 8).val : Int) = 2 := rfl; omega)
            (by have e : ((2 : Fin 8).val : Int) = 2 := rfl; omega)).mpr h3
  · rw [quiet_pawn b 'B' from_row from_col to_row to_col (Or.inr rfl)]
    unfold pawn_quiet_rejects
    rw [if_neg (show ¬ charAt (quiet_move 'B' 'P' from_row from_col to_row to_col) 0 = 'W'
      from fun h => absurd (show ('B' : Char) = 'W' from h) (by decide))]
    constructor
    · rintro ⟨hs, hr, hp, hd⟩
      have hcol : from_col = to_col := Fin.ext (by omega)
      refine ⟨hs, hcol, ?_, hd, by omega⟩
      by_cases h1 : to_row.val + 1 = from_row.val
      · exact Or.inl h1
      · right
        refine ⟨by omega, by omega, ?_⟩
        exact (path_clear_two_steps b from_row from_col to_row to_col 5 hcol
          (by have e : ((5 : Fin 8).val : Int) = 5 := rfl; omega)
          (by have e : ((5 : Fin 8).val : Int) = 5 := rfl; omega)).mp hp
    · rintro ⟨hs, hcol, hmv, hd, h7⟩
      refine ⟨hs, ?_, ?_, hd⟩
      · have : (from_col.val : Int) = to_col.val := by rw [hcol]
        rcases hmv with h1 | ⟨h1, h2, _⟩ <;> omega
      · rcases hmv with h1 | ⟨h1, h2, h3⟩
        · exact path_clear_one_step b _ _ _ _ hcol (by omega)
        · exact (path_clear_two_steps b from_row from_col to_row to_col 5 hcol
            (by have e : ((5 : Fin 8).val : Int) = 5 := rfl; omega)
            (by have e : ((5 : Fin 8).val : Int) = 5 := rfl; omega)).mpr h3


theorem header_capture_move (c k : Char) (fr fc tr tc : Fin 8) (oc ok : Char)
    (hc : c = 'W' ∨ c = 'B') :
    ¬ header_rejects (capture_move c k fr fc tr tc oc ok) := by
  have hfr := fr.isLt
  have hfc := fc.isLt
  have htr := tr.isLt
  have htc := tc.isLt
  unfold header_rejects
  have e0 : charAt (capture_move c k fr fc tr tc oc ok) 0 = c := rfl
  have e2 : charAt (capture_move c k fr fc tr tc oc ok) 2 = colChar fc := rfl
  have e3 : charAt (capture_move c k fr fc tr tc oc ok) 3 = rowChar fr := rfl
  have e4 : charAt (capture_move c k fr fc tr tc oc ok) 4 = '-' := rfl
  have e5 : charAt (capture_move c k fr fc tr tc oc ok) 5 = colChar tc := rfl
  have e6 : charAt (capture_move c k fr fc tr tc oc ok) 6 = rowChar tr := rfl
  have el : (capture_move c k fr fc tr tc oc ok).length = 10 := rfl
  rw [e0, e2, e3, e4, e5, e6, el, ord_colChar, ord_colChar, ord_rowChar, ord_rowChar]
  intro h
  rcases h with h | h | h | h
  · omega
  · rcases hc with hc | hc
    · exact h.1 hc
    · exact h.2 hc
  · omega
  · exact h rfl

theorem validate_tail_capture (b : Board) (move : List Char) (dst : Square) (fr fc tr tc : Int)
    (hl : move.length = 10) (hx : charAt move 7 = 'x') :
    validate_tail b move dst fr fc tr tc
      = if capture_rejects move dst fr fc tr tc then some (false, b) else some (true, b) := by
  unfold validate_tail
  rw [if_neg (by omega), if_pos hl]
  unfold validate_len10
  rw [if_pos hx]

/-- The answer of `validate_move` to the text of a capture. -/
theorem validate_capture_move (b : Board) (c k : Char) (fr fc tr tc : Fin 8) (oc ok : Char)
    (hc : c = 'W' ∨ c = 'B') :
    validate_move b (capture_move c k fr fc tr tc oc ok) =
      if ¬ (b fr fc = ⟨c, k⟩) then some (false, b)
      else
        match movement b (capture_move c k fr fc tr tc oc ok) fr.val fc.val tr.val tc.val with
        | none => none
        | some false => some (false, b)
        | some true =>
          if capture_rejects (capture_move c k fr fc tr tc oc ok) (b tr tc)
              fr.val fc.val tr.val tc.val then some (false, b)
          else some (true, b) := by
  rw [validate_move_at b _ fr fc tr tc (header_capture_move c k fr fc tr tc oc ok hc)
    (ord_rowChar fr) (ord_colChar fc) (ord_rowChar tr) (ord_colChar tc)]
  have e0 : charAt (capture_move c k fr fc tr tc oc ok) 0 = c := rfl
  have e1 : charAt (capture_move c k fr fc tr tc oc ok) 1 = k := rfl
  rw [e0, e1]
  by_cases hs : b fr fc = ⟨c, k⟩
  · rw [if_neg (by rw [hs]; exact fun h => h ⟨rfl, rfl⟩), if_neg (not_not.mpr hs)]
    generalize movement b (capture_move c k fr fc tr tc oc ok) _ _ _ _ = m
    cases m with
    | none => rfl
    | some v =>
      cases v with
      | false => rfl
      | true =>
        exact validate_tail_capture b (capture_move c k fr fc tr tc oc ok) _ _ _ _ _ rfl rfl
  · rw [if_pos (fun h => hs (square_eq _ _ _ h)), if_pos hs]

theorem movement_pawn_other (b : Board) (move : List Char) (fr fc tr tc : Int)
    (h : charAt move 1 = 'P') (hl : move.length ≠ 7) :
    movement b move fr fc tr tc = some true := by
  unfold movement
  rw [if_pos h, if_neg hl]

theorem other_char (c : Color) :
    c.other.toChar ≠ c.toChar ∧ (c.other.toChar = 'W' ∨ c.other.toChar = 'B') := by
  cases c with
  | White => exact ⟨by decide, Or.inr rfl⟩
  | Black => exact ⟨by decide, Or.inl rfl⟩

theorem other_char_of (c : Color) (x : Char) (h1 : x = 'W' ∨ x = 'B') (h2 : x ≠ c.toChar) :
    x = c.other.toChar := by
  cases c with
  | White =>
    rcases h1 with h | h
    · exact absurd h h2
    · exact h
  | Black =>
    rcases h1 with h | h
    · exact h
    · exact absurd h h2

/-- C12: on every board and for every pair of squares, `validate_move`
accepts the 10-character capture of a pawn, with the marker `x` and no
promotion, exactly when the source holds the declared pawn, the declared
captured piece has the opposite colour and stands on the destination, the
destination is one row ahead in the direction of the mover (plus one for White,
minus one for Black) and one column to the side, and the destination is not on
the farthest row. -/
theorem pawn_capture_move (b : Board) (c : Color) (captured_color captured_kind : Char)
    (from_row from_col to_row to_col : Fin 8) :
    (validate_move b (capture_move c.toChar 'P' from_row from_col to_row to_col
        captured_color captured_kind)).map Prod.fst = some true ↔
      b from_row from_col = ⟨c.toChar, 'P'⟩ ∧
      captured_color = c.other.toChar ∧
      b to_row to_col = ⟨captured_color, captured_kind⟩ ∧
      row_delta from_row to_row = c.forward ∧
      (col_delta from_col to_col).natAbs = 1 ∧
      to_row ≠ c.last_row := by
  have hfr := from_row.isLt
  have htr := to_row.isLt
  rw [validate_capture_move b c.toChar 'P' from_row from_col to_row to_col captured_color
    captured_kind (color_char c),
    movement_pawn_other b (capture_move c.toChar 'P' from_row from_col to_row to_col
      captured_color captured_kind) _ _ _ _ rfl
      (show (10 : Nat) ≠ 7 by decide)]
  simp only
  have hrej : capture_rejects (capture_move c.toChar 'P' from_row from_col to_row to_col
        captured_color captured_kind) (b to_row to_col)
        from_row.val from_col.val to_row.val to_col.val ↔
      ¬ (captured_color = c.other.toChar ∧
        b to_row to_col = ⟨captured_color, captured_kind⟩ ∧
        row_delta from_row to_row = c.forward ∧
        (col_delta from_col to_col).natAbs = 1 ∧
        to_row ≠ c.last_row) := by
    unfold capture_rejects row_delta col_delta
    have e0 : charAt (capture_move c.toChar 'P' from_row from_col to_row to_col
        captured_color captured_kind) 0 = c.toChar := rfl
    have e1 : charAt (capture_move c.toChar 'P' from_row from_col to_row to_col
        captured_color captured_kind) 1 = 'P' := rfl
    have e8 : charAt (capture_move c.toChar 'P' from_row from_col to_row to_col
        captured_color captured_kind) 8 = captured_color := rfl
    have e9 : charAt (capture_move c.toChar 'P' from_row from_col to_row to_col
        captured_color captured_kind) 9 = captured_kind := rfl
    rw [e0, e1, e8, e9]
    have hsq : (b to_row to_col).c0 = captured_color ∧ (b to_row to_col).c1 = captured_kind ↔
        b to_row to_col = ⟨captured_color, captured_kind⟩ :=
      ⟨fun h => square_eq _ _ _ h, fun h => by rw [h]; exact ⟨rfl, rfl⟩⟩
    rw [hsq]
    have hcol : (captured_color ≠ 'W' ∧ captured_color ≠ 'B') ∨ captured_color = c.toChar ↔
        ¬ captured_color = c.other.toChar := by
      constructor
      · intro h e
        rcases h with h | h
        · rcases (other_char c).2 with h' | h'
          · exact h.1 (e.trans h')
          · exact h.2 (e.trans h')
        · exact (other_char c).1 (e.symm.trans h)
      · intro h
        by_cases h1 : captured_color = 'W' ∨ captured_color = 'B'
        · right
          by_contra h2
          exact h (other_char_of c _ h1 h2)
        · left
          exact ⟨fun e => h1 (Or.inl e), fun e => h1 (Or.inr e)⟩
    cases c with
    | White =>
      have hw : Color.White.toChar = 'W' := rfl
      have hf : Color.White.forward = 1 := rfl
      have hl : to_row ≠ Color.White.last_row ↔ ¬ (to_row.val : Int) = 7 :=
        ⟨fun h e => h (Fin.ext (by have : (Color.White.last_row).val = 7 := rfl; omega)),
          fun h e => h (by rw [e]; rfl)⟩
      rw [hw, hf, hl, if_pos rfl] at *
      constructor
      · intro h
        rcases h with h | h | h | h
        · exact fun hh => (hcol.mp (Or.inl h)) hh.1
        · exact fun hh => (hcol.mp (Or.inr h)) hh.1
        · exact fun hh => h hh.2.1
        · intro hh; omega
      · intro h
        by_contra hcon
        simp only [not_or] at hcon
        apply h
        refine ⟨?_, not_not.mp hcon.2.2.1, ?_, ?_, ?_⟩
        · by_contra hx
          rcases hcol.mpr hx with h1 | h1
          · exact hcon.1 h1
          · exact hcon.2.1 h1
        · by_contra hx
          exact hcon.2.2.2 ⟨trivial, Or.inl (Or.inl (by omega))⟩
        · by_contra hx
          exact hcon.2.2.2 ⟨trivial, Or.inl (Or.inr hx)⟩
        · intro hx
          exact hcon.2.2.2 ⟨trivial, Or.inr hx⟩
    | Black =>
      have hw : Color.Black.toChar = 'B' := rfl
      have hf : Color.Black.forward = -1 := rfl
      have hl : to_row ≠ Color.Black.last_row ↔ ¬ (to_row.val : Int) = 0 :=
        ⟨fun h e => h (Fin.ext (by have : (Color.Black.last_row).val = 0 := rfl; omega)),
          fun h e => h (by rw [e]; rfl)⟩
      rw [hw, hf, hl, if_neg (by decide)] at *
      constructor
      · intro h
        rcases h with h | h | h | h
        · exact fun hh => (hcol.mp (Or.inl h)) hh.1
        · exact fun hh => (hcol.mp (Or.inr h)) hh.1
        · exact fun hh => h hh.2.1
        · intro hh; omega
      · intro h
        by_contra hcon
        simp only [not_or] at hcon
        apply h
        refine ⟨?_, not_not.mp hcon.2.2.1, ?_, ?_, ?_⟩
        · by_contra hx
          rcases hcol.mpr hx with h1 | h1
          · exact hcon.1 h1
          · exact hcon.2.1 h1
        · by_contra hx
          exact hcon.2.2.2 ⟨trivial, Or.inl (Or.inl (by omega))⟩
        · by_contra hx
          exact hcon.2.2.2 ⟨trivial, Or.inl (Or.inr hx)⟩
        · intro hx
          exact hcon.2.2.2 ⟨trivial, Or.inr hx⟩
  constructor
  · intro h
    by_cases hs : b from_row from_col = ⟨c.toChar, 'P'⟩
    swap
    · rw [if_pos hs] at h; cases h
    rw [if_neg (not_not.mpr hs)] at h
    by_cases hr : capture_rejects (capture_move c.toChar 'P' from_row from_col to_row to_col
        captured_color captured_kind) (b to_row to_col)
        from_row.val from_col.val to_row.val to_col.val
    · rw [if_pos hr] at h; cases h
    · exact ⟨hs, not_not.mp (fun hn => hr (hrej.mpr hn))⟩
  · rintro ⟨hs, hrest⟩
    rw [if_neg (not_not.mpr hs), if_neg (fun hr => (hrej.mp hr) hrest)]
    rfl


/-- C13: for a pawn move whose destination is on the farthest row (row 7
for White, row 0 for Black): if `validate_move` accepts it, the move carries a
promotion declaration whose kind is Queen, Rook, Bishop or Knight, and the board
that `validate_move` returns is the given board with the source square holding
the mover's colour and that kind; a move without such a declaration is not
accepted. -/
theorem pawn_on_last_row_promotes (b : Board) (move : List Char) (c : Color)
    (hc : charAt move 0 = c.toChar) (hp : charAt move 1 = 'P')
    (hfar : ord (charAt move 6) - ord '1' = (c.last_row.val : Int)) :
    ((validate_move b move).map Prod.fst = some true →
      ∃ (from_row from_col : Fin 8) (k : Char),
        ord (charAt move 3) - ord '1' = (from_row.val : Int) ∧
        ord (charAt move 2) - ord 'a' = (from_col.val : Int) ∧
        promotion_kind k ∧ declares_promotion move k ∧
        validate_move b move = some (true, setSq b from_row from_col ⟨c.toChar, k⟩) ∧
        (setSq b from_row from_col ⟨c.toChar, k⟩) from_row from_col = ⟨c.toChar, k⟩) ∧
    ((¬ ∃ k, promotion_kind k ∧ declares_promotion move k) →
      (validate_move b move).map Prod.fst ≠ some true) := by
  have main : (validate_move b move).map Prod.fst = some true →
      ∃ (from_row from_col : Fin 8) (k : Char),
        ord (charAt move 3) - ord '1' = (from_row.val : Int) ∧
        ord (charAt move 2) - ord 'a' = (from_col.val : Int) ∧
        promotion_kind k ∧ declares_promotion move k ∧
        validate_move b move = some (true, setSq b from_row from_col ⟨c.toChar, k⟩) ∧
        (setSq b from_row from_col ⟨c.toChar, k⟩) from_row from_col = ⟨c.toChar, k⟩ := by
    intro h
    obtain ⟨hh, fr, fc, tr, tc, h3, h2, h6, h5, hsrc, hm, ht, heq⟩ := validate_move_accepts b move h
    have hself : ∀ k, (setSq b fr fc ⟨c.toChar, k⟩) fr fc = ⟨c.toChar, k⟩ := by
      intro k
      unfold setSq
      rw [if_pos ⟨rfl, rfl⟩]
    have hrow : (tr.val : Int) = (c.last_row.val : Int) := by rw [← h6, hfar]
    have hprom : ∀ k, promote b fr.val fc.val k = some (setSq b fr fc ⟨c.toChar, k⟩) := by
      intro k
      rw [promote_fin, hsrc, hc]
    -- the tests on the last row, for the two colours
    have hlast : (charAt move 0 = 'W' ∧ (tr.val : Int) = 7) ∨
        (¬ charAt move 0 = 'W' ∧ (tr.val : Int) = 0) := by
      cases c with
      | White => exact Or.inl ⟨hc, hrow⟩
      | Black =>
        refine Or.inr ⟨?_, hrow⟩
        rw [hc]
        exact fun e => absurd (show ('B' : Char) = 'W' from e) (by decide)
    suffices hs : ∃ k, promotion_kind k ∧ declares_promotion move k ∧
        validate_tail b move (b tr tc) fr.val fc.val tr.val tc.val
          = some (true, setSq b fr fc ⟨c.toChar, k⟩) by
      obtain ⟨k, hk, hd, hv⟩ := hs
      exact ⟨fr, fc, k, h3, h2, hk, hd, heq.trans hv, hself k⟩
    unfold validate_tail at ht ⊢
    rcases header_length move hh with hl | hl | hl
    · -- seven characters: rejected by the pawn tests
      exfalso
      rw [movement_pawn_quiet b move _ _ _ _ hp hl] at hm
      by_cases hr : pawn_quiet_rejects move fr.val fc.val tr.val tc.val
      · rw [if_pos hr] at hm; cases hm
      · apply hr
        unfold pawn_quiet_rejects
        rcases hlast with ⟨hw, h7⟩ | ⟨hw, h0⟩
        · rw [if_pos hw]; exact Or.inr h7
        · rw [if_neg hw]; exact Or.inr h0
    · rw [if_neg (by omega), if_pos hl] at ht ⊢
      unfold validate_len10 at ht ⊢
      by_cases hx : charAt move 7 = 'x'
      · exfalso
        rw [if_pos hx] at ht
        by_cases hr : capture_rejects move (b tr tc) fr.val fc.val tr.val tc.val
        · rw [if_pos hr] at ht; cases ht
        · apply hr
          unfold capture_rejects
          right; right; right
          refine ⟨hp, ?_⟩
          rcases hlast with ⟨hw, h7⟩ | ⟨hw, h0⟩
          · rw [if_pos hw]; exact Or.inr h7
          · rw [if_neg hw]; exact Or.inr h0
      · rw [if_neg hx] at ht ⊢
        by_cases hy : charAt move 7 = 'y'
        · rw [if_pos hy] at ht ⊢
          by_cases hr : promotion_rejects move (b tr tc) fr.val fc.val tr.val tc.val
          · rw [if_pos hr] at ht; cases ht
          · rw [if_neg hr, hprom]
            unfold promotion_rejects at hr
            simp only [not_or, not_and_or, not_not] at hr
            refine ⟨charAt move 9, ?_, Or.inl ⟨hl, hy, hr.2.1.symm, rfl⟩, rfl⟩
            unfold promotion_kind
            have := hr.2.2.1
            tauto
        · rw [if_neg hy] at ht; cases ht
    · rw [if_neg (by omega), if_neg (by omega), if_pos hl] at ht ⊢
      unfold validate_len13 at ht ⊢
      by_cases hr : capture_promotion_rejects move (b tr tc) fr.val fc.val tr.val tc.val
      · rw [if_pos hr] at ht; cases ht
      · rw [if_neg hr, hprom]
        unfold capture_promotion_rejects at hr
        simp only [not_or, not_and_or, not_not] at hr
        refine ⟨charAt move 12, ?_, Or.inr ⟨hl, hr.2.2.2.1, hr.2.1.symm, rfl⟩, rfl⟩
        unfold promotion_kind
        have := hr.2.2.2.2.2.2.2.2
        tauto
  refine ⟨main, fun hno hacc => ?_⟩
  obtain ⟨_, _, k, _, _, hk, hd, _⟩ := main hacc
  exact hno ⟨k, hk, hd⟩

theorem pawn_on_last_row_promotes_witness :
    charAt promotion_text 0 = Color.White.toChar ∧ charAt promotion_text 1 = 'P' ∧
    ord (charAt promotion_text 6) - ord '1' = (Color.White.last_row.val : Int) ∧
    (validate_move promotion_board promotion_text).map Prod.fst = some true ∧
    (∃ (from_row from_col : Fin 8) (k : Char),
      ord (charAt promotion_text 3) - ord '1' = (from_row.val : Int) ∧
      ord (charAt promotion_text 2) - ord 'a' = (from_col.val : Int) ∧
      promotion_kind k ∧ declares_promotion promotion_text k ∧
      validate_move promotion_board promotion_text
        = some (true, setSq promotion_board from_row from_col ⟨Color.White.toChar, k⟩) ∧
      (setSq promotion_board from_row from_col ⟨Color.White.toChar, k⟩) from_row from_col
        = ⟨Color.White.toChar, k⟩) :=
  ⟨by decide, by decide, by decide, by decide,
    (pawn_on_last_row_promotes promotion_board promotion_text Color.White (by decide)
      (by decide) (by decide)).1 (by decide)⟩



/-! ## The automatic opponent -/

theorem squares_sorted : squares.Pairwise (fun x y => sq_index x < sq_index y) := by decide

theorem sq_index_inj (x y : Fin 8 × Fin 8) (h : sq_index x = sq_index y) : x = y := by
  unfold sq_index at h
  have h1 := x.1.isLt
  have h2 := x.2.isLt
  have h3 := y.1.isLt
  have h4 := y.2.isLt
  exact Prod.ext (Fin.ext (by omega)) (Fin.ext (by omega))

/-- The squares visited before `p` in a scan of the board are the squares of
smaller rank. -/
theorem visited_before (l1 l2 : List (Fin 8 × Fin 8)) (p x : Fin 8 × Fin 8)
    (h : squares = l1 ++ p :: l2) : x ∈ l1 ↔ sq_index x < sq_index p := by
  have hs := squares_sorted
  rw [h, List.pairwise_append] at hs
  obtain ⟨_, hp2, hcross⟩ := hs
  constructor
  · intro hx
    exact hcross x hx p (List.mem_cons_self _ _)
  · intro hlt
    have hmem : x ∈ l1 ++ p :: l2 := by rw [← h]; exact squares_mem x.1 x.2
    rcases List.mem_append.mp hmem with h1 | h1
    · exact h1
    · exfalso
      rcases List.mem_cons.mp h1 with e | e
      · rw [e] at hlt; exact Nat.lt_irrefl _ hlt
      · have := (List.pairwise_cons.mp hp2).1 x e
        omega

theorem update_generated_capture (b b0 : Board) (p q : Fin 8 × Fin 8) :
    update_game_state b (generate_move_capture b0 p.1 p.2 q.1 q.2) = some (move_piece b p q) :=
  update_game_state_at b _ p.1 p.2 q.1 q.2 (ord_rowChar _) (ord_colChar _) (ord_rowChar _)
    (ord_colChar _)

theorem update_generated_quiet (b b0 : Board) (p q : Fin 8 × Fin 8) :
    update_game_state b (generate_move_non_capture b0 p.1 p.2 q.1 q.2)
      = some (move_piece b p q) :=
  update_game_state_at b _ p.1 p.2 q.1 q.2 (ord_rowChar _) (ord_colChar _) (ord_rowChar _)
    (ord_colChar _)

/-- The scan of the sources of a capture onto `q`, a square that holds the
human's colour: it returns; either no source visited passes the tests and the
board is left as it was, or the first source that passes them has captured. -/
theorem cpu_capture_sources_spec (pc : Char) (q : Fin 8 × Fin 8) (b : Board)
    (hq : (b q.1 q.2).c0 = pc) (l : List (Fin 8 × Fin 8)) :
    ∃ res, cpu_capture_sources pc q.1 q.2 l b = some res ∧
      ((res = (false, b) ∧ ∀ p ∈ l, ¬ ((b p.1 p.2).c0 ≠ pc ∧
          (validate_move b (generate_move_capture b p.1 p.2 q.1 q.2)).map Prod.fst
            = some true)) ∨
        ∃ l1 p l2, l = l1 ++ p :: l2 ∧
          (∀ x ∈ l1, ¬ ((b x.1 x.2).c0 ≠ pc ∧
            (validate_move b (generate_move_capture b x.1 x.2 q.1 q.2)).map Prod.fst
              = some true)) ∧
          ((b p.1 p.2).c0 ≠ pc ∧
            (validate_move b (generate_move_capture b p.1 p.2 q.1 q.2)).map Prod.fst
              = some true) ∧
          res = (true, move_piece b p q)) := by
  induction l with
  | nil =>
    refine ⟨(false, b), rfl, Or.inl ⟨rfl, ?_⟩⟩
    intro p hp
    cases hp
  | cons a rest ih =>
    obtain ⟨res, hres, hcase⟩ := ih
    simp only [cpu_capture_sources]
    have step : ∀ (hna : ¬ ((b a.1 a.2).c0 ≠ pc ∧
        (validate_move b (generate_move_capture b a.1 a.2 q.1 q.2)).map Prod.fst = some true)),
        (res = (false, b) ∧ ∀ p ∈ a :: rest, ¬ ((b p.1 p.2).c0 ≠ pc ∧
          (validate_move b (generate_move_capture b p.1 p.2 q.1 q.2)).map Prod.fst
            = some true)) ∨
        ∃ l1 p l2, a :: rest = l1 ++ p :: l2 ∧
          (∀ x ∈ l1, ¬ ((b x.1 x.2).c0 ≠ pc ∧
            (validate_move b (generate_move_capture b x.1 x.2 q.1 q.2)).map Prod.fst
              = some true)) ∧
          ((b p.1 p.2).c0 ≠ pc ∧
            (validate_move b (generate_move_capture b p.1 p.2 q.1 q.2)).map Prod.fst
              = some true) ∧
          res = (true, move_piece b p q) := by
      intro hna
      rcases hcase with ⟨e, hall⟩ | ⟨l1, p, l2, hl, hbefore, hp, e⟩
      · left
        refine ⟨e, ?_⟩
        intro p hp
        rcases List.mem_cons.mp hp with h1 | h1
        · rw [h1]; exact hna
        · exact hall p h1
      · right
        refine ⟨a :: l1, p, l2, by rw [hl]; rfl, ?_, hp, e⟩
        intro x hx
        rcases List.mem_cons.mp hx with h1 | h1
        · rw [h1]; exact hna
        · exact hbefore x h1
    by_cases ha : (b a.1 a.2).c0 ≠ pc
    · rw [if_pos ha]
      have hne : a.1 ≠ q.1 ∨ a.2 ≠ q.2 := by
        by_contra hcon
        simp only [not_or, not_not] at hcon
        rw [hcon.1, hcon.2] at ha
        exact ha hq
      obtain ⟨v, hv⟩ := validate_capture_defined b a.1 a.2 q.1 q.2 hne
      rw [hv]
      cases v with
      | true =>
        simp only
        rw [update_generated_capture]
        refine ⟨(true, move_piece b a q), rfl, Or.inr ⟨[], a, rest, rfl, ?_, ⟨ha, ?_⟩, rfl⟩⟩
        · intro x hx; cases hx
        · rw [hv]; rfl
      | false =>
        simp only
        refine ⟨res, hres, step ?_⟩
        rintro ⟨_, h2⟩
        rw [hv] at h2
        cases h2
    · rw [if_neg ha]
      exact ⟨res, hres, step (fun h => ha h.1)⟩



/-- The scan of the destinations of the capture part: it returns; either no
pair visited passes the tests and the board is left as it was, or the first
pair that passes them, destinations outside and sources inside, has captured. -/
theorem cpu_capture_dests_spec (pc : Char) (b : Board) (l : List (Fin 8 × Fin 8)) :
    ∃ res, cpu_capture_dests pc l b = some res ∧
      ((res = (false, b) ∧ ∀ q ∈ l, ∀ p, ¬ capture_tests b pc p q) ∨
        ∃ l1 q l2 m1 p m2, l = l1 ++ q :: l2 ∧ squares = m1 ++ p :: m2 ∧
          (∀ q1 ∈ l1, ∀ p1, ¬ capture_tests b pc p1 q1) ∧
          (∀ p1 ∈ m1, ¬ capture_tests b pc p1 q) ∧
          capture_tests b pc p q ∧ res = (true, move_piece b p q)) := by
  induction l with
  | nil =>
    refine ⟨(false, b), rfl, Or.inl ⟨rfl, ?_⟩⟩
    intro q hq
    cases hq
  | cons a rest ih =>
    obtain ⟨res, hres, hcase⟩ := ih
    simp only [cpu_capture_dests]
    have step : (∀ p, ¬ capture_tests b pc p a) →
        (res = (false, b) ∧ ∀ q ∈ a :: rest, ∀ p, ¬ capture_tests b pc p q) ∨
        ∃ l1 q l2 m1 p m2, a :: rest = l1 ++ q :: l2 ∧ squares = m1 ++ p :: m2 ∧
          (∀ q1 ∈ l1, ∀ p1, ¬ capture_tests b pc p1 q1) ∧
          (∀ p1 ∈ m1, ¬ capture_tests b pc p1 q) ∧
          capture_tests b pc p q ∧ res = (true, move_piece b p q) := by
      intro hna
      rcases hcase with ⟨e, hall⟩ | ⟨l1, q, l2, m1, p, m2, hl, hm, hbefore, hbefore2, hp, e⟩
      · left
        refine ⟨e, ?_⟩
        intro q hq
        rcases List.mem_cons.mp hq with h1 | h1
        · rw [h1]; exact hna
        · exact hall q h1
      · right
        refine ⟨a :: l1, q, l2, m1, p, m2, by rw [hl]; rfl, hm, ?_, hbefore2, hp, e⟩
        intro x hx
        rcases List.mem_cons.mp hx with h1 | h1
        · rw [h1]; exact hna
        · exact hbefore x h1
    by_cases ha : (b a.1 a.2).c0 = pc
    · rw [if_pos ha]
      obtain ⟨r1, hr1, hc1⟩ := cpu_capture_sources_spec pc a b ha squares
      rw [hr1]
      rcases hc1 with ⟨e, hall⟩ | ⟨m1, p, m2, hm, hbefore, hp, e⟩
      · subst e
        simp only
        refine ⟨res, hres, step ?_⟩
        intro p hp
        exact hall p (squares_mem p.1 p.2) hp.2
      · subst e
        simp only
        refine ⟨_, rfl, Or.inr ⟨[], a, rest, m1, p, m2, rfl, hm, ?_, ?_, ⟨ha, hp⟩, rfl⟩⟩
        · intro x hx; cases hx
        · intro p1 hp1 ht
          exact hbefore p1 hp1 ht.2
    · rw [if_neg ha]
      exact ⟨res, hres, step (fun p hp => ha hp.1)⟩

/-- The scan of the destinations of one piece in the first part of
`generate_cpu_move`, when it returns: either no destination visited passes the
tests and the board is left as it was, or the move to the first destination
that passes them was made. -/
theorem cpu_escape_dests_spec (pc : Char) (p : Fin 8 × Fin 8) (b : Board)
    (hp : (b p.1 p.2).c0 ≠ pc) (l : List (Fin 8 × Fin 8)) :
    ∀ res, cpu_escape_dests pc p.1 p.2 l b = some res →
      ((res = (false, b) ∧ ∀ q ∈ l, ¬ escape_tests b pc p q) ∨
        ∃ l1 q l2, l = l1 ++ q :: l2 ∧ (∀ x ∈ l1, ¬ escape_tests b pc p x) ∧
          escape_tests b pc p q ∧ res = (true, move_piece b p q)) := by
  induction l with
  | nil =>
    intro res h
    simp only [cpu_escape_dests] at h
    refine Or.inl ⟨(Option.some.inj h).symm, ?_⟩
    intro q hq
    cases hq
  | cons a rest ih =>
    intro res h
    simp only [cpu_escape_dests] at h
    have step : ¬ escape_tests b pc p a →
        cpu_escape_dests pc p.1 p.2 rest b = some res →
        ((res = (false, b) ∧ ∀ q ∈ a :: rest, ¬ escape_tests b pc p q) ∨
          ∃ l1 q l2, a :: rest = l1 ++ q :: l2 ∧ (∀ x ∈ l1, ¬ escape_tests b pc p x) ∧
            escape_tests b pc p q ∧ res = (true, move_piece b p q)) := by
      intro hna hrest
      rcases ih res hrest with ⟨e, hall⟩ | ⟨l1, q, l2, hl, hbefore, hq, e⟩
      · left
        refine ⟨e, ?_⟩
        intro q hq
        rcases List.mem_cons.mp hq with h1 | h1
        · rw [h1]; exact hna
        · exact hall q h1
      · right
        refine ⟨a :: l1, q, l2, by rw [hl]; rfl, ?_, hq, e⟩
        intro x hx
        rcases List.mem_cons.mp hx with h1 | h1
        · rw [h1]; exact hna
        · exact hbefore x h1
    cases hv : validate_either b p.1 p.2 a.1 a.2 with
    | none => rw [hv] at h; cases h
    | some r1 =>
      obtain ⟨v, b1⟩ := r1
      have hb : b1 = b := validate_either_board _ _ _ _ _ _ _ hv
      subst hb
      have hvs := validate_either_spec _ _ _ _ _ _ _ hv
      rw [hv] at h
      cases v with
      | false =>
        simp only at h
        refine step ?_ h
        intro ht
        exact absurd (hvs.mpr ht.2.1) (by decide)
      | true =>
        simp only at h
        cases ht : try_and_undo b1 p.1 p.2 a.1 a.2 pc with
        | none => rw [ht] at h; cases h
        | some r2 =>
          obtain ⟨t, b2⟩ := r2
          have hb2 : b2 = b1 := try_and_undo_board _ _ _ _ _ _ _ _ ht
          subst hb2
          rw [ht] at h
          cases t with
          | false =>
            simp only at h
            refine step ?_ h
            intro hte
            have := hte.2.2
            rw [ht] at this
            cases this
          | true =>
            simp only at h
            rw [update_generated_quiet] at h
            refine Or.inr ⟨[], a, rest, rfl, ?_, ⟨hp, hvs.mp rfl, by rw [ht]; rfl⟩,
              (Option.some.inj h).symm⟩
            intro x hx
            cases hx

/-- The scan of the sources in the first part of `generate_cpu_move`, when it
returns: either no pair visited passes the tests and the board is left as it
was, or the move of the first pair that passes them, sources outside and
destinations inside, was made. -/
theorem cpu_escape_sources_spec (pc : Char) (b : Board) (l : List (Fin 8 × Fin 8)) :
    ∀ res, cpu_escape_sources pc l b = some res →
      ((res = (false, b) ∧ ∀ p ∈ l, ∀ q, ¬ escape_tests b pc p q) ∨
        ∃ l1 p l2 m1 q m2, l = l1 ++ p :: l2 ∧ squares = m1 ++ q :: m2 ∧
          (∀ p1 ∈ l1, ∀ q1, ¬ escape_tests b pc p1 q1) ∧
          (∀ q1 ∈ m1, ¬ escape_tests b pc p q1) ∧
          escape_tests b pc p q ∧ res = (true, move_piece b p q)) := by
  induction l with
  | nil =>
    intro res h
    simp only [cpu_escape_sources] at h
    refine Or.inl ⟨(Option.some.inj h).symm, ?_⟩
    intro q hq
    cases hq
  | cons a rest ih =>
    intro res h
    simp only [cpu_escape_sources] at h
    have step : (∀ q, ¬ escape_tests b pc a q) →
        cpu_escape_sources pc rest b = some res →
        ((res = (false, b) ∧ ∀ p ∈ a :: rest, ∀ q, ¬ escape_tests b pc p q) ∨
          ∃ l1 p l2 m1 q m2, a :: rest = l1 ++ p :: l2 ∧ squares = m1 ++ q :: m2 ∧
            (∀ p1 ∈ l1, ∀ q1, ¬ escape_tests b pc p1 q1) ∧
            (∀ q1 ∈ m1, ¬ escape_tests b pc p q1) ∧
            escape_tests b pc p q ∧ res = (true, move_piece b p q)) := by
      intro hna hrest
      rcases ih res hrest with ⟨e, hall⟩ |
        ⟨l1, p, l2, m1, q, m2, hl, hm, hbefore, hbefore2, hq, e⟩
      · left
        refine ⟨e, ?_⟩
        intro p hp
        rcases List.mem_cons.mp hp with h1 | h1
        · rw [h1]; exact hna
        · exact hall p h1
      · right
        refine ⟨a :: l1, p, l2, m1, q, m2, by rw [hl]; rfl, hm, ?_, hbefore2, hq, e⟩
        intro x hx
        rcases List.mem_cons.mp hx with h1 | h1
        · rw [h1]; exact hna
        · exact hbefore x h1
    by_cases ha : (b a.1 a.2).c0 ≠ pc
    · rw [if_pos ha] at h
      cases hd : cpu_escape_dests pc a.1 a.2 squares b with
      | none => rw [hd] at h; cases h
      | some r1 =>
        rw [hd] at h
        rcases cpu_escape_dests_spec pc a b ha squares r1 hd with ⟨e, hall⟩ |
          ⟨m1, q, m2, hm, hbefore, hq, e⟩
        · subst e
          simp only at h
          exact step (fun q => hall q (squares_mem q.1 q.2)) h
        · subst e
          simp only at h
          refine Or.inr ⟨[], a, rest, m1, q, m2, rfl, hm, ?_, hbefore, hq,
            (Option.some.inj h).symm⟩
          intro x hx
          cases hx
    · rw [if_neg ha] at h
      exact step (fun q ht => ha ht.1) h

/-- Under the colours of a started game, the tests of the first part of
`generate_cpu_move` pick the moves of the automatic side that leave check. -/
theorem escape_tests_iff (b : Board) (pc cc : Char)
    (hcol : (pc = 'W' ∧ cc = 'B') ∨ (pc = 'B' ∧ cc = 'W')) (p q : Fin 8 × Fin 8) :
    escape_tests b pc p q ↔ automatic_escape b pc cc p q := by
  unfold escape_tests automatic_escape
  constructor
  · rintro ⟨hp, hacc, ht⟩
    refine ⟨?_, hacc, ht⟩
    have hwb : (b p.1 p.2).c0 = 'W' ∨ (b p.1 p.2).c0 = 'B' := by
      rcases hacc with h | h
      · exact header_colour _ (validate_move_accepts _ _ h).1
      · exact header_colour _ (validate_move_accepts _ _ h).1
    rcases hcol with ⟨h1, h2⟩ | ⟨h1, h2⟩ <;> rw [h1] at hp <;> rw [h2] <;>
      rcases hwb with h | h
    · exact absurd h hp
    · exact h
    · exact h
    · exact absurd h hp
  · rintro ⟨hp, hacc, ht⟩
    refine ⟨?_, hacc, ht⟩
    rw [hp]
    rcases hcol with ⟨h1, h2⟩ | ⟨h1, h2⟩ <;> rw [h1, h2] <;> decide


/-- The index that `random_number` returns for the bounds `0` and `m` is not
negative and, with a positive `m`, is below `m`; there is none for `m = 0`. -/
theorem random_number_range (num m i : Int) (h : random_number num 0 m = some i) :
    0 ≤ i ∧ m ≠ 0 ∧ (0 < m → i < m) := by
  unfold random_number at h
  by_cases h1 : num = -2147483648
  · rw [if_pos h1] at h; cases h
  · rw [if_neg h1] at h
    by_cases h2 : m - 0 = 0
    · rw [if_pos h2] at h; cases h
    · rw [if_neg h2] at h
      have e := Option.some.inj h
      have hn : 0 ≤ Int.tmod (num.natAbs : Int) (m - 0) :=
        Int.tmod_nonneg _ (Int.natCast_nonneg _)
      refine ⟨by omega, by omega, fun hm => ?_⟩
      have hl := Int.tmod_lt_of_pos (num.natAbs : Int) (show 0 < m - 0 by omega)
      omega

set_option maxRecDepth 1000000 in
/-- C15, which the program does not meet: the index that `random_number`
returns for the bounds `0` and `n - 1` is never `n - 1`, the position of the
last of `n` candidates.  With the two kings alone the candidate list of
`generate_cpu_move` is `BKh8-g7`, `BKh8-h7`, `BKh8-g8`; the first is played for
`num = 0`, and for no value `num` of the random source does the king arrive on
g8, the move of the third candidate. -/
theorem last_candidate_never_played :
    (∀ (n : Nat) (num : Int), random_number num 0 ((n : Int) - 1) ≠ some ((n : Int) - 1)) ∧
    (quiet_dests lone_kings_session.player_color squares lone_kings_session.game_board
        []).map Prod.snd
      = some ["BKh8-g7".toList, "BKh8-h7".toList, "BKh8-g8".toList] ∧
    (generate_cpu_move lone_kings_session 0).map (fun s1 => s1.game_board 6 6)
      = some ⟨'B', 'K'⟩ ∧
    ∀ num : Int, (generate_cpu_move lone_kings_session num).map (fun s1 => s1.game_board 7 6)
      ≠ some ⟨'B', 'K'⟩ := by
  refine ⟨?_, by decide, by decide, ?_⟩
  · intro n num h
    have hr := random_number_range num _ _ h
    have h1 := hr.1
    have h2 := hr.2.1
    have h3 := hr.2.2 (by omega)
    omega
  · intro num h
    have hcap : cpu_capture_dests lone_kings_session.player_color squares
        lone_kings_session.game_board = some (false, lone_kings_session.game_board) := by
      obtain ⟨res, hres, hor⟩ := cpu_capture_dests_spec lone_kings_session.player_color
        lone_kings_session.game_board squares
      have hd : (cpu_capture_dests lone_kings_session.player_color squares
          lone_kings_session.game_board).map Prod.fst = some false := by decide
      rw [hres] at hd
      rcases hor with ⟨e, _⟩ | ⟨_, _, _, _, _, _, _, _, _, _, _, e⟩
      · rw [hres, e]
      · rw [e] at hd
        cases hd
    have hq : (quiet_dests lone_kings_session.player_color squares
        lone_kings_session.game_board []).map (fun r => (r.1 7 6, r.2))
        = some (EMPTY, ["BKh8-g7".toList, "BKh8-h7".toList, "BKh8-g8".toList]) := by decide
    have hc : lone_kings_session.cpu_in_check = false := rfl
    unfold generate_cpu_move at h
    rw [hc] at h
    simp only [Bool.false_eq_true, if_false] at h
    rw [hcap] at h
    simp only at h
    cases hqd : quiet_dests lone_kings_session.player_color squares
        lone_kings_session.game_board [] with
    | none => rw [hqd] at hq; cases hq
    | some r =>
      obtain ⟨b3, moves⟩ := r
      rw [hqd] at hq h
      have hq1 := Option.some.inj hq
      have hb3 : b3 7 6 = EMPTY := congrArg Prod.fst hq1
      have hmoves : moves = ["BKh8-g7".toList, "BKh8-h7".toList, "BKh8-g8".toList] :=
        congrArg Prod.snd hq1
      subst hmoves
      simp only at h
      unfold play_random_quiet at h
      rw [if_neg (show ¬ (["BKh8-g7".toList, "BKh8-h7".toList, "BKh8-g8".toList].length = 0)
        by decide)] at h
      cases hr : random_number num 0
          ((["BKh8-g7".toList, "BKh8-h7".toList, "BKh8-g8".toList].length : Int) - 1) with
      | none => rw [hr] at h; cases h
      | some i =>
        rw [hr] at h
        simp only at h
        have hrange := random_number_range num _ _ hr
        have hlen : ((["BKh8-g7".toList, "BKh8-h7".toList, "BKh8-g8".toList].length : Int) - 1)
            = 2 := by decide
        rw [hlen] at hrange
        have hi : i = 0 ∨ i = 1 := by
          have h1 := hrange.1
          have h2 := hrange.2.2 (by decide)
          omega
        have hne : b3 7 6 ≠ ⟨'B', 'K'⟩ := by
          rw [hb3]
          decide
        rcases hi with hi | hi
        · subst hi
          have hcand : candidate ["BKh8-g7".toList, "BKh8-h7".toList, "BKh8-g8".toList] 0
              = some "BKh8-g7".toList := by decide
          rw [hcand] at h
          simp only at h
          rw [update_game_state_at b3 "BKh8-g7".toList 7 7 6 6 (by decide) (by decide)
            (by decide) (by decide)] at h
          exact hne (Option.some.inj h)
        · subst hi
          have hcand : candidate ["BKh8-g7".toList, "BKh8-h7".toList, "BKh8-g8".toList] 1
              = some "BKh8-h7".toList := by decide
          rw [hcand] at h
          simp only at h
          rw [update_game_state_at b3 "BKh8-h7".toList 7 7 6 7 (by decide) (by decide)
            (by decide) (by decide)] at h
          exact hne (Option.some.inj h)

/-! ## The start of a game and the starting position -/

/-- The board that the statements of `initialize_board` leave does not depend
on the board they start from: it is the board `initialize_board`. -/
theorem initialize_board_from_eq (b : Board) : initialize_board_from b = initialize_board := by
  funext r c
  fin_cases r <;> fin_cases c <;> rfl

/-- C21, which the program does not meet: the request `00 W` (and `00 B`), sent
in any state of the session, sets the two colours, the board of
`initialize_board`, the game-active flag, the turn and the response, and leaves
the cached check flag `cpu_in_check` as it was.  Two sessions that differ in the
flag, one with the automatic side flagged in check and one without, still differ
in it after the same start request. -/
theorem new_game_keeps_check_flag :
    (∀ (s : Session) (num : Int), chess_write s "00 W\n".toList num
      = some { s with
          player_color := 'W'
          cpu_color := 'B'
          game_board := initialize_board
          game_started := true
          player_turn := true
          output_message := "OK\n" }) ∧
    (∀ (s : Session) (num : Int), chess_write s "00 B\n".toList num
      = some { s with
          player_color := 'B'
          cpu_color := 'W'
          game_board := initialize_board
          game_started := true
          player_turn := false
          output_message := "OK\n" }) ∧
    (chess_write rook_check_session "00 B\n".toList 0).map Session.cpu_in_check = some true ∧
    (chess_write lone_kings_session "00 B\n".toList 0).map Session.cpu_in_check
      = some false := by
  refine ⟨?_, ?_, by decide, by decide⟩
  · intro s num
    unfold chess_write
    rw [if_neg (by decide), if_neg (by decide), if_neg (by decide)]
    simp only
    rw [if_pos (by decide), if_neg (by decide), initialize_board_from_eq]
  · intro s num
    unfold chess_write
    rw [if_neg (by decide), if_neg (by decide), if_neg (by decide)]
    simp only
    rw [if_neg (by decide), if_pos (by decide), if_neg (by decide), initialize_board_from_eq]

/-- C23: whatever `game_board` held before, the board that the statements of
`initialize_board` leave is the standard starting position: row 0 is White and
row 7 is Black with the same kind in every column, in the order Rook, Knight,
Bishop, Queen, King, Bishop, Knight, Rook; every cell of row 1 is a White pawn
and every cell of row 6 a Black pawn; a cell holds a pawn exactly when it is in
row 1 or 6, which makes sixteen pawns; a cell is empty exactly when it is in
rows 2 to 5. -/
theorem initial_position_standard (b0 : Board) :
    (∀ col : Fin 8, (initialize_board_from b0 0 col).c0 = 'W' ∧
      (initialize_board_from b0 7 col).c0 = 'B' ∧
      (initialize_board_from b0 0 col).c1 = (initialize_board_from b0 7 col).c1) ∧
    rows.map (fun col => (initialize_board_from b0 0 col).c1)
      = ['R', 'N', 'B', 'Q', 'K', 'B', 'N', 'R'] ∧
    (∀ col : Fin 8, initialize_board_from b0 1 col = ⟨'W', 'P'⟩ ∧
      initialize_board_from b0 6 col = ⟨'B', 'P'⟩) ∧
    (∀ row col : Fin 8, (initialize_board_from b0 row col).c1 = 'P' ↔ (row = 1 ∨ row = 6)) ∧
    (squares.filter (fun p => (initialize_board_from b0 p.1 p.2).c1 = 'P')).length = 16 ∧
    (∀ row col : Fin 8, initialize_board_from b0 row col = EMPTY ↔
      (2 ≤ row.val ∧ row.val ≤ 5)) := by
  rw [initialize_board_from_eq]
  decide

/-! ## The number of pieces -/

/-- Two tests that agree on every element of a list count the same. -/
theorem countP_agree {α : Type} (f g : α → Bool) :
    ∀ l : List α, (∀ x ∈ l, f x = g x) → l.countP g = l.countP f := by
  intro l
  induction l with
  | nil => intro _; rfl
  | cons a rest ih =>
    intro h
    rw [List.countP_cons, List.countP_cons, ih (fun x hx => h x (List.mem_cons_of_mem _ hx)),
      h a (List.mem_cons_self _ _)]

/-- A count over a list without repetition, for two tests that agree except at
the element `p` of the list: the counts differ by the change at `p`. -/
theorem countP_change {α : Type} (f g : α → Bool) (p : α) :
    ∀ l : List α, l.Nodup → p ∈ l → (∀ x, x ≠ p → f x = g x) →
      l.countP g + (if f p = true then 1 else 0) = l.countP f + (if g p = true then 1 else 0) := by
  intro l
  induction l with
  | nil => intro _ hp; cases hp
  | cons a rest ih =>
    intro hnd hp hag
    rw [List.countP_cons, List.countP_cons]
    have hnd1 := List.nodup_cons.mp hnd
    by_cases ha : a = p
    · have hrest : rest.countP g = rest.countP f := by
        apply countP_agree
        intro x hx
        apply hag
        intro hxp
        rw [hxp, ← ha] at hx
        exact hnd1.1 hx
      rw [hrest, ha]
      omega
    · have hmem : p ∈ rest := by
        rcases List.mem_cons.mp hp with h1 | h1
        · exact absurd h1.symm ha
        · exact h1
      have := ih hnd1.2 hmem hag
      rw [hag a ha]
      omega

theorem squares_nodup : squares.Nodup :=
  squares_sorted.imp (fun h e => by rw [e] at h; exact Nat.lt_irrefl _ h)

/-- The write of one cell changes the number of occupied cells by what the cell
held and what it holds. -/
theorem occupied_count_setSq (b : Board) (r c : Fin 8) (s : Square) :
    occupied_count (setSq b r c s) + (if b r c ≠ EMPTY then 1 else 0)
      = occupied_count b + (if s ≠ EMPTY then 1 else 0) := by
  have h := countP_change (fun p : Fin 8 × Fin 8 => decide (b p.1 p.2 ≠ EMPTY))
    (fun p : Fin 8 × Fin 8 => decide (setSq b r c s p.1 p.2 ≠ EMPTY)) (r, c) squares
    squares_nodup (squares_mem r c)
    (by
      intro x hx
      have hne : ¬ (x.1 = r ∧ x.2 = c) := fun hc => hx (Prod.ext hc.1 hc.2)
      simp only [setSq, if_neg hne])
  simp only [setSq, and_self, if_true, decide_eq_true_eq] at h
  unfold occupied_count
  simp only [setSq]
  exact h

/-- The board that the end of `validate_move` returns with `true`: the given
board, or the given board with the kind of the piece on the source square
replaced. -/
theorem validate_tail_source (b : Board) (move : List Char) (dst : Square) (fr fc : Fin 8)
    (tr tc : Int) (b1 : Board)
    (h : validate_tail b move dst fr.val fc.val tr tc = some (true, b1)) :
    b1 = b ∨ ∃ k, b1 = setSq b fr fc ⟨(b fr fc).c0, k⟩ := by
  unfold validate_tail at h
  by_cases h7 : move.length = 7 ∧ ¬ (dst.c0 = '*' ∧ dst.c1 = '*')
  · rw [if_pos h7] at h; cases h
  · rw [if_neg h7] at h
    by_cases h10 : move.length = 10
    · rw [if_pos h10] at h
      unfold validate_len10 at h
      by_cases hx : charAt move 7 = 'x'
      · rw [if_pos hx] at h
        by_cases hc : capture_rejects move dst fr.val fc.val tr tc
        · rw [if_pos hc] at h; cases h
        · rw [if_neg hc] at h; cases h; exact Or.inl rfl
      · rw [if_neg hx] at h
        by_cases hy : charAt move 7 = 'y'
        · rw [if_pos hy] at h
          by_cases hc : promotion_rejects move dst fr.val fc.val tr tc
          · rw [if_pos hc] at h; cases h
          · rw [if_neg hc, promote_fin] at h
            cases h
            exact Or.inr ⟨_, rfl⟩
        · rw [if_neg hy] at h; cases h
    · rw [if_neg h10] at h
      by_cases h13 : move.length = 13
      · rw [if_pos h13] at h
        unfold validate_len13 at h
        by_cases hc : capture_promotion_rejects move dst fr.val fc.val tr tc
        · rw [if_pos hc] at h; cases h
        · rw [if_neg hc, promote_fin] at h
          cases h
          exact Or.inr ⟨_, rfl⟩
      · rw [if_neg h13] at h; cases h; exact Or.inl rfl

/-- C22: for every board and every move text that `validate_move` accepts, the
call of `update_game_state` that follows returns a board, and on it the number
of occupied squares is one less than before when the text declares a capture
(marker `x`) and the same as before when it declares none, a promotion without
capture included. -/
theorem occupied_squares_count (b : Board) (move : List Char)
    (h : (validate_move b move).map Prod.fst = some true) :
    ∃ b2, validate_then_update b move = some b2 ∧
      (declares_capture move → occupied_count b2 + 1 = occupied_count b) ∧
      (¬ declares_capture move → occupied_count b2 = occupied_count b) := by
  obtain ⟨hh, fr, fc, tr, tc, h3, h2, h6, h5, hsrc, _, htail, heq⟩ :=
    validate_move_accepts b move h
  have hcol := header_colour move hh
  have hdst := validate_tail_accepts b move (b tr tc) fr.val fc.val tr.val tc.val
    (header_length move hh) htail
  have hsrc_ne : b fr fc ≠ EMPTY := by
    rw [hsrc]
    intro he
    have h0 : charAt move 0 = '*' := congrArg Square.c0 he
    rcases hcol with hw | hb
    · rw [hw] at h0; exact absurd h0 (by decide)
    · rw [hb] at h0; exact absurd h0 (by decide)
  have hne : ¬ (fr = tr ∧ fc = tc) := by
    intro hc
    rw [hc.1, hc.2] at hsrc
    by_cases hx : charAt move 7 = 'x'
    · have hd := hdst.2 hx
      rw [hsrc] at hd
      exact hd.2.2 (congrArg Square.c0 hd.1).symm
    · have hd := hdst.1 hx
      rw [hc.1, hc.2] at hsrc_ne
      exact hsrc_ne hd
  cases ht : validate_tail b move (b tr tc) fr.val fc.val tr.val tc.val with
  | none => rw [ht] at htail; cases htail
  | some res =>
    obtain ⟨v, b1⟩ := res
    rw [ht] at htail
    have hv : v = true := Option.some.inj htail
    subst hv
    have hb1 := validate_tail_source b move (b tr tc) fr fc tr.val tc.val b1 ht
    have hfinal : setSq (setSq b1 tr tc (b1 fr fc)) fr fc EMPTY
        = setSq (setSq b tr tc (b1 fr fc)) fr fc EMPTY := by
      rcases hb1 with e | ⟨k, e⟩
      · rw [e]
      · funext i j
        rw [e]
        simp only [setSq]
        by_cases h1 : i = fr ∧ j = fc
        · rw [if_pos h1, if_pos h1]
        · rw [if_neg h1, if_neg h1, if_neg h1]
    have hpiece : b1 fr fc ≠ EMPTY := by
      rcases hb1 with e | ⟨k, e⟩
      · rw [e]; exact hsrc_ne
      · rw [e]
        simp only [setSq, and_self, if_true]
        rw [hsrc]
        intro he
        have h0 : charAt move 0 = '*' := congrArg Square.c0 he
        rcases hcol with hw | hb
        · rw [hw] at h0; exact absurd h0 (by decide)
        · rw [hb] at h0; exact absurd h0 (by decide)
    refine ⟨setSq (setSq b tr tc (b1 fr fc)) fr fc EMPTY, ?_, ?_⟩
    · unfold validate_then_update
      rw [heq, ht]
      simp only
      rw [update_game_state_at b1 move fr fc tr tc h3 h2 h6 h5, hfinal]
    · have c1 := occupied_count_setSq b tr tc (b1 fr fc)
      have c2 := occupied_count_setSq (setSq b tr tc (b1 fr fc)) fr fc EMPTY
      have hkeep : setSq b tr tc (b1 fr fc) fr fc = b fr fc := by
        simp only [setSq, if_neg hne]
      rw [hkeep, if_pos hsrc_ne] at c2
      rw [if_pos hpiece] at c1
      rw [if_neg (fun hq : EMPTY ≠ EMPTY => hq rfl)] at c2
      constructor
      · intro hx
        have hd := hdst.2 hx
        have hocc : b tr tc ≠ EMPTY := by
          rw [hd.1]
          intro he
          have h0 : charAt move 8 = '*' := congrArg Square.c0 he
          rcases hd.2.1 with hw | hb
          · rw [hw] at h0; exact absurd h0 (by decide)
          · rw [hb] at h0; exact absurd h0 (by decide)
        rw [if_pos hocc] at c1
        omega
      · intro hx
        have hd := hdst.1 hx
        rw [if_neg (fun hq : b tr tc ≠ EMPTY => hq hd)] at c1
        omega

theorem occupied_squares_count_witness :
    (validate_move initialize_board "WPe2-e4".toList).map Prod.fst = some true ∧
    ∃ b2, validate_then_update initialize_board "WPe2-e4".toList = some b2 ∧
      (declares_capture "WPe2-e4".toList → occupied_count b2 + 1 = occupied_count initialize_board) ∧
      (¬ declares_capture "WPe2-e4".toList → occupied_count b2 = occupied_count initialize_board) :=
  ⟨by decide, occupied_squares_count initialize_board "WPe2-e4".toList (by decide)⟩

/-! ## Moves of the automatic opponent made without the check test -/

set_option maxRecDepth 1000000 in
/-- C25, which the program does not meet: with the black knight on e5 between
the white rook on e1 and the black king on e8, the automatic side is not in
check; the capture `BNe5-d3xWP` is accepted by `validate_move` and does not pass
`try_and_undo`.  For every value of the random source `generate_cpu_move` makes
that capture, and on the resulting board `is_opponent_in_check` of the human's
colour is true: the automatic side's own king is attacked. -/
theorem cpu_capture_exposes_own_king :
    pinned_knight_session.cpu_in_check = false ∧
    (is_opponent_in_check pinned_knight_session.game_board
        pinned_knight_session.player_color).map Prod.fst = some false ∧
    (validate_move pinned_knight_session.game_board "BNe5-d3xWP".toList).map Prod.fst
      = some true ∧
    (try_and_undo pinned_knight_session.game_board 4 4 2 3
        pinned_knight_session.player_color).map Prod.fst = some false ∧
    ∀ num : Int, (generate_cpu_move pinned_knight_session num).map
        (fun s1 => (s1.game_board 2 3, s1.game_board 4 4,
          (is_opponent_in_check s1.game_board pinned_knight_session.player_color).map Prod.fst))
      = some (⟨'B', 'N'⟩, EMPTY, some true) := by
  refine ⟨by decide, by decide, by decide, by decide, ?_⟩
  intro num
  have hd : (cpu_capture_dests pinned_knight_session.player_color squares
      pinned_knight_session.game_board).map
      (fun r => (r.1, r.2 2 3, r.2 4 4,
        (is_opponent_in_check r.2 pinned_knight_session.player_color).map Prod.fst))
      = some (true, ⟨'B', 'N'⟩, EMPTY, some true) := by decide
  have hc : pinned_knight_session.cpu_in_check = false := rfl
  unfold generate_cpu_move
  rw [hc]
  simp only [Bool.false_eq_true, if_false]
  cases hcap : cpu_capture_dests pinned_knight_session.player_color squares
      pinned_knight_session.game_board with
  | none => rw [hcap] at hd; cases hd
  | some r =>
    obtain ⟨v, b2⟩ := r
    rw [hcap] at hd
    have hd1 := Option.some.inj hd
    have hv : v = true := congrArg Prod.fst hd1
    subst hv
    simp only [Option.map_some']
    exact congrArg some (congrArg Prod.snd hd1)

set_option maxRecDepth 1000000 in
/-- C26, which the program does not meet for one candidate: with `n = 1` the
call `random_number(0, n - 1)` computes a remainder modulo `0` and has no result,
for every value of the random source.  In the position of
`cornered_king_session` the automatic side has no capture and the candidate list
is the single move `BKa1-b1`, so `generate_cpu_move` has no result for any value
of the random source. -/
theorem single_candidate_divides_by_zero :
    (∀ num : Int, random_number num 0 ((1 : Int) - 1) = none) ∧
    (cpu_capture_dests cornered_king_session.player_color squares
        cornered_king_session.game_board).map Prod.fst = some false ∧
    (quiet_dests cornered_king_session.player_color squares
        cornered_king_session.game_board []).map Prod.snd = some ["BKa1-b1".toList] ∧
    ∀ num : Int, (generate_cpu_move cornered_king_session num).isSome = false := by
  have hzero : ∀ num : Int, random_number num 0 ((1 : Int) - 1) = none := by
    intro num
    unfold random_number
    by_cases h1 : num = -2147483648
    · rw [if_pos h1]
    · rw [if_neg h1, if_pos (by decide)]
  have hcapf : (cpu_capture_dests cornered_king_session.player_color squares
      cornered_king_session.game_board).map Prod.fst = some false := by decide
  have hq : (quiet_dests cornered_king_session.player_color squares
      cornered_king_session.game_board []).map Prod.snd = some ["BKa1-b1".toList] := by decide
  refine ⟨hzero, hcapf, hq, ?_⟩
  intro num
  have hcap : cpu_capture_dests cornered_king_session.player_color squares
      cornered_king_session.game_board = some (false, cornered_king_session.game_board) := by
    obtain ⟨res, hres, hor⟩ := cpu_capture_dests_spec cornered_king_session.player_color
      cornered_king_session.game_board squares
    rw [hres] at hcapf
    rcases hor with ⟨e, _⟩ | ⟨_, _, _, _, _, _, _, _, _, _, _, e⟩
    · rw [hres, e]
    · rw [e] at hcapf
      cases hcapf
  have hc : cornered_king_session.cpu_in_check = false := rfl
  unfold generate_cpu_move
  rw [hc]
  simp only [Bool.false_eq_true, if_false]
  rw [hcap]
  simp only
  cases hqd : quiet_dests cornered_king_session.player_color squares
      cornered_king_session.game_board [] with
  | none => rfl
  | some r =>
    obtain ⟨b3, moves⟩ := r
    rw [hqd] at hq
    have hmoves : moves = ["BKa1-b1".toList] := Option.some.inj hq
    subst hmoves
    simp only
    unfold play_random_quiet
    rw [if_neg (show ¬ (["BKa1-b1".toList].length = 0) by decide)]
    have hlen : ((["BKa1-b1".toList].length : Int) - 1) = (1 : Int) - 1 := by decide
    rw [hlen, hzero num]
    rfl

/-! ## When the scans stay inside the array -/

/-- The cell of the array at an address inside it. -/
theorem getSq_index (b : Board) (r c : Int) (h : 0 ≤ 8 * r + c ∧ 8 * r + c < 64) :
    ∃ q : Fin 8 × Fin 8, (sq_index q : Int) = 8 * r + c ∧ getSq b r c = some (b q.1 q.2) := by
  refine ⟨(⟨((8 * r + c) / 8).toNat, by omega⟩, ⟨((8 * r + c) % 8).toNat, by omega⟩), ?_, ?_⟩
  · unfold sq_index
    simp only
    push_cast
    omega
  · unfold getSq
    rw [dif_pos h]

/-- The first loop of `obstacles` for a square and itself: the scan walks to the
left from the cell before the square and never meets the column where it would
stop.  It returns `true` when one of the cells before the square, in the order
of the array, is not empty, and leaves the array when all of them are empty. -/
theorem scan_left_walk (b : Board) (stop : Int → Int → Bool) (r c : Int)
    (hstop : ∀ x, x < c → stop r x = false) (hc : 8 * r + c ≤ 64) :
    ∀ (n : Nat) (x : Int), x < c → -1 ≤ 8 * r + x → 8 * r + x + 2 ≤ n →
      ((∃ q : Fin 8 × Fin 8, (sq_index q : Int) ≤ 8 * r + x ∧ b q.1 q.2 ≠ EMPTY) →
        scan b 0 (-1) stop n r x = some true) ∧
      ((∀ q : Fin 8 × Fin 8, (sq_index q : Int) ≤ 8 * r + x → b q.1 q.2 = EMPTY) →
        scan b 0 (-1) stop n r x = none) := by
  intro n
  induction n with
  | zero =>
    intro x _ h1 h2
    exfalso
    push_cast at h2
    omega
  | succ n ih =>
    intro x hx h1 h2
    simp only [scan, add_zero]
    rw [hstop x hx]
    simp only [Bool.false_eq_true, if_false]
    by_cases hneg : 8 * r + x = -1
    · have hg : getSq b r x = none := by
        unfold getSq
        rw [dif_neg (by omega)]
      rw [hg]
      refine ⟨?_, fun _ => rfl⟩
      rintro ⟨q, hq, _⟩
      exfalso
      omega
    · obtain ⟨q0, hq0, hg⟩ := getSq_index b r x ⟨by omega, by omega⟩
      rw [hg]
      simp only
      by_cases he : b q0.1 q0.2 ≠ EMPTY
      · rw [if_pos he]
        refine ⟨fun _ => rfl, ?_⟩
        intro hall
        exact absurd (hall q0 (by omega)) he
      · rw [if_neg he]
        have hrec := ih (x + -1) (by omega) (by omega) (by push_cast at h2; omega)
        constructor
        · rintro ⟨q, hq, hne⟩
          apply hrec.1
          refine ⟨q, ?_, hne⟩
          have hqq : q ≠ q0 := by
            intro e
            rw [e] at hne
            exact he hne
          have : sq_index q ≠ sq_index q0 := fun e => hqq (sq_index_inj _ _ e)
          omega
        · intro hall
          apply hrec.2
          intro q hq
          exact hall q (by omega)

/-- The scan of `obstacles` for a square of the board and itself: `true` when a
cell before the square, in the order of the array, is not empty; no result,
the array being left at `game_board[0][-1]`, when all of them are empty. -/
theorem obstacles_own_square (b : Board) (p : Fin 8 × Fin 8) :
    ((∃ q : Fin 8 × Fin 8, sq_index q < sq_index p ∧ b q.1 q.2 ≠ EMPTY) →
      obstacles b p.1.val p.2.val p.1.val p.2.val = some true) ∧
    ((∀ q : Fin 8 × Fin 8, sq_index q < sq_index p → b q.1 q.2 = EMPTY) →
      obstacles b p.1.val p.2.val p.1.val p.2.val = none) := by
  have h1 := p.1.isLt
  have h2 := p.2.isLt
  have hidx : (sq_index p : Int) = 8 * (p.1.val : Int) + p.2.val := by
    unfold sq_index
    push_cast
    rfl
  have hw := scan_left_walk b (fun _ col => decide (col = (p.2.val : Int))) (p.1.val : Int)
    (p.2.val : Int) (fun x hx => by simp only [decide_eq_false_iff_not]; omega) (by omega)
    65 ((p.2.val : Int) + -1) (by omega) (by omega) (by push_cast; omega)
  unfold obstacles
  simp only [sub_self, gt_iff_lt, lt_self_iff_false, if_false, if_true]
  constructor
  · rintro ⟨q, hq, hne⟩
    exact hw.1 ⟨q, by omega, hne⟩
  · intro hall
    apply hw.2
    intro q hq
    exact hall q (by omega)

/-- The movement test returns for a square and itself when, for a bishop, a
rook or a queen, some cell before the square is not empty. -/
theorem movement_own_square (b : Board) (move : List Char) (p : Fin 8 × Fin 8)
    (h : (charAt move 1 = 'B' ∨ charAt move 1 = 'R' ∨ charAt move 1 = 'Q') →
      ∃ q : Fin 8 × Fin 8, sq_index q < sq_index p ∧ b q.1 q.2 ≠ EMPTY) :
    ∃ v, movement b move p.1.val p.2.val p.1.val p.2.val = some v := by
  have hpath : (charAt move 1 = 'B' ∨ charAt move 1 = 'R' ∨ charAt move 1 = 'Q') →
      ∃ v, path_free b p.1.val p.2.val p.1.val p.2.val = some v := by
    intro hk
    unfold path_free
    rw [(obstacles_own_square b p).1 (h hk)]
    exact ⟨_, rfl⟩
  unfold movement
  by_cases hP : charAt move 1 = 'P'
  · rw [if_pos hP]
    by_cases h7 : move.length = 7
    · rw [if_pos h7]
      by_cases hr : pawn_quiet_rejects move p.1.val p.2.val p.1.val p.2.val
      · rw [if_pos hr]; exact ⟨_, rfl⟩
      · exfalso
        unfold pawn_quiet_rejects at hr
        by_cases hw : charAt move 0 = 'W'
        · rw [if_pos hw] at hr; omega
        · rw [if_neg hw] at hr; omega
    · rw [if_neg h7]; exact ⟨_, rfl⟩
  rw [if_neg hP]
  by_cases hN : charAt move 1 = 'N'
  · rw [if_pos hN]
    by_cases hs : ¬ ((((p.1.val : Int) - p.1.val).natAbs = 2 ∧
          ((p.2.val : Int) - p.2.val).natAbs = 1) ∨
        (((p.1.val : Int) - p.1.val).natAbs = 1 ∧ ((p.2.val : Int) - p.2.val).natAbs = 2))
    · rw [if_pos hs]; exact ⟨_, rfl⟩
    · rw [if_neg hs]; exact ⟨_, rfl⟩
  rw [if_neg hN]
  by_cases hB : charAt move 1 = 'B'
  · rw [if_pos hB]
    by_cases hs : ¬ (((p.1.val : Int) - p.1.val).natAbs = ((p.2.val : Int) - p.2.val).natAbs)
    · rw [if_pos hs]; exact ⟨_, rfl⟩
    · rw [if_neg hs]; exact hpath (Or.inl hB)
  rw [if_neg hB]
  by_cases hR : charAt move 1 = 'R'
  · rw [if_pos hR]
    by_cases hs : ¬ ((p.1.val : Int) = p.1.val ∨ (p.2.val : Int) = p.2.val)
    · rw [if_pos hs]; exact ⟨_, rfl⟩
    · rw [if_neg hs]; exact hpath (Or.inr (Or.inl hR))
  rw [if_neg hR]
  by_cases hQ : charAt move 1 = 'Q'
  · rw [if_pos hQ]
    by_cases hs : ¬ ((p.1.val : Int) = p.1.val ∨ (p.2.val : Int) = p.2.val ∨
        ((p.1.val : Int) - p.1.val).natAbs = ((p.2.val : Int) - p.2.val).natAbs)
    · rw [if_pos hs]; exact ⟨_, rfl⟩
    · rw [if_neg hs]; exact hpath (Or.inr (Or.inr hQ))
  rw [if_neg hQ]
  by_cases hK : charAt move 1 = 'K'
  · rw [if_pos hK]
    by_cases hs : ¬ (((p.1.val : Int) - p.1.val).natAbs ≤ 1 ∧
        ((p.2.val : Int) - p.2.val).natAbs ≤ 1)
    · rw [if_pos hs]; exact ⟨_, rfl⟩
    · rw [if_neg hs]; exact ⟨_, rfl⟩
  rw [if_neg hK]
  exact ⟨_, rfl⟩

/-- A call of `validate_move` returns unless the text moves a piece that leads
the board onto its own square. -/
theorem validate_move_returns (b : Board) (move : List Char)
    (h : ∀ p : Fin 8 × Fin 8,
      ord (charAt move 3) - ord '1' = (p.1.val : Int) →
      ord (charAt move 2) - ord 'a' = (p.2.val : Int) →
      ord (charAt move 6) - ord '1' = (p.1.val : Int) →
      ord (charAt move 5) - ord 'a' = (p.2.val : Int) → ¬ leads_board b p) :
    ∃ res, validate_move b move = some res := by
  by_cases hh : header_rejects move
  · unfold validate_move
    rw [if_pos hh]
    exact ⟨_, rfl⟩
  · obtain ⟨fr, fc, tr, tc, h3, h2, h6, h5⟩ := header_squares move hh
    rw [validate_move_at b move fr fc tr tc hh h3 h2 h6 h5]
    by_cases hs : ¬ ((b fr fc).c0 = charAt move 0 ∧ (b fr fc).c1 = charAt move 1)
    · rw [if_pos hs]; exact ⟨_, rfl⟩
    · rw [if_neg hs]
      have hsrc := not_not.mp hs
      have hmov : ∃ v, movement b move fr.val fc.val tr.val tc.val = some v := by
        by_cases hne : fr ≠ tr ∨ fc ≠ tc
        · exact movement_defined b move fr fc tr tc hne
        · have e1 : tr = fr := by
            by_contra hc
            exact hne (Or.inl (fun e => hc e.symm))
          have e2 : tc = fc := by
            by_contra hc
            exact hne (Or.inr (fun e => hc e.symm))
          rw [e1, e2]
          rw [e1] at h6
          rw [e2] at h5
          have hnl := h (fr, fc) h3 h2 h6 h5
          apply movement_own_square b move (fr, fc)
          intro hk
          by_contra hcon
          apply hnl
          refine ⟨?_, ?_, ?_⟩
          · show (b fr fc).c0 = 'W' ∨ (b fr fc).c0 = 'B'
            rw [hsrc.1]
            exact header_colour move hh
          · show (b fr fc).c1 = 'B' ∨ (b fr fc).c1 = 'R' ∨ (b fr fc).c1 = 'Q'
            rw [hsrc.2]
            exact hk
          · intro q hq
            by_contra hne2
            exact hcon ⟨q, hq, hne2⟩
      obtain ⟨v, hv⟩ := hmov
      rw [hv]
      cases v with
      | false => exact ⟨_, rfl⟩
      | true => exact validate_tail_defined b move (b tr tc) fr fc tr tc

/-- The two probes of the scans, with the quiet and with the capture text of a
move from `p` to `q`, return and leave the board unless `p` leads the board and
`q` is `p`. -/
theorem generated_returns (b : Board) (p q : Fin 8 × Fin 8)
    (hown : p = q → ¬ leads_board b p) :
    (∃ r, validate_move b (generate_move_non_capture b p.1 p.2 q.1 q.2) = some (r, b)) ∧
    (∃ r, validate_move b (generate_move_capture b p.1 p.2 q.1 q.2) = some (r, b)) := by
  have hsq : ∀ move : List Char,
      ord (charAt move 3) - ord '1' = (p.1.val : Int) →
      ord (charAt move 2) - ord 'a' = (p.2.val : Int) →
      ord (charAt move 6) - ord '1' = (q.1.val : Int) →
      ord (charAt move 5) - ord 'a' = (q.2.val : Int) →
      ∃ res, validate_move b move = some res := by
    intro move h3 h2 h6 h5
    apply validate_move_returns
    intro p1 g3 g2 g6 g5
    have e1 : p1 = p := Prod.ext (Fin.ext (by omega)) (Fin.ext (by omega))
    have e2 : p1 = q := Prod.ext (Fin.ext (by omega)) (Fin.ext (by omega))
    rw [e1]
    exact hown (e1.symm.trans e2)
  constructor
  · obtain ⟨res, hres⟩ := hsq (generate_move_non_capture b p.1 p.2 q.1 q.2)
      (ord_rowChar _) (ord_colChar _) (ord_rowChar _) (ord_colChar _)
    obtain ⟨r, b1⟩ := res
    have hb := (validate_move_board _ _ _ _ hres).2.1 rfl
    rw [hb] at hres
    exact ⟨r, hres⟩
  · obtain ⟨res, hres⟩ := hsq (generate_move_capture b p.1 p.2 q.1 q.2)
      (ord_rowChar _) (ord_colChar _) (ord_rowChar _) (ord_colChar _)
    obtain ⟨r, b1⟩ := res
    have hb := (validate_move_board _ _ _ _ hres).2.2 rfl
      (fun h => absurd (show ('x' : Char) = 'y' from h) (by decide))
    rw [hb] at hres
    exact ⟨r, hres⟩

/-- The condition of the escape scans returns and leaves the board unless `p`
leads the board and `q` is `p`. -/
theorem validate_either_returns (b : Board) (p q : Fin 8 × Fin 8)
    (hown : p = q → ¬ leads_board b p) :
    ∃ v, validate_either b p.1 p.2 q.1 q.2 = some (v, b) := by
  obtain ⟨⟨r1, h1⟩, ⟨r2, h2⟩⟩ := generated_returns b p q hown
  unfold validate_either
  rw [h1]
  cases r1 with
  | true => exact ⟨true, rfl⟩
  | false =>
    simp only
    rw [h2]
    exact ⟨r2, rfl⟩

/-- A move from `p` to `q` that `validate_move` accepts with the quiet or with
the capture text: the piece on `p` has one of the two colours, and `q` is empty
or holds a piece of the other colour. -/
theorem accepted_probe (b : Board) (p q : Fin 8 × Fin 8)
    (h : (validate_move b (generate_move_non_capture b p.1 p.2 q.1 q.2)).map Prod.fst
          = some true ∨
      (validate_move b (generate_move_capture b p.1 p.2 q.1 q.2)).map Prod.fst = some true) :
    ((b p.1 p.2).c0 = 'W' ∨ (b p.1 p.2).c0 = 'B') ∧
    (b q.1 q.2 = EMPTY ∨
      (((b q.1 q.2).c0 = 'W' ∨ (b q.1 q.2).c0 = 'B') ∧ (b q.1 q.2).c0 ≠ (b p.1 p.2).c0)) := by
  have hdec : ∀ (move : List Char) (tr tc : Fin 8),
      charAt move 6 = rowChar q.1 → charAt move 5 = colChar q.2 →
      ord (charAt move 6) - ord '1' = (tr.val : Int) →
      ord (charAt move 5) - ord 'a' = (tc.val : Int) → b tr tc = b q.1 q.2 := by
    intro move tr tc e6 e5 h6 h5
    rw [e6, ord_rowChar] at h6
    rw [e5, ord_colChar] at h5
    have e1 : tr = q.1 := Fin.ext (by omega)
    have e2 : tc = q.2 := Fin.ext (by omega)
    rw [e1, e2]
  rcases h with h | h
  · obtain ⟨hh, fr, fc, tr, tc, _, _, h6, h5, _, _, htail, _⟩ := validate_move_accepts b _ h
    have hcol := header_colour _ hh
    have hd := (validate_tail_accepts b _ (b tr tc) fr.val fc.val tr.val tc.val
      (header_length _ hh) htail).1
      (fun hx => absurd (show (Char.ofNat 0 : Char) = 'x' from hx) (by decide))
    rw [hdec (generate_move_non_capture b p.1 p.2 q.1 q.2) tr tc rfl rfl h6 h5] at hd
    exact ⟨hcol, Or.inl hd⟩
  · obtain ⟨hh, fr, fc, tr, tc, _, _, h6, h5, _, _, htail, _⟩ := validate_move_accepts b _ h
    have hcol := header_colour _ hh
    have hd := (validate_tail_accepts b _ (b tr tc) fr.val fc.val tr.val tc.val
      (header_length _ hh) htail).2 rfl
    exact ⟨hcol, Or.inr ⟨hd.2.1, hd.2.2⟩⟩

/-- A king of another colour than `c` is still on the board after an accepted
move of a piece of another colour than `c`, `c` being one of the two colours:
the move lands on an empty cell or on a piece of colour `c`. -/
theorem king_survives (b : Board) (c : Char) (hc : c = 'W' ∨ c = 'B') (p q : Fin 8 × Fin 8)
    (hp : (b p.1 p.2).c0 ≠ c)
    (hacc : (validate_move b (generate_move_non_capture b p.1 p.2 q.1 q.2)).map Prod.fst
          = some true ∨
      (validate_move b (generate_move_capture b p.1 p.2 q.1 q.2)).map Prod.fst = some true)
    (hk : king_present b c) : king_present (move_piece b p q) c := by
  obtain ⟨hpc, hq⟩ := accepted_probe b p q hacc
  obtain ⟨row, col, hk1, hk0⟩ := hk
  have hqc : b q.1 q.2 = EMPTY ∨ (b q.1 q.2).c0 = c := by
    rcases hq with h | ⟨h1, h2⟩
    · exact Or.inl h
    · right
      rcases hc with e | e <;> rcases hpc with e1 | e1 <;> rcases h1 with e2 | e2 <;>
        rw [e] at hp ⊢ <;> rw [e1] at hp h2 <;> rw [e2] at h2 ⊢ <;>
        first | rfl | exact absurd rfl h2 | exact absurd rfl hp
  have hpq : ¬ (q.1 = p.1 ∧ q.2 = p.2) := by
    intro e
    rw [e.1, e.2] at hqc
    rcases hqc with h | h
    · rw [h] at hpc
      rcases hpc with e1 | e1 <;> exact absurd e1 (by decide)
    · exact hp h
  unfold king_present move_piece
  by_cases hkp : row = p.1 ∧ col = p.2
  · refine ⟨q.1, q.2, ?_, ?_⟩
    · simp only [setSq, if_neg hpq, and_self, if_true]
      rw [← hkp.1, ← hkp.2]
      exact hk1
    · simp only [setSq, if_neg hpq, and_self, if_true]
      rw [← hkp.1, ← hkp.2]
      exact hk0
  · have hkq : ¬ (row = q.1 ∧ col = q.2) := by
      intro e
      rw [e.1, e.2] at hk1 hk0
      rcases hqc with h | h
      · rw [h] at hk1
        exact absurd hk1 (by decide)
      · exact hk0 h
    refine ⟨row, col, ?_, ?_⟩
    · simp only [setSq, if_neg hkp, if_neg hkq]
      exact hk1
    · simp only [setSq, if_neg hkp, if_neg hkq]
      exact hk0

/-- The probe `try_and_undo` of an accepted move returns and leaves the board
when the board holds a king of another colour than `c`. -/
theorem try_and_undo_returns (b : Board) (c : Char) (hc : c = 'W' ∨ c = 'B')
    (p q : Fin 8 × Fin 8) (hp : (b p.1 p.2).c0 ≠ c)
    (hacc : (validate_move b (generate_move_non_capture b p.1 p.2 q.1 q.2)).map Prod.fst
          = some true ∨
      (validate_move b (generate_move_capture b p.1 p.2 q.1 q.2)).map Prod.fst = some true)
    (hk : king_present b c) :
    ∃ r, try_and_undo b p.1 p.2 q.1 q.2 c = some (r, b) := by
  obtain ⟨v, hv⟩ := is_opponent_in_check_returns _ c (king_survives b c hc p q hp hacc hk)
  refine ⟨!v, ?_⟩
  unfold move_piece at hv
  unfold try_and_undo
  simp only
  rw [hv]
  simp only
  rw [setSq_undo]

/-- The scan of the destinations of one piece in `is_opponent_in_checkmate`
returns and leaves the board when the piece does not lead the board and the
board holds a king of another colour than `c`. -/
theorem escape_dests_returns (b : Board) (c : Char) (hc : c = 'W' ∨ c = 'B')
    (p : Fin 8 × Fin 8) (hp : (b p.1 p.2).c0 ≠ c) (hl : ¬ leads_board b p)
    (hk : king_present b c) (l : List (Fin 8 × Fin 8)) :
    ∃ e, escape_dests c p.1 p.2 l b = some (e, b) := by
  induction l with
  | nil => exact ⟨false, rfl⟩
  | cons q rest ih =>
    obtain ⟨e, he⟩ := ih
    obtain ⟨v, hv⟩ := validate_either_returns b p q (fun _ => hl)
    have hvs := validate_either_spec _ _ _ _ _ _ _ hv
    simp only [escape_dests]
    rw [hv]
    cases v with
    | false => exact ⟨e, he⟩
    | true =>
      simp only
      obtain ⟨t, ht⟩ := try_and_undo_returns b c hc p q hp (hvs.mp rfl) hk
      rw [ht]
      cases t with
      | true => exact ⟨true, rfl⟩
      | false => exact ⟨e, he⟩

/-- The scan of the sources in `is_opponent_in_checkmate` returns and leaves the
board when no piece of another colour than `c` leads the board and the board
holds a king of another colour than `c`. -/
theorem escape_sources_returns (b : Board) (c : Char) (hc : c = 'W' ∨ c = 'B')
    (hsafe : scans_in_array b c) (hk : king_present b c) (l : List (Fin 8 × Fin 8)) :
    ∃ e, escape_sources c l b = some (e, b) := by
  induction l with
  | nil => exact ⟨false, rfl⟩
  | cons p rest ih =>
    obtain ⟨e, he⟩ := ih
    simp only [escape_sources]
    by_cases hp : (b p.1 p.2).c0 ≠ c
    · rw [if_pos hp]
      obtain ⟨d, hd⟩ := escape_dests_returns b c hc p hp (hsafe p hp) hk squares
      rw [hd]
      cases d with
      | true => exact ⟨true, rfl⟩
      | false => exact ⟨e, he⟩
    · rw [if_neg hp]
      exact ⟨e, he⟩

/-- The checkmate scan returns and leaves the board when `c` is one of the two
colours, the board holds a king of another colour than `c` and no piece of
another colour than `c` leads the board. -/
theorem is_opponent_in_checkmate_returns (b : Board) (c : Char) (hc : c = 'W' ∨ c = 'B')
    (hk : king_present b c) (hsafe : scans_in_array b c) :
    ∃ r, is_opponent_in_checkmate b c = some (r, b) := by
  obtain ⟨v, hv⟩ := is_opponent_in_check_returns b c hk
  unfold is_opponent_in_checkmate
  rw [hv]
  cases v with
  | false => exact ⟨false, rfl⟩
  | true =>
    simp only
    obtain ⟨e, he⟩ := escape_sources_returns b c hc hsafe hk squares
    rw [he]
    exact ⟨!e, rfl⟩

/-! ## The scan of `obstacles` for equal squares -/

/-- C24, which the program does not meet for equal squares: no cell lies
strictly between a square and itself, yet `obstacles` never returns `false`
there, since its first loop walks to the left of the square and never meets the
column where it stops.  The cells it reads are the cells before the square in
the array, through the rows below: it returns `true` when one of them is not
empty, and when all are empty it reads `game_board[0][-1]`, outside the array.
On the starting position the scan for c1 and c1 reads b1 and returns `true`, and
the scan for a8 and a8 reads h7 and returns `true`; from a1 the first cell read
is outside the array.  `validate_move` reaches the scan with `WBc1-c1`
(rejected) and with `WRa1-a1`, where the request `02 WRa1-a1` reads outside the
array. -/
theorem obstacles_equal_squares :
    (∀ (b : Board) (row col : Fin 8), path_clear b row col row col ∧
      obstacles b row.val col.val row.val col.val ≠ some false) ∧
    (∀ (b : Board) (p : Fin 8 × Fin 8),
      ((∃ q : Fin 8 × Fin 8, sq_index q < sq_index p ∧ b q.1 q.2 ≠ EMPTY) ∧
        obstacles b p.1.val p.2.val p.1.val p.2.val = some true) ∨
      ((∀ q : Fin 8 × Fin 8, sq_index q < sq_index p → b q.1 q.2 = EMPTY) ∧
        obstacles b p.1.val p.2.val p.1.val p.2.val = none)) ∧
    (∀ b : Board, obstacles b 0 0 0 0 = none) ∧
    obstacles initialize_board 0 2 0 2 = some true ∧
    obstacles initialize_board 7 0 7 0 = some true ∧
    (validate_move initialize_board "WBc1-c1".toList).map Prod.fst = some false ∧
    (validate_move initialize_board "WRa1-a1".toList).map Prod.fst = none ∧
    (chess_write opening_session "02 WRa1-a1\n".toList 0).map Session.output_message
      = none := by
  have hown : ∀ (b : Board) (p : Fin 8 × Fin 8),
      ((∃ q : Fin 8 × Fin 8, sq_index q < sq_index p ∧ b q.1 q.2 ≠ EMPTY) ∧
        obstacles b p.1.val p.2.val p.1.val p.2.val = some true) ∨
      ((∀ q : Fin 8 × Fin 8, sq_index q < sq_index p → b q.1 q.2 = EMPTY) ∧
        obstacles b p.1.val p.2.val p.1.val p.2.val = none) := by
    intro b p
    by_cases h : ∃ q : Fin 8 × Fin 8, sq_index q < sq_index p ∧ b q.1 q.2 ≠ EMPTY
    · exact Or.inl ⟨h, (obstacles_own_square b p).1 h⟩
    · have hall : ∀ q : Fin 8 × Fin 8, sq_index q < sq_index p → b q.1 q.2 = EMPTY := by
        intro q hq
        by_contra hne
        exact h ⟨q, hq, hne⟩
      exact Or.inr ⟨hall, (obstacles_own_square b p).2 hall⟩
  refine ⟨?_, hown, ?_, by decide, by decide, by decide, by decide, by decide⟩
  · intro b row col
    constructor
    · intro i hi
      omega
    · rcases hown b (row, col) with ⟨_, h⟩ | ⟨_, h⟩
      · intro hf
        rw [show obstacles b (row.val : Int) col.val row.val col.val = some true from h] at hf
        cases hf
      · intro hf
        rw [show obstacles b (row.val : Int) col.val row.val col.val = none from h] at hf
        cases hf
  · intro b
    exact (obstacles_own_square b (0, 0)).2 (fun q hq => absurd hq (Nat.not_lt_zero _))

/-! ## The scans return -/

/-- The scan of the destinations of one piece in the first part of
`generate_cpu_move` returns when the piece does not lead the board and the
board holds a king of another colour than the human's. -/
theorem cpu_escape_dests_returns (b : Board) (pc : Char) (hc : pc = 'W' ∨ pc = 'B')
    (p : Fin 8 × Fin 8) (hp : (b p.1 p.2).c0 ≠ pc) (hl : ¬ leads_board b p)
    (hk : king_present b pc) (l : List (Fin 8 × Fin 8)) :
    ∃ res, cpu_escape_dests pc p.1 p.2 l b = some res := by
  induction l with
  | nil => exact ⟨_, rfl⟩
  | cons q rest ih =>
    obtain ⟨v, hv⟩ := validate_either_returns b p q (fun _ => hl)
    have hvs := validate_either_spec _ _ _ _ _ _ _ hv
    simp only [cpu_escape_dests]
    rw [hv]
    cases v with
    | false => exact ih
    | true =>
      simp only
      obtain ⟨t, ht⟩ := try_and_undo_returns b pc hc p q hp (hvs.mp rfl) hk
      rw [ht]
      cases t with
      | true =>
        simp only
        rw [update_generated_quiet]
        exact ⟨_, rfl⟩
      | false => exact ih

/-- The scan of the sources in the first part of `generate_cpu_move` returns when
no piece of another colour than the human's leads the board and the board holds
a king of another colour than the human's. -/
theorem cpu_escape_sources_returns (b : Board) (pc : Char) (hc : pc = 'W' ∨ pc = 'B')
    (hsafe : scans_in_array b pc) (hk : king_present b pc) (l : List (Fin 8 × Fin 8)) :
    ∃ res, cpu_escape_sources pc l b = some res := by
  induction l with
  | nil => exact ⟨_, rfl⟩
  | cons p rest ih =>
    simp only [cpu_escape_sources]
    by_cases hp : (b p.1 p.2).c0 ≠ pc
    · rw [if_pos hp]
      obtain ⟨res, hres⟩ := cpu_escape_dests_returns b pc hc p hp (hsafe p hp) hk squares
      rcases cpu_escape_dests_spec pc p b hp squares res hres with ⟨e, _⟩ |
        ⟨_, _, _, _, _, _, e⟩
      · rw [hres, e]
        exact ih
      · rw [hres, e]
        exact ⟨_, rfl⟩
    · rw [if_neg hp]
      exact ih

/-- C16: when the cached check flag is set, the board holds the automatic
side's king and none of its pieces leads the board (so that the scan stays
inside `game_board`), and some move of the automatic side is accepted by
`validate_move`, as a quiet move or as a capture, and passes `try_and_undo`:
`generate_cpu_move` returns, for every value of the random source, the session
with the first such move made, the sources taken in row-major order and, for
one source, the destinations in row-major order; the check flag is cleared, and
on the resulting board `is_opponent_in_check` of the human's colour returns
`false`. -/
theorem cpu_escapes_check (s : Session) (hcheck : s.cpu_in_check = true)
    (hcol : (s.player_color = 'W' ∧ s.cpu_color = 'B') ∨
      (s.player_color = 'B' ∧ s.cpu_color = 'W'))
    (hk : king_present s.game_board s.player_color)
    (hsafe : scans_in_array s.game_board s.player_color)
    (hex : ∃ p q : Fin 8 × Fin 8,
      automatic_escape s.game_board s.player_color s.cpu_color p q) :
    ∃ p q : Fin 8 × Fin 8,
      automatic_escape s.game_board s.player_color s.cpu_color p q ∧
      (∀ p1 q1 : Fin 8 × Fin 8,
        automatic_escape s.game_board s.player_color s.cpu_color p1 q1 →
        sq_index p < sq_index p1 ∨ (p1 = p ∧ sq_index q ≤ sq_index q1)) ∧
      (∀ num : Int, generate_cpu_move s num
        = some { s with game_board := move_piece s.game_board p q, cpu_in_check := false }) ∧
      is_opponent_in_check (move_piece s.game_board p q) s.player_color
        = some (false, move_piece s.game_board p q) := by
  have hc : s.player_color = 'W' ∨ s.player_color = 'B' := by
    rcases hcol with h | h
    · exact Or.inl h.1
    · exact Or.inr h.1
  obtain ⟨res, hres⟩ :=
    cpu_escape_sources_returns s.game_board s.player_color hc hsafe hk squares
  rcases cpu_escape_sources_spec s.player_color s.game_board squares res hres with
    ⟨_, hall⟩ | ⟨l1, p, l2, m1, q, m2, hl, hm, hbefore, hbefore2, hp, e⟩
  · exfalso
    obtain ⟨p, q, hpq⟩ := hex
    exact hall p (squares_mem p.1 p.2) q
      ((escape_tests_iff s.game_board s.player_color s.cpu_color hcol p q).mpr hpq)
  · have hauto := (escape_tests_iff _ _ _ hcol p q).mp hp
    refine ⟨p, q, hauto, ?_, ?_, ?_⟩
    · intro p1 q1 h1
      have ht := (escape_tests_iff _ _ _ hcol p1 q1).mpr h1
      rcases Nat.lt_trichotomy (sq_index p) (sq_index p1) with hlt | heq | hgt
      · exact Or.inl hlt
      · right
        have hq : p1 = p := (sq_index_inj _ _ heq).symm
        refine ⟨hq, ?_⟩
        by_contra hcon
        have hmem : q1 ∈ m1 := (visited_before m1 m2 q q1 hm).mpr (by omega)
        rw [hq] at ht
        exact hbefore2 q1 hmem ht
      · exfalso
        have hmem : p1 ∈ l1 := (visited_before l1 l2 p p1 hl).mpr hgt
        exact hbefore p1 hmem q1 ht
    · intro num
      unfold generate_cpu_move
      rw [hcheck]
      simp only [if_true]
      rw [hres, e]
    · have h3 := hauto.2.2
      cases ht : try_and_undo s.game_board p.1 p.2 q.1 q.2 s.player_color with
      | none => rw [ht] at h3; cases h3
      | some r =>
        obtain ⟨v, b1⟩ := r
        rw [ht] at h3
        have hv : v = true := Option.some.inj h3
        subst hv
        exact try_and_undo_true _ _ _ _ _ _ _ ht

set_option maxRecDepth 1000000 in
theorem cpu_escapes_check_witness :
    guarded_check_session.cpu_in_check = true ∧
    guarded_check_session.game_board 7 0 = ⟨'B', 'R'⟩ ∧
    king_present guarded_check_session.game_board guarded_check_session.player_color ∧
    scans_in_array guarded_check_session.game_board guarded_check_session.player_color ∧
    automatic_escape guarded_check_session.game_board guarded_check_session.player_color
      guarded_check_session.cpu_color (7, 7) (6, 6) ∧
    (generate_cpu_move guarded_check_session 0).map
        (fun s1 => (s1.game_board 6 6, s1.game_board 7 7, s1.cpu_in_check))
      = some (⟨'B', 'K'⟩, EMPTY, false) ∧
    ∃ p q : Fin 8 × Fin 8,
      automatic_escape guarded_check_session.game_board guarded_check_session.player_color
        guarded_check_session.cpu_color p q ∧
      (∀ p1 q1 : Fin 8 × Fin 8,
        automatic_escape guarded_check_session.game_board guarded_check_session.player_color
          guarded_check_session.cpu_color p1 q1 →
        sq_index p < sq_index p1 ∨ (p1 = p ∧ sq_index q ≤ sq_index q1)) ∧
      (∀ num : Int, generate_cpu_move guarded_check_session num
        = some { guarded_check_session with
            game_board := move_piece guarded_check_session.game_board p q
            cpu_in_check := false }) ∧
      is_opponent_in_check (move_piece guarded_check_session.game_board p q)
          guarded_check_session.player_color
        = some (false, move_piece guarded_check_session.game_board p q) :=
  ⟨by decide, by decide, by decide, by decide,
    ⟨by decide, Or.inl (by decide), by decide⟩, by decide,
    cpu_escapes_check guarded_check_session (by decide) (by decide) (by decide) (by decide)
      ⟨(7, 7), (6, 6), ⟨by decide, Or.inl (by decide), by decide⟩⟩⟩

/-- The result of a call of `is_opponent_in_checkmate` that returns. -/
theorem checkmate_result (b : Board) (c : Char) (r : Bool)
    (h : (is_opponent_in_checkmate b c).map Prod.fst = some r) :
    r = true ↔
      (is_opponent_in_check b c).map Prod.fst = some true ∧
      ¬ ∃ row col new_row new_col : Fin 8, (b row col).c0 ≠ c ∧
        ((validate_move b (generate_move_non_capture b row col new_row new_col)).map Prod.fst
            = some true ∨
          (validate_move b (generate_move_capture b row col new_row new_col)).map Prod.fst
            = some true) ∧
        (try_and_undo b row col new_row new_col c).map Prod.fst = some true := by
  unfold is_opponent_in_checkmate at h
  cases hv : is_opponent_in_check b c with
  | none => rw [hv] at h; cases h
  | some res =>
    obtain ⟨v, b2⟩ := res
    have hb : b2 = b := is_opponent_in_check_board _ _ _ _ hv
    subst hb
    rw [hv] at h
    cases v with
    | false =>
      cases h
      constructor
      · intro h; cases h
      · rintro ⟨h1, _⟩; cases h1
    | true =>
      simp only at h
      cases he : escape_sources c squares b2 with
      | none => rw [he] at h; cases h
      | some res2 =>
        obtain ⟨e, b3⟩ := res2
        rw [he] at h
        have hes := escape_sources_spec c b2 squares e b3 he
        have hr : r = !e := (Option.some.inj h).symm
        constructor
        · intro hrt
          refine ⟨rfl, ?_⟩
          rintro ⟨row, col, nr, nc, h0, h1, h2⟩
          have : e = true :=
            hes.mpr ⟨(row, col), squares_mem row col, h0, (nr, nc), squares_mem nr nc, h1, h2⟩
          rw [hr, this] at hrt
          cases hrt
        · rintro ⟨_, hno⟩
          cases e with
          | false => exact hr
          | true =>
            exfalso
            obtain ⟨p, _, h0, q, _, h1, h2⟩ := hes.mp rfl
            exact hno ⟨p.1, p.2, q.1, q.2, h0, h1, h2⟩

/-- C4: for every board and attacker colour `c`, a call of
`is_opponent_in_checkmate` returns `true` if and only if `is_opponent_in_check`
returns `true` and no piece that is not of colour `c` has a move, accepted by
`validate_move` with the quiet or with the capture text, for which
`try_and_undo` returns `true`; in particular `true` implies check.  This holds
for every call that returns, and the call does return, with the board as it
was, whenever `c` is one of the two colours, the board holds a king of another
colour and no piece of another colour leads the board, which is when the scan
stays inside `game_board`. -/
theorem checkmate_iff_check_without_escape (b : Board) (c : Char) :
    (∀ r : Bool, (is_opponent_in_checkmate b c).map Prod.fst = some r →
      (r = true ↔
        (is_opponent_in_check b c).map Prod.fst = some true ∧
        ¬ ∃ row col new_row new_col : Fin 8, (b row col).c0 ≠ c ∧
          ((validate_move b (generate_move_non_capture b row col new_row new_col)).map Prod.fst
              = some true ∨
            (validate_move b (generate_move_capture b row col new_row new_col)).map Prod.fst
              = some true) ∧
          (try_and_undo b row col new_row new_col c).map Prod.fst = some true) ∧
      (r = true → (is_opponent_in_check b c).map Prod.fst = some true)) ∧
    ((c = 'W' ∨ c = 'B') → king_present b c → scans_in_array b c →
      ∃ r : Bool, is_opponent_in_checkmate b c = some (r, b) ∧
        (r = true ↔
          is_opponent_in_check b c = some (true, b) ∧
          ¬ ∃ row col new_row new_col : Fin 8, (b row col).c0 ≠ c ∧
            ((validate_move b (generate_move_non_capture b row col new_row new_col)).map
                Prod.fst = some true ∨
              (validate_move b (generate_move_capture b row col new_row new_col)).map Prod.fst
                = some true) ∧
            (try_and_undo b row col new_row new_col c).map Prod.fst = some true)) := by
  refine ⟨fun r h => ⟨checkmate_result b c r h, fun hr => ((checkmate_result b c r h).mp hr).1⟩,
    ?_⟩
  intro hc hk hsafe
  obtain ⟨r, hr⟩ := is_opponent_in_checkmate_returns b c hc hk hsafe
  refine ⟨r, hr, ?_⟩
  have hres := checkmate_result b c r (by rw [hr]; rfl)
  rw [hres]
  constructor
  · rintro ⟨h1, h2⟩
    exact ⟨result_of_fst (is_opponent_in_check_board b c) h1, h2⟩
  · rintro ⟨h1, h2⟩
    exact ⟨by rw [h1]; rfl, h2⟩

/-- The checkmate scan on the position of `slider_mate_board`, where Black holds
a bishop: the scan returns `true`. -/
theorem slider_mate_checkmate :
    (is_opponent_in_checkmate slider_mate_board 'W').map Prod.fst = some true := by
  decide!

theorem checkmate_iff_check_without_escape_witness :
    slider_mate_board 0 6 = ⟨'B', 'B'⟩ ∧
    (is_opponent_in_checkmate slider_mate_board 'W').map Prod.fst = some true ∧
    ((true = true ↔
        (is_opponent_in_check slider_mate_board 'W').map Prod.fst = some true ∧
        ¬ ∃ row col new_row new_col : Fin 8, (slider_mate_board row col).c0 ≠ 'W' ∧
          ((validate_move slider_mate_board
              (generate_move_non_capture slider_mate_board row col new_row new_col)).map
                Prod.fst = some true ∨
            (validate_move slider_mate_board
              (generate_move_capture slider_mate_board row col new_row new_col)).map
                Prod.fst = some true) ∧
          (try_and_undo slider_mate_board row col new_row new_col 'W').map Prod.fst
            = some true) ∧
      (true = true →
        (is_opponent_in_check slider_mate_board 'W').map Prod.fst = some true)) ∧
    (king_present slider_mate_board 'W' ∧ scans_in_array slider_mate_board 'W') ∧
    ∃ r : Bool, is_opponent_in_checkmate slider_mate_board 'W' = some (r, slider_mate_board) ∧
      (r = true ↔
        is_opponent_in_check slider_mate_board 'W' = some (true, slider_mate_board) ∧
        ¬ ∃ row col new_row new_col : Fin 8, (slider_mate_board row col).c0 ≠ 'W' ∧
          ((validate_move slider_mate_board
              (generate_move_non_capture slider_mate_board row col new_row new_col)).map
                Prod.fst = some true ∨
            (validate_move slider_mate_board
              (generate_move_capture slider_mate_board row col new_row new_col)).map
                Prod.fst = some true) ∧
          (try_and_undo slider_mate_board row col new_row new_col 'W').map Prod.fst
            = some true) :=
  ⟨by decide, slider_mate_checkmate,
    (checkmate_iff_check_without_escape slider_mate_board 'W').1 true slider_mate_checkmate,
    ⟨by decide, by decide⟩,
    (checkmate_iff_check_without_escape slider_mate_board 'W').2 (Or.inl rfl) (by decide)
      (by decide)⟩

/-- C7: for every board and colour, a call of `is_opponent_in_check` or of
`is_opponent_in_checkmate` that returns, returns with the board exactly as it
was; and no probe of the scans changes the board: `validate_move` on a text of
`generate_move_capture` or `generate_move_non_capture` returns with the board
it was given, so the promotion write is never made.  The calls do return:
`is_opponent_in_check` whenever the board holds a king of another colour than
`c`; `is_opponent_in_checkmate` whenever, besides, `c` is one of the two
colours and no piece of another colour leads the board; a probe whenever it
does not move a piece that leads the board onto its own square. -/
theorem scans_leave_board (b : Board) (c : Char) :
    (∀ r : Bool, (is_opponent_in_check b c).map Prod.fst = some r →
      is_opponent_in_check b c = some (r, b)) ∧
    (∀ r : Bool, (is_opponent_in_checkmate b c).map Prod.fst = some r →
      is_opponent_in_checkmate b c = some (r, b)) ∧
    (∀ (from_row from_col to_row to_col : Fin 8) (r : Bool),
      (validate_move b (generate_move_capture b from_row from_col to_row to_col)).map Prod.fst
          = some r →
        validate_move b (generate_move_capture b from_row from_col to_row to_col)
          = some (r, b)) ∧
    (∀ (from_row from_col to_row to_col : Fin 8) (r : Bool),
      (validate_move b (generate_move_non_capture b from_row from_col to_row to_col)).map
          Prod.fst = some r →
        validate_move b (generate_move_non_capture b from_row from_col to_row to_col)
          = some (r, b)) ∧
    (king_present b c → ∃ r : Bool, is_opponent_in_check b c = some (r, b)) ∧
    ((c = 'W' ∨ c = 'B') → king_present b c → scans_in_array b c →
      ∃ r : Bool, is_opponent_in_checkmate b c = some (r, b)) ∧
    (∀ p q : Fin 8 × Fin 8, (p = q → ¬ leads_board b p) →
      (∃ r : Bool, validate_move b (generate_move_non_capture b p.1 p.2 q.1 q.2)
        = some (r, b)) ∧
      (∃ r : Bool, validate_move b (generate_move_capture b p.1 p.2 q.1 q.2)
        = some (r, b))) :=
  ⟨fun _ h => result_of_fst (is_opponent_in_check_board b c) h,
    fun _ h => result_of_fst (is_opponent_in_checkmate_board b c) h,
    fun _ _ _ _ _ h => result_of_fst
      (fun r1 b1 hv => (validate_move_board _ _ r1 b1 hv).2.2 rfl
        (show ('x' : Char) ≠ 'y' by decide)) h,
    fun _ _ _ _ _ h => result_of_fst
      (fun r1 b1 hv => (validate_move_board _ _ r1 b1 hv).2.1 rfl) h,
    fun hk => is_opponent_in_check_returns b c hk,
    fun hc hk hsafe => is_opponent_in_checkmate_returns b c hc hk hsafe,
    fun p q h => generated_returns b p q h⟩

theorem scans_leave_board_witness :
    ((is_opponent_in_check checked_promotion_session.game_board 'B').map Prod.fst
        = some true ∧
      is_opponent_in_check checked_promotion_session.game_board 'B'
        = some (true, checked_promotion_session.game_board)) ∧
    ((is_opponent_in_checkmate checked_promotion_session.game_board 'B').map Prod.fst
        = some false ∧
      is_opponent_in_checkmate checked_promotion_session.game_board 'B'
        = some (false, checked_promotion_session.game_board)) ∧
    ((validate_move promotion_blocked_board
        (generate_move_capture promotion_blocked_board 6 0 7 0)).map Prod.fst = some false ∧
      validate_move promotion_blocked_board
        (generate_move_capture promotion_blocked_board 6 0 7 0)
        = some (false, promotion_blocked_board)) ∧
    ((validate_move promotion_board
        (generate_move_non_capture promotion_board 6 0 7 0)).map Prod.fst = some false ∧
      validate_move promotion_board (generate_move_non_capture promotion_board 6 0 7 0)
        = some (false, promotion_board)) ∧
    (king_present slider_mate_board 'W' ∧
      ∃ r : Bool, is_opponent_in_check slider_mate_board 'W' = some (r, slider_mate_board)) ∧
    (scans_in_array slider_mate_board 'W' ∧
      (∃ r : Bool, is_opponent_in_checkmate slider_mate_board 'W'
        = some (r, slider_mate_board)) ∧
      is_opponent_in_checkmate slider_mate_board 'W' = some (true, slider_mate_board)) ∧
    (slider_mate_board 0 6 = ⟨'B', 'B'⟩ ∧ ¬ leads_board slider_mate_board (0, 6) ∧
      (∃ r : Bool, validate_move slider_mate_board
          (generate_move_non_capture slider_mate_board 0 6 0 6) = some (r, slider_mate_board)) ∧
      ∃ r : Bool, validate_move slider_mate_board
          (generate_move_capture slider_mate_board 0 6 0 6) = some (r, slider_mate_board)) :=
  ⟨⟨by decide, (scans_leave_board checked_promotion_session.game_board 'B').1 true (by decide)⟩,
    ⟨by decide,
      (scans_leave_board checked_promotion_session.game_board 'B').2.1 false (by decide)⟩,
    ⟨by decide,
      (scans_leave_board promotion_blocked_board 'W').2.2.1 6 0 7 0 false (by decide)⟩,
    ⟨by decide, (scans_leave_board promotion_board 'W').2.2.2.1 6 0 7 0 false (by decide)⟩,
    ⟨by decide, (scans_leave_board slider_mate_board 'W').2.2.2.2.1 (by decide)⟩,
    ⟨by decide,
      (scans_leave_board slider_mate_board 'W').2.2.2.2.2.1 (Or.inl rfl) (by decide)
        (by decide),
      (scans_leave_board slider_mate_board 'W').2.1 true slider_mate_checkmate⟩,
    ⟨by decide, by decide,
      (scans_leave_board slider_mate_board 'W').2.2.2.2.2.2 (0, 6) (0, 6)
        (fun _ => by decide)⟩⟩

/-! ## The answer to a human move -/

/-- A move that passes the three tests of `handle_player_move` in an active game
with the human to move: the human's colour is one of the two, the move is made
on the board, the human's own king is not attacked there, and the answer is the
one of `classify_player_move` on that board. -/
theorem handle_player_move_passes (s : Session) (move : List Char)
    (hs : s.game_started = true) (ht : s.player_turn = true) (hacc : move_accepted s move) :
    (s.player_color = 'W' ∨ s.player_color = 'B') ∧
    ∃ b2, validate_then_update s.game_board move = some b2 ∧
      is_opponent_in_check b2 s.cpu_color = some (false, b2) ∧
      handle_player_move s move = classify_player_move s b2 := by
  obtain ⟨h0, hb⟩ := hacc
  cases hv : validate_move s.game_board move with
  | none => rw [hv] at hb; cases hb
  | some res =>
    obtain ⟨v, b1⟩ := res
    rw [hv] at hb
    cases v with
    | false => cases hb
    | true =>
      have hb1 : (try_and_undo_move b1 move s.cpu_color).map Prod.fst = some true := hb
      have hvacc : (validate_move s.game_board move).map Prod.fst = some true := by
        rw [hv]; rfl
      obtain ⟨hh, fr, fc, tr, tc, h3, h2, h6, h5, _⟩ := validate_move_accepts _ _ hvacc
      have htm := try_and_undo_move_at b1 move s.cpu_color fr fc tr tc h3 h2 h6 h5
      rw [htm] at hb1
      have htu : try_and_undo b1 fr fc tr tc s.cpu_color = some (true, b1) :=
        result_of_fst (try_and_undo_board b1 fr fc tr tc s.cpu_color) hb1
      have hupd := update_game_state_at b1 move fr fc tr tc h3 h2 h6 h5
      refine ⟨?_, setSq (setSq b1 tr tc (b1 fr fc)) fr fc EMPTY, ?_,
        try_and_undo_true b1 fr fc tr tc s.cpu_color b1 htu, ?_⟩
      · rw [← h0]
        exact header_colour move hh
      · unfold validate_then_update
        rw [hv]
        exact hupd
      · unfold handle_player_move
        rw [hs, ht]
        simp only [Bool.not_true, Bool.false_eq_true, if_false]
        rw [if_neg (not_not.mpr h0), hv]
        simp only
        rw [htm, htu]
        simp only
        rw [hupd]

/-- The end of `handle_player_move` returns when the human's colour is one of
the two, the board holds a king of another colour and no piece of another
colour leads the board. -/
theorem classify_player_move_returns (s : Session) (b : Board)
    (hc : s.player_color = 'W' ∨ s.player_color = 'B')
    (hk : king_present b s.player_color) (hsafe : scans_in_array b s.player_color) :
    ∃ s1, classify_player_move s b = some s1 := by
  obtain ⟨r, hr⟩ := is_opponent_in_checkmate_returns b s.player_color hc hk hsafe
  obtain ⟨v, hv⟩ := is_opponent_in_check_returns b s.player_color hk
  unfold classify_player_move
  rw [hr]
  cases r with
  | true => exact ⟨_, rfl⟩
  | false =>
    simp only
    rw [hv]
    cases v with
    | true => exact ⟨_, rfl⟩
    | false => exact ⟨_, rfl⟩

/-- C18: for a human move that `handle_player_move` answers with `OK`, `CHECK`
or `MATE`, the board of the session is the board with the move made and the
human's own king is not attacked there: `is_opponent_in_check` of the automatic
colour returns `false`.  In an active game with the human to move, every move
that passes the three tests leads to such a board, and it is answered with
`OK`, `CHECK` or `MATE` whenever that board holds the automatic side's king and
none of its pieces leads the board. -/
theorem accepted_move_keeps_own_king_safe (s : Session) (move : List Char) :
    (∀ msg : String, (handle_player_move s move).map Session.output_message = some msg →
      msg ≠ "NOGAME\n" ∧ msg ≠ "OOT\n" ∧ msg ≠ "ILLMOVE\n" →
      ∃ (s1 : Session) (b2 : Board), handle_player_move s move = some s1 ∧
        validate_then_update s.game_board move = some b2 ∧ s1.game_board = b2 ∧
        is_opponent_in_check b2 s.cpu_color = some (false, b2)) ∧
    (s.game_started = true → s.player_turn = true → move_accepted s move →
      ∃ b2 : Board, validate_then_update s.game_board move = some b2 ∧
        is_opponent_in_check b2 s.cpu_color = some (false, b2)) ∧
    (s.game_started = true → s.player_turn = true → move_accepted s move →
      (∀ b2 : Board, validate_then_update s.game_board move = some b2 →
        king_present b2 s.player_color ∧ scans_in_array b2 s.player_color) →
      ∃ (s1 : Session) (b2 : Board), handle_player_move s move = some s1 ∧
        validate_then_update s.game_board move = some b2 ∧ s1.game_board = b2 ∧
        is_opponent_in_check b2 s.cpu_color = some (false, b2) ∧
        (s1.output_message = "OK\n" ∨ s1.output_message = "CHECK\n" ∨
          s1.output_message
            = (if s.player_color = 'W' then "MATE\nWHITE WINS\n"
                else "MATE\nBLACK WINS\n"))) := by
  refine ⟨?_, ?_, ?_⟩
  · intro msg h hmsg
    obtain ⟨s1, hs1, _⟩ := map_some_elim h
    obtain ⟨b1, fr, fc, tr, tc, _, _, _, hv, h3, h2, h6, h5, htu, hcl⟩ :=
      handle_player_move_accepted s move msg h hmsg
    have hvtu : validate_then_update s.game_board move
        = some (setSq (setSq b1 tr tc (b1 fr fc)) fr fc EMPTY) := by
      unfold validate_then_update
      rw [hv]
      exact update_game_state_at b1 move fr fc tr tc h3 h2 h6 h5
    refine ⟨s1, _, hs1, hvtu, ?_, try_and_undo_true b1 fr fc tr tc s.cpu_color b1 htu⟩
    rw [hcl] at hs1
    rcases classify_player_move_cases s _ s1 hs1 with ⟨_, e⟩ | ⟨_, _, e⟩ | ⟨_, _, e⟩ <;>
      (subst e; rfl)
  · intro hs ht hacc
    obtain ⟨_, b2, hvtu, hioc, _⟩ := handle_player_move_passes s move hs ht hacc
    exact ⟨b2, hvtu, hioc⟩
  · intro hs ht hacc hsafe
    obtain ⟨hc, b2, hvtu, hioc, hcl⟩ := handle_player_move_passes s move hs ht hacc
    obtain ⟨hk, hsf⟩ := hsafe b2 hvtu
    obtain ⟨s1, hs1⟩ := classify_player_move_returns s b2 hc hk hsf
    refine ⟨s1, b2, by rw [hcl, hs1], hvtu, ?_, hioc, ?_⟩
    · rcases classify_player_move_cases s _ s1 hs1 with ⟨_, e⟩ | ⟨_, _, e⟩ | ⟨_, _, e⟩ <;>
        (subst e; rfl)
    · rcases classify_player_move_cases s _ s1 hs1 with ⟨_, e⟩ | ⟨_, _, e⟩ | ⟨_, _, e⟩
      · subst e
        exact Or.inr (Or.inr rfl)
      · subst e
        exact Or.inr (Or.inl rfl)
      · subst e
        exact Or.inl rfl

/-- The answer to `WNe5-f7` in the position of `back_rank_session`. -/
theorem back_rank_check_answer :
    (handle_player_move back_rank_session "WNe5-f7".toList).map Session.output_message
      = some "CHECK\n" := by
  decide!

theorem accepted_move_keeps_own_king_safe_witness :
    back_rank_session.game_board 0 6 = ⟨'B', 'B'⟩ ∧
    move_accepted back_rank_session "WNe5-f7".toList ∧
    (∃ (s1 : Session) (b2 : Board),
      handle_player_move back_rank_session "WNe5-f7".toList = some s1 ∧
      validate_then_update back_rank_session.game_board "WNe5-f7".toList = some b2 ∧
      s1.game_board = b2 ∧
      is_opponent_in_check b2 back_rank_session.cpu_color = some (false, b2)) ∧
    (∃ b2 : Board,
      validate_then_update back_rank_session.game_board "WNe5-f7".toList = some b2 ∧
      is_opponent_in_check b2 back_rank_session.cpu_color = some (false, b2)) ∧
    ∃ (s1 : Session) (b2 : Board),
      handle_player_move back_rank_session "WNe5-f7".toList = some s1 ∧
      validate_then_update back_rank_session.game_board "WNe5-f7".toList = some b2 ∧
      s1.game_board = b2 ∧
      is_opponent_in_check b2 back_rank_session.cpu_color = some (false, b2) ∧
      (s1.output_message = "OK\n" ∨ s1.output_message = "CHECK\n" ∨
        s1.output_message
          = (if back_rank_session.player_color = 'W' then "MATE\nWHITE WINS\n"
              else "MATE\nBLACK WINS\n")) := by
  have hsafe : (validate_then_update back_rank_session.game_board "WNe5-f7".toList).map
      (fun b2 => decide (king_present b2 back_rank_session.player_color ∧
        scans_in_array b2 back_rank_session.player_color)) = some true := by decide
  refine ⟨by decide, by decide, ?_, ?_, ?_⟩
  · exact (accepted_move_keeps_own_king_safe back_rank_session "WNe5-f7".toList).1 "CHECK\n"
      back_rank_check_answer (by decide)
  · exact (accepted_move_keeps_own_king_safe back_rank_session "WNe5-f7".toList).2.1
      (by decide) (by decide) (by decide)
  · refine (accepted_move_keeps_own_king_safe back_rank_session "WNe5-f7".toList).2.2
      (by decide) (by decide) (by decide) ?_
    intro b2 h
    rw [h] at hsafe
    exact of_decide_eq_true (Option.some.inj hsafe)

end Chess
